import Mathlib

/-!
# Render graph: pass resolution and usage declaration

Shallow embedding of `src/graphics/private/render_graph.cpp` (namespace `Graphics`).

* 32-bit signed integers (`i32`) are embedded as `Int`; the only arithmetic on them in the
  embedded functions is the version increment, which is written with an explicit
  two's-complement wrap (`wrapI32`).
* `Core::Vector<T>` is embedded as `List T`, a pointer to a pass entry as the entry it points to.
* A function that indexes a vector returns `none` when the index is outside the vector.
* The recursion of `AddDependencies` is bounded by a recursion-depth budget (`fuel`);
  `none` is returned when the budget is exhausted.
-/

namespace Graphics

/-! ## Data model -/

/-- Two's-complement wrap of an integer into the range of `i32`. -/
def wrapI32 (x : Int) : Int := (x + 2147483648) % 4294967296 - 2147483648

/-- The enumeration `GPU::ResourceType`. The source names the enumerators `INVALID`, `BUFFER`,
`TEXTURE` and `SWAP_CHAIN`; `OTHER` stands for every enumerator the render graph never names. -/
inductive ResourceType where
  | INVALID
  | SWAP_CHAIN
  | BUFFER
  | TEXTURE
  | OTHER
  deriving DecidableEq, Repr

/-- Modelled from the spec: `GPU::Handle` (declared in `core/handle.h`, which is not among the
sources). A backend handle carries the type of the resource it names and an index; the
default-constructed handle is the null handle, which converts to `false`. -/
structure Handle where
  type_ : ResourceType := ResourceType.INVALID
  index_ : Nat := 0
  deriving DecidableEq, Repr

/-- The conversion `operator bool` of a handle: `true` for every handle but the null one. -/
def Handle.isValid (h : Handle) : Bool := decide (h.type_ ≠ ResourceType.INVALID)

/-- The method `GPU::Handle::GetType`. -/
def Handle.GetType (h : Handle) : ResourceType := h.type_

/-- The class `RenderGraphResource`: a resource id and a version, both `i32`. -/
structure RenderGraphResource where
  idx_ : Int
  version_ : Int
  deriving DecidableEq, Repr

/-- The struct `RenderGraphBufferDesc`; `bindFlags_` is a bit mask of `GPU::BindFlags`. -/
structure RenderGraphBufferDesc where
  bindFlags_ : Nat := 0
  size_ : Int := 0
  deriving DecidableEq, Repr

/-- The struct `RenderGraphTextureDesc`; `bindFlags_` is a bit mask of `GPU::BindFlags`. -/
structure RenderGraphTextureDesc where
  bindFlags_ : Nat := 0
  width_ : Int := 0
  height_ : Int := 0
  deriving DecidableEq, Repr

/-- Modelled from the spec: `RenderPassImpl` (declared in `graphics/private/render_pass_impl.h`,
which is not among the sources): the ordered input references and output references a pass has
declared. -/
structure RenderPassImpl where
  inputs_ : List RenderGraphResource := []
  outputs_ : List RenderGraphResource := []
  deriving DecidableEq, Repr

/-- Modelled from the spec: `RenderPassImpl::AddInput` (not among the sources), which registers
the reference as an input of the pass, after the inputs registered so far. -/
def RenderPassImpl.AddInput (p : RenderPassImpl) (res : RenderGraphResource) : RenderPassImpl :=
  { p with inputs_ := p.inputs_ ++ [res] }

/-- Modelled from the spec: `RenderPassImpl::AddOutput` (not among the sources), which registers
the reference as an output of the pass, after the outputs registered so far. -/
def RenderPassImpl.AddOutput (p : RenderPassImpl) (res : RenderGraphResource) : RenderPassImpl :=
  { p with outputs_ := p.outputs_ ++ [res] }

/-- The accessor `RenderPass::GetInputs`. -/
def RenderPassImpl.GetInputs (p : RenderPassImpl) : List RenderGraphResource := p.inputs_

/-- The accessor `RenderPass::GetOutputs`. -/
def RenderPassImpl.GetOutputs (p : RenderPassImpl) : List RenderGraphResource := p.outputs_

/-- The struct `RenderPassEntry`; `renderPass_` is the pass the entry points to. -/
structure RenderPassEntry where
  idx_ : Int := 0
  name_ : String := ""
  renderPass_ : RenderPassImpl := {}
  deriving DecidableEq, Repr

/-- The struct `ResourceDesc`. -/
structure ResourceDesc where
  id_ : Int := 0
  name_ : String := ""
  resType_ : ResourceType := ResourceType.INVALID
  handle_ : Handle := {}
  bufferDesc_ : RenderGraphBufferDesc := {}
  textureDesc_ : RenderGraphTextureDesc := {}
  deriving DecidableEq, Repr

/-- Modelled from the spec: `Core::Set<i32>` (declared in `core/set.h`, not among the sources):
a collection of distinct integers. The embedding keeps the elements in insertion order. -/
abbrev CoreSet := List Int

/-- The method `Core::Set::insert`: adds the element unless it is already there. -/
def CoreSet.insert (s : CoreSet) (x : Int) : CoreSet := if x ∈ s then s else s ++ [x]

/-- The test `s.find(x) != s.end()`. -/
def CoreSet.contains (s : CoreSet) (x : Int) : Bool := decide (x ∈ s)

/-- The struct `RenderGraphImpl`. -/
structure RenderGraphImpl where
  renderPassEntries_ : List RenderPassEntry := []
  resourceDescs_ : List ResourceDesc := []
  resourcesNeeded_ : CoreSet := []
  transientResources_ : List Handle := []
  frameData_ : List Nat := []
  frameDataOffset_ : Int := 0
  deriving DecidableEq, Repr

/-- A call the render graph makes on the backend `GPU::Manager`. -/
inductive ManagerCall where
  | CreateBuffer (desc : RenderGraphBufferDesc) (debugName : String) (result : Handle)
  | CreateTexture (desc : RenderGraphTextureDesc) (debugName : String) (result : Handle)
  | DestroyResource (handle : Handle)
  deriving DecidableEq, Repr

/-- The backend `GPU::Manager`, which is external to the render graph: `handles_ n` is the handle
its `n`-th creation call returns (counted from 0), `calls_` records the calls made so far. -/
structure Manager where
  handles_ : Nat → Handle
  calls_ : List ManagerCall := []

/-- Number of creation calls the backend has served. -/
def Manager.numCreated (gpu : Manager) : Nat :=
  (gpu.calls_.filter fun c =>
    match c with
    | ManagerCall.DestroyResource _ => false
    | _ => true).length

/-- The call `GPU::Manager::CreateBuffer(desc, nullptr, debugName)`. -/
def Manager.CreateBuffer (gpu : Manager) (desc : RenderGraphBufferDesc) (debugName : String) :
    Manager × Handle :=
  let h := gpu.handles_ gpu.numCreated
  ({ gpu with calls_ := gpu.calls_ ++ [ManagerCall.CreateBuffer desc debugName h] }, h)

/-- The call `GPU::Manager::CreateTexture(desc, nullptr, debugName)`. -/
def Manager.CreateTexture (gpu : Manager) (desc : RenderGraphTextureDesc) (debugName : String) :
    Manager × Handle :=
  let h := gpu.handles_ gpu.numCreated
  ({ gpu with calls_ := gpu.calls_ ++ [ManagerCall.CreateTexture desc debugName h] }, h)

/-- The call `GPU::Manager::DestroyResource(handle)`. -/
def Manager.DestroyResource (gpu : Manager) (handle : Handle) : Manager :=
  { gpu with calls_ := gpu.calls_ ++ [ManagerCall.DestroyResource handle] }

/-! ## Dependency resolver -/

/-- The innermost loop of the producer scan of `AddDependencies` (lines 65-72): every requested
reference equal to `outputRes` pushes `entry` and advances `endIdx`. -/
def AddDependencies.scanResources (entry : RenderPassEntry) (outputRes : RenderGraphResource)
    (resources : List RenderGraphResource) (acc : List RenderPassEntry × Int) :
    List RenderPassEntry × Int :=
  resources.foldl (fun acc res =>
    if res.idx_ = outputRes.idx_ ∧ res.version_ = outputRes.version_ then
      (acc.1 ++ [entry], acc.2 + 1)
    else acc) acc

/-- The loop over the outputs of one entry in `AddDependencies` (lines 63-73). -/
def AddDependencies.scanOutputs (entry : RenderPassEntry)
    (resources : List RenderGraphResource) (acc : List RenderPassEntry × Int) :
    List RenderPassEntry × Int :=
  entry.renderPass_.GetOutputs.foldl
    (fun acc outputRes => AddDependencies.scanResources entry outputRes resources acc) acc

/-- The loop over all pass entries in `AddDependencies` (lines 61-74). -/
def AddDependencies.scanEntries (entries : List RenderPassEntry)
    (resources : List RenderGraphResource) (acc : List RenderPassEntry × Int) :
    List RenderPassEntry × Int :=
  entries.foldl (fun acc entry => AddDependencies.scanOutputs entry resources acc) acc

/-- The method `RenderGraphImpl::AddDependencies`. The first argument bounds the recursion
depth. The state is the graph (whose needed-resource set the method extends) and the vector
`outRenderPasses`. -/
def AddDependencies : Nat → RenderGraphImpl → List RenderPassEntry → List RenderGraphResource →
    Option (RenderGraphImpl × List RenderPassEntry)
  | 0, _, _, _ => none
  | fuel + 1, impl, outRenderPasses, resources =>
    let beginIdx : Int := outRenderPasses.length
    let endIdx : Int := beginIdx
    let impl : RenderGraphImpl :=
      { impl with
        resourcesNeeded_ :=
          resources.foldl (fun s res => CoreSet.insert s res.idx_) impl.resourcesNeeded_ }
    let scanned :=
      AddDependencies.scanEntries impl.renderPassEntries_ resources (outRenderPasses, endIdx)
    let outRenderPasses := scanned.1
    let endIdx := scanned.2
    (List.range (endIdx - beginIdx).toNat).foldlM
      (fun (st : RenderGraphImpl × List RenderPassEntry) k =>
        match st.2[beginIdx.toNat + k]? with
        | some entry => AddDependencies fuel st.1 st.2 entry.renderPass_.GetInputs
        | none => none)
      (impl, outRenderPasses)

/-- The loop of `RenderGraphImpl::FilterRenderPasses` (lines 87-99): `it` is the position of the
iterator in the vector, `seen` is the set `exists`. Every iteration either erases the element
under the iterator or advances the iterator, so a budget of the length of the vector suffices. -/
def FilterRenderPasses.loop : Nat → List RenderPassEntry → Nat → CoreSet → List RenderPassEntry
  | 0, outRenderPasses, _, _ => outRenderPasses
  | n + 1, outRenderPasses, it, seen =>
    match outRenderPasses[it]? with
    | none => outRenderPasses
    | some entry =>
      if CoreSet.contains seen entry.idx_ then
        FilterRenderPasses.loop n (outRenderPasses.eraseIdx it) it (CoreSet.insert seen entry.idx_)
      else
        FilterRenderPasses.loop n outRenderPasses (it + 1) (CoreSet.insert seen entry.idx_)

/-- The method `RenderGraphImpl::FilterRenderPasses`. -/
def FilterRenderPasses (outRenderPasses : List RenderPassEntry) : List RenderPassEntry :=
  FilterRenderPasses.loop outRenderPasses.length outRenderPasses 0 []

/-- One iteration of the loop of `RenderGraphImpl::CreateResources` (lines 106-123). -/
def CreateResources.step (st : RenderGraphImpl × Manager) (idx : Int) :
    Option (RenderGraphImpl × Manager) :=
  if idx < 0 then none else
  match st.1.resourceDescs_[idx.toNat]? with
  | none => none
  | some resDesc =>
    if !resDesc.handle_.isValid then
      let created : Manager × Handle :=
        if resDesc.resType_ = ResourceType.BUFFER then
          st.2.CreateBuffer resDesc.bufferDesc_ resDesc.name_
        else if resDesc.resType_ = ResourceType.TEXTURE then
          st.2.CreateTexture resDesc.textureDesc_ resDesc.name_
        else (st.2, resDesc.handle_)
      let resDesc : ResourceDesc := { resDesc with handle_ := created.2 }
      some ({ st.1 with
              resourceDescs_ := st.1.resourceDescs_.set idx.toNat resDesc
              transientResources_ := st.1.transientResources_ ++ [resDesc.handle_] },
            created.1)
    else some st

/-- The method `RenderGraphImpl::CreateResources`. -/
def CreateResources (impl : RenderGraphImpl) (gpu : Manager) : Option (RenderGraphImpl × Manager) :=
  impl.resourcesNeeded_.foldlM CreateResources.step (impl, gpu)

/-- The search for the newest version of `finalRes` in `RenderGraph::Execute` (lines 290-300). -/
def Execute.findNewest (entries : List RenderPassEntry) (finalRes : RenderGraphResource) :
    RenderGraphResource :=
  let finalRes : RenderGraphResource := { finalRes with version_ := -1 }
  entries.foldl (fun finalRes entry =>
    entry.renderPass_.GetOutputs.foldl (fun finalRes outputRes =>
      if finalRes.idx_ = outputRes.idx_ ∧ finalRes.version_ < outputRes.version_ then outputRes
      else finalRes) finalRes) finalRes

/-- What a call of `RenderGraph::Execute` leaves behind: the graph, the backend, the resolved
final reference, whether the error line was logged, and the pass entries whose pass was executed,
in execution order. -/
structure ExecuteResult where
  impl : RenderGraphImpl
  gpu : Manager
  finalRes : RenderGraphResource
  errorLogged : Bool
  renderPassEntries : List RenderPassEntry

/-- The part of `RenderGraph::Execute` after the search for the newest version (lines 302-331),
run on the resolved reference `finalRes`: the error line, the backward walk, the reversal, the
filter, the creation of resources and the execution of the passes. The first argument bounds the
recursion depth of `AddDependencies`. -/
def Execute.fromResolved (fuel : Nat) (impl : RenderGraphImpl) (gpu : Manager)
    (finalRes : RenderGraphResource) : Option ExecuteResult :=
  let errorLogged := decide (finalRes.version_ = -1)
  let outputs : List RenderGraphResource := [finalRes]
  match AddDependencies fuel impl [] outputs with
  | none => none
  | some (impl, renderPassEntries) =>
    let renderPassEntries := FilterRenderPasses renderPassEntries.reverse
    match CreateResources impl gpu with
    | none => none
    | some (impl, gpu) =>
      some { impl := impl, gpu := gpu, finalRes := finalRes, errorLogged := errorLogged,
             renderPassEntries := renderPassEntries }

/-- The method `RenderGraph::Execute`. The first argument bounds the recursion depth of
`AddDependencies`. -/
def Execute (fuel : Nat) (impl : RenderGraphImpl) (gpu : Manager)
    (finalRes : RenderGraphResource) : Option ExecuteResult :=
  Execute.fromResolved fuel impl gpu (Execute.findNewest impl.renderPassEntries_ finalRes)

/-- The method `RenderGraph::InternalAddRenderPass`. -/
def InternalAddRenderPass (impl : RenderGraphImpl) (name : String) (renderPass : RenderPassImpl) :
    RenderGraphImpl :=
  let entry : RenderPassEntry :=
    { idx_ := impl.renderPassEntries_.length, name_ := name, renderPass_ := renderPass }
  { impl with renderPassEntries_ := impl.renderPassEntries_ ++ [entry] }

/-! ## Usage declaration -/

/-- Modelled from the spec: the bit `GPU::BindFlags::SHADER_RESOURCE` (the enumeration is
declared in `gpu/types.h`, which is not among the sources); the bind capabilities are distinct
single bits. -/
def BindFlags.SHADER_RESOURCE : Nat := 0x10

/-- Modelled from the spec: the bit `GPU::BindFlags::RENDER_TARGET`. -/
def BindFlags.RENDER_TARGET : Nat := 0x40

/-- Modelled from the spec: the bit `GPU::BindFlags::DEPTH_STENCIL`. -/
def BindFlags.DEPTH_STENCIL : Nat := 0x80

/-- Modelled from the spec: the bit `GPU::DSVFlags::READ_ONLY_DEPTH` (the enumeration is declared
in `gpu/types.h`, which is not among the sources): the independent read-only-depth flag. -/
def DSVFlags.READ_ONLY_DEPTH : Nat := 0x1

/-- Modelled from the spec: the bit `GPU::DSVFlags::READ_ONLY_STENCIL`: the independent
read-only-stencil flag. -/
def DSVFlags.READ_ONLY_STENCIL : Nat := 0x2

/-- Modelled from the spec: `Core::ContainsAllFlags` (declared in `core/misc.h`, not among the
sources): every bit of `flags` is set in `value`. -/
def ContainsAllFlags (value flags : Nat) : Bool := decide (value &&& flags = flags)

/-- What a usage declaration leaves behind: the graph, the pass, the returned reference, and
whether `DBG_BREAK` was reached. -/
structure UseResult where
  impl : RenderGraphImpl
  renderPass : RenderPassImpl
  res : RenderGraphResource
  dbgBreak : Bool
  deriving DecidableEq, Repr

/-- The method `RenderGraphBuilder::CreateBuffer`. -/
def RenderGraphBuilder.CreateBuffer (impl : RenderGraphImpl) (name : String)
    (desc : RenderGraphBufferDesc) : RenderGraphImpl × RenderGraphResource :=
  let resDesc : ResourceDesc :=
    { id_ := impl.resourceDescs_.length, name_ := name, resType_ := ResourceType.BUFFER,
      bufferDesc_ := desc }
  ({ impl with resourceDescs_ := impl.resourceDescs_ ++ [resDesc] }, ⟨resDesc.id_, 0⟩)

/-- The method `RenderGraphBuilder::CreateTexture`. -/
def RenderGraphBuilder.CreateTexture (impl : RenderGraphImpl) (name : String)
    (desc : RenderGraphTextureDesc) : RenderGraphImpl × RenderGraphResource :=
  let resDesc : ResourceDesc :=
    { id_ := impl.resourceDescs_.length, name_ := name, resType_ := ResourceType.TEXTURE,
      textureDesc_ := desc }
  ({ impl with resourceDescs_ := impl.resourceDescs_ ++ [resDesc] }, ⟨resDesc.id_, 0⟩)

/-- The method `RenderGraph::ImportResource`. -/
def ImportResource (impl : RenderGraphImpl) (handle : Handle) :
    RenderGraphImpl × RenderGraphResource :=
  let resDesc : ResourceDesc :=
    { id_ := impl.resourceDescs_.length, resType_ := handle.GetType, handle_ := handle }
  ({ impl with resourceDescs_ := impl.resourceDescs_ ++ [resDesc] }, ⟨resDesc.id_, 0⟩)

/-- The method `RenderGraphBuilder::UseSRV`. -/
def RenderGraphBuilder.UseSRV (impl : RenderGraphImpl) (renderPass : RenderPassImpl)
    (res : RenderGraphResource) : Option UseResult :=
  if res.idx_ < 0 then none else
  match impl.resourceDescs_[res.idx_.toNat]? with
  | none => none
  | some resource =>
    let patched : ResourceDesc × Bool :=
      match resource.resType_ with
      | ResourceType.BUFFER =>
        ({ resource with
           bufferDesc_ :=
             { resource.bufferDesc_ with
               bindFlags_ := resource.bufferDesc_.bindFlags_ ||| BindFlags.SHADER_RESOURCE } },
         false)
      | ResourceType.TEXTURE | ResourceType.SWAP_CHAIN =>
        ({ resource with
           textureDesc_ :=
             { resource.textureDesc_ with
               bindFlags_ := resource.textureDesc_.bindFlags_ ||| BindFlags.SHADER_RESOURCE } },
         false)
      | _ => (resource, true)
    let impl : RenderGraphImpl :=
      { impl with resourceDescs_ := impl.resourceDescs_.set res.idx_.toNat patched.1 }
    let renderPass := renderPass.AddInput res
    some { impl := impl, renderPass := renderPass, res := res, dbgBreak := patched.2 }

/-- The method `RenderGraphBuilder::UseRTV`. -/
def RenderGraphBuilder.UseRTV (impl : RenderGraphImpl) (renderPass : RenderPassImpl)
    (res : RenderGraphResource) : Option UseResult :=
  if res.idx_ < 0 then none else
  match impl.resourceDescs_[res.idx_.toNat]? with
  | none => none
  | some resource =>
    let patched : ResourceDesc × Bool :=
      match resource.resType_ with
      | ResourceType.TEXTURE | ResourceType.SWAP_CHAIN =>
        ({ resource with
           textureDesc_ :=
             { resource.textureDesc_ with
               bindFlags_ := resource.textureDesc_.bindFlags_ ||| BindFlags.RENDER_TARGET } },
         false)
      | _ => (resource, true)
    let impl : RenderGraphImpl :=
      { impl with resourceDescs_ := impl.resourceDescs_.set res.idx_.toNat patched.1 }
    let renderPass := renderPass.AddInput res
    let res : RenderGraphResource := { res with version_ := wrapI32 (res.version_ + 1) }
    let renderPass := renderPass.AddOutput res
    some { impl := impl, renderPass := renderPass, res := res, dbgBreak := patched.2 }

/-- The method `RenderGraphBuilder::UseDSV`; `flags` is a bit mask of `GPU::DSVFlags`. -/
def RenderGraphBuilder.UseDSV (impl : RenderGraphImpl) (renderPass : RenderPassImpl)
    (res : RenderGraphResource) (flags : Nat) : Option UseResult :=
  if res.idx_ < 0 then none else
  match impl.resourceDescs_[res.idx_.toNat]? with
  | none => none
  | some resource =>
    let patched : ResourceDesc × Bool :=
      match resource.resType_ with
      | ResourceType.TEXTURE | ResourceType.SWAP_CHAIN =>
        ({ resource with
           textureDesc_ :=
             { resource.textureDesc_ with
               bindFlags_ := resource.textureDesc_.bindFlags_ ||| BindFlags.DEPTH_STENCIL } },
         false)
      | _ => (resource, true)
    let impl : RenderGraphImpl :=
      { impl with resourceDescs_ := impl.resourceDescs_.set res.idx_.toNat patched.1 }
    let renderPass := renderPass.AddInput res
    if !ContainsAllFlags flags (DSVFlags.READ_ONLY_DEPTH ||| DSVFlags.READ_ONLY_STENCIL) then
      let res : RenderGraphResource := { res with version_ := wrapI32 (res.version_ + 1) }
      let renderPass := renderPass.AddOutput res
      some { impl := impl, renderPass := renderPass, res := res, dbgBreak := patched.2 }
    else
      some { impl := impl, renderPass := renderPass, res := res, dbgBreak := patched.2 }

/-! ## Functional descriptions of the resolver loops

The definitions below describe what the loops of the resolver compute. They are proved equal to
the embedded loops before any property is derived from them. -/

/-- The entries the producer scan of `AddDependencies` pushes for the requested references, in
push order: one copy of an entry for every pair of one of its outputs and an equal requested
reference. -/
def producersOf (entries : List RenderPassEntry) (resources : List RenderGraphResource) :
    List RenderPassEntry :=
  entries.flatMap fun entry =>
    entry.renderPass_.outputs_.flatMap fun outputRes =>
      (resources.filter fun res =>
        decide (res.idx_ = outputRes.idx_ ∧ res.version_ = outputRes.version_)).map fun _ => entry

/-- Runs `g` on every entry of the list, left to right, and concatenates the traces; `none` as
soon as one run gives `none`. -/
def concatTraces (g : RenderPassEntry → Option (List RenderPassEntry × List Int)) :
    List RenderPassEntry → Option (List RenderPassEntry × List Int)
  | [] => some ([], [])
  | m :: ms =>
    match g m with
    | none => none
    | some a =>
      match concatTraces g ms with
      | none => none
      | some b => some (a.1 ++ b.1, a.2 ++ b.2)

/-- The trace of a call of `AddDependencies` with recursion budget `fuel`: the entries it appends
to `outRenderPasses` and the resource ids it inserts into the needed-resource set, both in
order. -/
def walkTrace : Nat → List RenderPassEntry → List RenderGraphResource →
    Option (List RenderPassEntry × List Int)
  | 0, _, _ => none
  | fuel + 1, entries, resources =>
    match concatTraces (fun m => walkTrace fuel entries m.renderPass_.inputs_)
        (producersOf entries resources) with
    | none => none
    | some d =>
      some (producersOf entries resources ++ d.1, resources.map (fun res => res.idx_) ++ d.2)

/-- The list with every entry removed whose pass index is in `seen` or occurs earlier in the
list. -/
def keepFirst (seen : CoreSet) : List RenderPassEntry → List RenderPassEntry
  | [] => []
  | e :: rest =>
    if e.idx_ ∈ seen then keepFirst (CoreSet.insert seen e.idx_) rest
    else e :: keepFirst (CoreSet.insert seen e.idx_) rest

/-- A graph whose pass entries were registered through `InternalAddRenderPass`: the entry at
position `i` has `idx_ = i`. -/
def RenderGraphImpl.Declared (impl : RenderGraphImpl) : Prop :=
  impl.renderPassEntries_.map (fun e => e.idx_) =
    (List.range impl.renderPassEntries_.length).map Int.ofNat

instance (impl : RenderGraphImpl) : Decidable impl.Declared := by
  unfold RenderGraphImpl.Declared; infer_instance

/-- The pass `q` produces an input of the pass `p`: some input reference of `p` equals, in id and
version, an output reference of `q`. -/
def Feeds (q p : RenderPassEntry) : Prop :=
  ∃ res ∈ p.renderPass_.inputs_, res ∈ q.renderPass_.outputs_

/-- A set of pass entries that contains every declared pass with an output equal to `start` and,
with each member, every declared pass that produces one of its inputs. -/
def BackwardClosed (impl : RenderGraphImpl) (start : RenderGraphResource)
    (T : RenderPassEntry → Prop) : Prop :=
  (∀ e ∈ impl.renderPassEntries_, start ∈ e.renderPass_.outputs_ → T e) ∧
  (∀ p, T p → ∀ q ∈ impl.renderPassEntries_, Feeds q p → T q)

/-! ## A concrete graph: three passes A, B, C over two textures T and U -/

/-- The declaration of the three-pass graph through the builder: A writes T as render target,
B reads the T that A produced as shader resource and writes U as render target, C reads the U
that B produced as shader resource. Each pass is registered once its usages are declared. -/
def Scenario.declare : Option RenderGraphImpl :=
  let g : RenderGraphImpl := {}
  let t := RenderGraphBuilder.CreateTexture g "T" {}
  let u := RenderGraphBuilder.CreateTexture t.1 "U" {}
  match RenderGraphBuilder.UseRTV u.1 {} t.2 with
  | none => none
  | some a =>
    let g := InternalAddRenderPass a.impl "A" a.renderPass
    match RenderGraphBuilder.UseSRV g {} a.res with
    | none => none
    | some b1 =>
      match RenderGraphBuilder.UseRTV b1.impl b1.renderPass u.2 with
      | none => none
      | some b2 =>
        let g := InternalAddRenderPass b2.impl "B" b2.renderPass
        match RenderGraphBuilder.UseSRV g {} b2.res with
        | none => none
        | some c => some (InternalAddRenderPass c.impl "C" c.renderPass)

/-- The graph that `Scenario.declare` builds, written out. -/
def Scenario.graph : RenderGraphImpl :=
  { renderPassEntries_ :=
      [ { idx_ := 0, name_ := "A",
          renderPass_ := { inputs_ := [⟨0, 0⟩], outputs_ := [⟨0, 1⟩] } },
        { idx_ := 1, name_ := "B",
          renderPass_ := { inputs_ := [⟨0, 1⟩, ⟨1, 0⟩], outputs_ := [⟨1, 1⟩] } },
        { idx_ := 2, name_ := "C",
          renderPass_ := { inputs_ := [⟨1, 1⟩], outputs_ := [] } } ],
    resourceDescs_ :=
      [ { id_ := 0, name_ := "T", resType_ := ResourceType.TEXTURE,
          textureDesc_ := { bindFlags_ := 0x50 } },
        { id_ := 1, name_ := "U", resType_ := ResourceType.TEXTURE,
          textureDesc_ := { bindFlags_ := 0x50 } } ] }

/-- A backend whose creation calls return distinct valid texture handles. -/
def Scenario.gpu : Manager :=
  { handles_ := fun n => { type_ := ResourceType.TEXTURE, index_ := n + 1 } }

/-! ## A concrete graph with convergent branches: D reads what B and C wrote from A -/

/-- The diamond graph: A writes texture 0; B and C each read it and write textures 1 and 2;
D reads both and writes texture 3. -/
def Diamond.graph : RenderGraphImpl :=
  { renderPassEntries_ :=
      [ { idx_ := 0, name_ := "A",
          renderPass_ := { inputs_ := [⟨0, 0⟩], outputs_ := [⟨0, 1⟩] } },
        { idx_ := 1, name_ := "B",
          renderPass_ := { inputs_ := [⟨0, 1⟩, ⟨1, 0⟩], outputs_ := [⟨1, 1⟩] } },
        { idx_ := 2, name_ := "C",
          renderPass_ := { inputs_ := [⟨0, 1⟩, ⟨2, 0⟩], outputs_ := [⟨2, 1⟩] } },
        { idx_ := 3, name_ := "D",
          renderPass_ := { inputs_ := [⟨1, 1⟩, ⟨2, 1⟩, ⟨3, 0⟩], outputs_ := [⟨3, 1⟩] } } ],
    resourceDescs_ :=
      [ { id_ := 0, name_ := "T0", resType_ := ResourceType.TEXTURE },
        { id_ := 1, name_ := "T1", resType_ := ResourceType.TEXTURE },
        { id_ := 2, name_ := "T2", resType_ := ResourceType.TEXTURE },
        { id_ := 3, name_ := "T3", resType_ := ResourceType.TEXTURE } ] }

/-- The id is a valid index into the vector of resource descriptions. -/
def RenderGraphImpl.ValidId (impl : RenderGraphImpl) (i : Int) : Prop :=
  0 ≤ i ∧ i.toNat < impl.resourceDescs_.length

instance (impl : RenderGraphImpl) (i : Int) : Decidable (impl.ValidId i) := by
  unfold RenderGraphImpl.ValidId; infer_instance

/-! ## Declaring a graph: sequences of builder calls -/

/-- The constant `MAX_FRAME_DATA`: the size of the frame arena in bytes. -/
def MAX_FRAME_DATA : Int := 64 * 1024

/-- The constructor `RenderGraph::RenderGraph`: a fresh `RenderGraphImpl` whose arena is resized
to `MAX_FRAME_DATA` bytes. `Core::Vector::resize` (declared in `core/vector.h`, not among the
sources) is taken to value-initialise the new bytes. -/
def RenderGraph.new : RenderGraphImpl :=
  { frameData_ := List.replicate MAX_FRAME_DATA.toNat 0 }

/-- Modelled from the spec: the pass-declaration interface (`RenderGraph::AddRenderPass` in
`graphics/render_graph.h`, not among the sources). A pass declares its usages through the
builder while it is constructed and is then registered by `InternalAddRenderPass`, so the
usage calls between two registrations belong to the pass registered next. Resources are created
or imported at any point. -/
inductive BuilderCall where
  | CreateBuffer (name : String) (desc : RenderGraphBufferDesc)
  | CreateTexture (name : String) (desc : RenderGraphTextureDesc)
  | ImportResource (handle : Handle)
  | UseSRV (res : RenderGraphResource)
  | UseRTV (res : RenderGraphResource)
  | UseDSV (res : RenderGraphResource) (flags : Nat)
  | InternalAddRenderPass (name : String)
  deriving DecidableEq, Repr

/-- The state while a graph is declared: the graph, the pass under construction, and the
references the calls have returned so far, oldest first. -/
structure BuildState where
  impl : RenderGraphImpl
  renderPass : RenderPassImpl
  returned : List RenderGraphResource
  deriving DecidableEq, Repr

/-- The state before the first call: a freshly constructed graph, no usage declared, no
reference returned. -/
def BuildState.init : BuildState :=
  { impl := RenderGraph.new, renderPass := {}, returned := [] }

/-- One builder call. A usage call is `none` when the id of its reference is outside
`resourceDescs_`. -/
def BuildState.step (st : BuildState) : BuilderCall → Option BuildState
  | BuilderCall.CreateBuffer name desc =>
    let r := RenderGraphBuilder.CreateBuffer st.impl name desc
    some { st with impl := r.1, returned := st.returned ++ [r.2] }
  | BuilderCall.CreateTexture name desc =>
    let r := RenderGraphBuilder.CreateTexture st.impl name desc
    some { st with impl := r.1, returned := st.returned ++ [r.2] }
  | BuilderCall.ImportResource handle =>
    let r := ImportResource st.impl handle
    some { st with impl := r.1, returned := st.returned ++ [r.2] }
  | BuilderCall.UseSRV res =>
    match RenderGraphBuilder.UseSRV st.impl st.renderPass res with
    | none => none
    | some u =>
      some { impl := u.impl, renderPass := u.renderPass, returned := st.returned ++ [u.res] }
  | BuilderCall.UseRTV res =>
    match RenderGraphBuilder.UseRTV st.impl st.renderPass res with
    | none => none
    | some u =>
      some { impl := u.impl, renderPass := u.renderPass, returned := st.returned ++ [u.res] }
  | BuilderCall.UseDSV res flags =>
    match RenderGraphBuilder.UseDSV st.impl st.renderPass res flags with
    | none => none
    | some u =>
      some { impl := u.impl, renderPass := u.renderPass, returned := st.returned ++ [u.res] }
  | BuilderCall.InternalAddRenderPass name =>
    some { st with impl := InternalAddRenderPass st.impl name st.renderPass, renderPass := {} }

/-- A sequence of builder calls, in order. -/
def BuildState.run : BuildState → List BuilderCall → Option BuildState
  | st, [] => some st
  | st, c :: cs =>
    match st.step c with
    | none => none
    | some st2 => BuildState.run st2 cs

/-- The reference a usage call is given has been returned by an earlier call. -/
def BuilderCall.argReturned (returned : List RenderGraphResource) : BuilderCall → Bool
  | BuilderCall.UseSRV res => decide (res ∈ returned)
  | BuilderCall.UseRTV res => decide (res ∈ returned)
  | BuilderCall.UseDSV res _ => decide (res ∈ returned)
  | _ => true

/-- Every usage call of the sequence is given a reference that an earlier `CreateBuffer`,
`CreateTexture`, `ImportResource` or usage call has returned. -/
def BuildState.threaded : BuildState → List BuilderCall → Bool
  | _, [] => true
  | st, c :: cs =>
    c.argReturned st.returned &&
      match st.step c with
      | none => false
      | some st2 => BuildState.threaded st2 cs

/-- The references given to the write usages of the sequence (`UseRTV`, and `UseDSV` without
both read-only flags), in call order. -/
def writeArgs : List BuilderCall → List RenderGraphResource
  | [] => []
  | BuilderCall.UseRTV res :: cs => res :: writeArgs cs
  | BuilderCall.UseDSV res flags :: cs =>
    if ContainsAllFlags flags (DSVFlags.READ_ONLY_DEPTH ||| DSVFlags.READ_ONLY_STENCIL) then
      writeArgs cs
    else res :: writeArgs cs
  | _ :: cs => writeArgs cs

/-- The output references of all passes, registered passes first in registration order, the
pass under construction last. -/
def BuildState.allOutputs (st : BuildState) : List RenderGraphResource :=
  (st.impl.renderPassEntries_.flatMap fun e => e.renderPass_.outputs_) ++ st.renderPass.outputs_

/-- The reference with the next version. -/
def RenderGraphResource.next (res : RenderGraphResource) : RenderGraphResource :=
  ⟨res.idx_, res.version_ + 1⟩

/-- Every reference of positive version among the pass outputs has exactly one producing pass:
it occurs once in the outputs of all passes taken together. -/
def BuildState.UniqueProducers (st : BuildState) : Prop :=
  ∀ x ∈ st.allOutputs, 0 < x.version_ → st.allOutputs.count x = 1

/-- Every input reference of every registered pass has version 0 or equals an output of a pass
registered at a smaller position. -/
def RenderGraphImpl.InputsFromEarlierPasses (impl : RenderGraphImpl) : Prop :=
  ∀ (k : Nat) (e : RenderPassEntry), impl.renderPassEntries_[k]? = some e →
    ∀ x ∈ e.renderPass_.inputs_, x.version_ = 0 ∨
      ∃ (j : Nat) (q : RenderPassEntry), j < k ∧ impl.renderPassEntries_[j]? = some q ∧
        x ∈ q.renderPass_.outputs_

/-- Every input reference of every registered pass has version 0 or equals an output of the
same pass or of a pass registered at a smaller position. -/
def RenderGraphImpl.InputsFromSameOrEarlierPasses (impl : RenderGraphImpl) : Prop :=
  ∀ (k : Nat) (e : RenderPassEntry), impl.renderPassEntries_[k]? = some e →
    ∀ x ∈ e.renderPass_.inputs_, x.version_ = 0 ∨
      ∃ (j : Nat) (q : RenderPassEntry), j ≤ k ∧ impl.renderPassEntries_[j]? = some q ∧
        x ∈ q.renderPass_.outputs_

/-- The invariant of a declaration in which every usage call is given a returned reference.
`B` bounds the versions handed out so far. Every returned reference has a valid id, a version
between 0 and `B`, and is of version 0 or a pass output; every pass output is the successor of a
returned reference; the pass entries carry their position as index; the inputs of a registered
pass are of version 0 or outputs of the same or an earlier pass; the inputs of the pass under
construction are of version 0 or pass outputs. -/
def BuildState.Inv (st : BuildState) (B : Int) : Prop :=
  0 ≤ B ∧
  (∀ r ∈ st.returned, st.impl.ValidId r.idx_ ∧ 0 ≤ r.version_ ∧ r.version_ ≤ B ∧
    (r.version_ = 0 ∨ r ∈ st.allOutputs)) ∧
  (∀ o ∈ st.allOutputs, (⟨o.idx_, o.version_ - 1⟩ : RenderGraphResource) ∈ st.returned) ∧
  st.impl.Declared ∧
  st.impl.InputsFromSameOrEarlierPasses ∧
  (∀ x ∈ st.renderPass.inputs_, x.version_ = 0 ∨ x ∈ st.allOutputs)

/-- The three-pass scenario as a sequence of builder calls. -/
def Scenario.calls : List BuilderCall :=
  [ BuilderCall.CreateTexture "T" {}, BuilderCall.CreateTexture "U" {},
    BuilderCall.UseRTV ⟨0, 0⟩, BuilderCall.InternalAddRenderPass "A",
    BuilderCall.UseSRV ⟨0, 1⟩, BuilderCall.UseRTV ⟨1, 0⟩, BuilderCall.InternalAddRenderPass "B",
    BuilderCall.UseSRV ⟨1, 1⟩, BuilderCall.InternalAddRenderPass "C" ]

/-- Two passes that both write the reference `(0, 0)` which `CreateTexture` returned. -/
def Forked.calls : List BuilderCall :=
  [ BuilderCall.CreateTexture "T" {},
    BuilderCall.UseRTV ⟨0, 0⟩, BuilderCall.InternalAddRenderPass "A",
    BuilderCall.UseRTV ⟨0, 0⟩, BuilderCall.InternalAddRenderPass "B" ]

/-- One pass that writes texture T as render target and then reads the reference that this
write returned. -/
def SelfRead.calls : List BuilderCall :=
  [ BuilderCall.CreateTexture "T" {},
    BuilderCall.UseRTV ⟨0, 0⟩, BuilderCall.UseSRV ⟨0, 1⟩,
    BuilderCall.InternalAddRenderPass "P" ]

/-- The graph in which the bits `buf` have been ORed into the bind flags of the buffer
description of resource `i` and the bits `tex` into those of its texture description; nothing
else is changed. -/
def RenderGraphImpl.OrBindFlags (impl : RenderGraphImpl) (i : Nat) (buf tex : Nat) :
    RenderGraphImpl :=
  match impl.resourceDescs_[i]? with
  | none => impl
  | some resource =>
    { impl with
      resourceDescs_ := impl.resourceDescs_.set i
        { resource with
          bufferDesc_ :=
            { resource.bufferDesc_ with bindFlags_ := resource.bufferDesc_.bindFlags_ ||| buf }
          textureDesc_ :=
            { resource.textureDesc_ with
              bindFlags_ := resource.textureDesc_.bindFlags_ ||| tex } } }

/-- A graph with one buffer (id 0) and one imported resource of `INVALID` kind (id 1). -/
def Incompatible.graph : RenderGraphImpl :=
  (ImportResource (RenderGraphBuilder.CreateBuffer {} "B" {}).1 {}).1

/-! ## Frame allocator -/

/-- Modelled from the spec: `Core::PotRoundUp` (declared in `core/misc.h`, not among the
sources): `value` rounded up to the next multiple of `roundUpTo`, a power of two. -/
def PotRoundUp (value roundUpTo : Int) : Int :=
  (value + (roundUpTo - 1)) / roundUpTo * roundUpTo

/-- Modelled from the spec: `Core::AtomicAddAcq` (declared in `core/concurrency.h`, not among the
sources): atomically advances the 32-bit cursor by `value`; the result is the new cursor and, as
the caller names it `nextOffset`, the returned value is the new cursor as well. -/
def AtomicAddAcq (dest value : Int) : Int × Int :=
  (wrapI32 (dest + value), wrapI32 (dest + value))

/-- What a call of `RenderGraphImpl::Alloc` leaves behind: the graph, the returned pointer as an
offset from `frameData_.data()` (`none` for the null pointer), and whether the `DBG_ASSERT` was
violated. -/
structure AllocResult where
  impl : RenderGraphImpl
  ptr : Option Int
  assertFailed : Bool
  deriving DecidableEq, Repr

/-- The method `RenderGraphImpl::Alloc`. The constant `PLATFORM_ALIGNMENT` (declared in
`core/portability.h`, not among the sources) is a parameter. -/
def RenderGraphImpl.Alloc (PLATFORM_ALIGNMENT : Int) (impl : RenderGraphImpl) (size : Int) :
    AllocResult :=
  let size := wrapI32 (PotRoundUp size PLATFORM_ALIGNMENT)
  let added := AtomicAddAcq impl.frameDataOffset_ size
  let impl : RenderGraphImpl := { impl with frameDataOffset_ := added.1 }
  let nextOffset := added.2
  let assertFailed := !decide (nextOffset ≤ (impl.frameData_.length : Int))
  if nextOffset > (impl.frameData_.length : Int) then
    { impl := impl, ptr := none, assertFailed := assertFailed }
  else
    { impl := impl, ptr := some (wrapI32 (nextOffset - size)), assertFailed := assertFailed }

/-- A sequence of `Alloc` calls, in order: the graph afterwards and the results of the calls. -/
def RenderGraphImpl.AllocAll (PLATFORM_ALIGNMENT : Int) :
    RenderGraphImpl → List Int → RenderGraphImpl × List AllocResult
  | impl, [] => (impl, [])
  | impl, size :: sizes =>
    let r := impl.Alloc PLATFORM_ALIGNMENT size
    let rest := RenderGraphImpl.AllocAll PLATFORM_ALIGNMENT r.impl sizes
    (rest.1, r :: rest.2)

/-- The method `RenderGraph::Clear`: the transient handles are destroyed on the backend, the
pass entries, the resource descriptions and the transient-handle list are emptied, the cursor is
reset and the arena is filled with zeros. -/
def Clear (impl : RenderGraphImpl) (gpu : Manager) : RenderGraphImpl × Manager :=
  let gpu := impl.transientResources_.foldl (fun g handle => g.DestroyResource handle) gpu
  ({ impl with
     transientResources_ := []
     renderPassEntries_ := []
     resourceDescs_ := []
     frameDataOffset_ := 0
     frameData_ := List.replicate impl.frameData_.length 0 },
   gpu)

/-- The sum of a list of integers. -/
def sumInts : List Int → Int
  | [] => 0
  | x :: xs => x + sumInts xs

/-! ## Resolution and creation across calls -/

/-- Following the specification of `FilterRenderPasses`, not its loop: the subsequence of the
list that keeps the entry at position `i` exactly when no entry before position `i` has the
same pass index. -/
def firstOccurrences (l : List RenderPassEntry) : List RenderPassEntry :=
  (List.range l.length).filterMap fun i =>
    match l[i]? with
    | some e => if (l.take i).all (fun q => decide (q.idx_ ≠ e.idx_)) then some e else none
    | none => none

instance (q p : RenderPassEntry) : Decidable (Feeds q p) := by
  unfold Feeds; infer_instance

/-- Every pass that produces an input of a pass is declared strictly earlier than that pass:
whenever the entry at position `j` has an output equal to an input of the entry at position `k`,
then `j < k`. -/
def RenderGraphImpl.ProducersDeclaredEarlier (impl : RenderGraphImpl) : Prop :=
  ∀ p ∈ impl.renderPassEntries_.enum, ∀ q ∈ impl.renderPassEntries_.enum,
    Feeds q.2 p.2 → q.1 < p.1

instance (impl : RenderGraphImpl) : Decidable impl.ProducersDeclaredEarlier := by
  unfold RenderGraphImpl.ProducersDeclaredEarlier; infer_instance

/-- Every write usage also registered an input on the same resource id: each output of a
declared pass has the id of one of the inputs of that pass. -/
def RenderGraphImpl.WritesAreRead (impl : RenderGraphImpl) : Prop :=
  ∀ e ∈ impl.renderPassEntries_, ∀ o ∈ e.renderPass_.outputs_,
    ∃ x ∈ e.renderPass_.inputs_, x.idx_ = o.idx_

instance (impl : RenderGraphImpl) : Decidable impl.WritesAreRead := by
  unfold RenderGraphImpl.WritesAreRead; infer_instance

/-- A sequence of `Execute` calls on the same graph and backend, in order, with nothing in
between: the graph and the backend after the last call. -/
def ExecuteAll (fuel : Nat) :
    RenderGraphImpl → Manager → List RenderGraphResource → Option (RenderGraphImpl × Manager)
  | impl, gpu, [] => some (impl, gpu)
  | impl, gpu, ref :: refs =>
    match Execute fuel impl gpu ref with
    | none => none
    | some r => ExecuteAll fuel r.impl r.gpu refs

/-- Number of resource descriptions that hold a backend handle. -/
def RenderGraphImpl.numWithHandle (impl : RenderGraphImpl) : Nat :=
  impl.resourceDescs_.countP fun rd => rd.handle_.isValid

/-- The handles the creation calls served so far have returned, oldest first. -/
def Manager.createdHandles (gpu : Manager) : List Handle :=
  gpu.calls_.filterMap fun c =>
    match c with
    | ManagerCall.CreateBuffer _ _ h => some h
    | ManagerCall.CreateTexture _ _ h => some h
    | ManagerCall.DestroyResource _ => none

/-- What creation steps may do between two states: the backend keeps its handle supply, the
resource descriptions keep their number and everything but the handle, a resource that holds a
handle keeps it, every creation call gives one more resource a handle, and the valid handles
appended to the transient-handle list are the handles the creation calls returned. -/
def CreatedBetween (st st2 : RenderGraphImpl × Manager) : Prop :=
  st2.2.handles_ = st.2.handles_ ∧
  st2.1.resourceDescs_.length = st.1.resourceDescs_.length ∧
  (∀ (k : Nat) (rd : ResourceDesc), st.1.resourceDescs_[k]? = some rd →
    ∃ h, st2.1.resourceDescs_[k]? = some { rd with handle_ := h } ∧
      (rd.handle_.isValid = true → h = rd.handle_)) ∧
  st2.2.numCreated + st.1.numWithHandle = st.2.numCreated + st2.1.numWithHandle ∧
  ∃ added, st2.2.createdHandles = st.2.createdHandles ++ added ∧
    st2.1.transientResources_.filter Handle.isValid =
      st.1.transientResources_.filter Handle.isValid ++ added

/-- Two passes that both write the reference `(0, 0)` of texture T, so both produce `(0, 1)`;
A also writes texture U and B reads the U that A wrote, so the walk from T reaches A twice: as a
producer of `(0, 1)` and again through B. -/
def Reached.graph : RenderGraphImpl :=
  { renderPassEntries_ :=
      [ { idx_ := 0, name_ := "A",
          renderPass_ := { inputs_ := [⟨0, 0⟩, ⟨1, 0⟩], outputs_ := [⟨0, 1⟩, ⟨1, 1⟩] } },
        { idx_ := 1, name_ := "B",
          renderPass_ := { inputs_ := [⟨0, 0⟩, ⟨1, 1⟩], outputs_ := [⟨0, 1⟩] } } ],
    resourceDescs_ :=
      [ { id_ := 0, name_ := "T", resType_ := ResourceType.TEXTURE,
          textureDesc_ := { bindFlags_ := 0x40 } },
        { id_ := 1, name_ := "U", resType_ := ResourceType.TEXTURE,
          textureDesc_ := { bindFlags_ := 0x50 } } ] }

/-! ## Two frames on one graph -/

/-- A first frame: the three-pass scenario is declared on a freshly constructed graph, `Execute`
is called for texture U, then `Clear`. The result is the graph and the backend after `Clear`. -/
def Reuse.firstFrame : Option (RenderGraphImpl × Manager) :=
  match BuildState.init.run Scenario.calls with
  | none => none
  | some st =>
    match Execute 3 st.impl Scenario.gpu ⟨1, 0⟩ with
    | none => none
    | some r => some (Clear r.impl r.gpu)

/-- The declaration of the next frame: three textures X, Y, Z and one pass P that writes Z as
render target. -/
def Reuse.calls : List BuilderCall :=
  [ BuilderCall.CreateTexture "X" {}, BuilderCall.CreateTexture "Y" {},
    BuilderCall.CreateTexture "Z" {},
    BuilderCall.UseRTV ⟨2, 0⟩, BuilderCall.InternalAddRenderPass "P" ]

/-- The next frame on the given graph and backend: the declaration `Reuse.calls`, then
`Execute` for texture Z. -/
def Reuse.nextFrame (impl : RenderGraphImpl) (gpu : Manager) : Option ExecuteResult :=
  match BuildState.run { impl := impl, renderPass := {}, returned := [] } Reuse.calls with
  | none => none
  | some st => Execute 3 st.impl gpu ⟨2, 0⟩

/-! ## Sequences of declarations and `Clear` -/

/-- A call that declares a resource or registers a pass, or `Clear`. -/
inductive GraphCall where
  | CreateBuffer (name : String) (desc : RenderGraphBufferDesc)
  | CreateTexture (name : String) (desc : RenderGraphTextureDesc)
  | ImportResource (handle : Handle)
  | InternalAddRenderPass (name : String) (renderPass : RenderPassImpl)
  | Clear
  deriving DecidableEq, Repr

/-- One call on the graph and the backend: the state afterwards and the reference the call
returns, if it returns one. -/
def GraphCall.step (st : RenderGraphImpl × Manager) :
    GraphCall → (RenderGraphImpl × Manager) × Option RenderGraphResource
  | GraphCall.CreateBuffer name desc =>
    let r := RenderGraphBuilder.CreateBuffer st.1 name desc
    ((r.1, st.2), some r.2)
  | GraphCall.CreateTexture name desc =>
    let r := RenderGraphBuilder.CreateTexture st.1 name desc
    ((r.1, st.2), some r.2)
  | GraphCall.ImportResource handle =>
    let r := Graphics.ImportResource st.1 handle
    ((r.1, st.2), some r.2)
  | GraphCall.InternalAddRenderPass name renderPass =>
    ((Graphics.InternalAddRenderPass st.1 name renderPass, st.2), none)
  | GraphCall.Clear => (Graphics.Clear st.1 st.2, none)

/-- A sequence of calls, in order: the state afterwards and what each call returned. -/
def GraphCall.run :
    RenderGraphImpl × Manager → List GraphCall →
      (RenderGraphImpl × Manager) × List (Option RenderGraphResource)
  | st, [] => (st, [])
  | st, c :: cs =>
    let s := GraphCall.step st c
    let rest := GraphCall.run s.1 cs
    (rest.1, s.2 :: rest.2)

/-- The call declares a resource: `CreateBuffer`, `CreateTexture` or `ImportResource`. -/
def GraphCall.declaresResource : GraphCall → Bool
  | GraphCall.CreateBuffer _ _ => true
  | GraphCall.CreateTexture _ _ => true
  | GraphCall.ImportResource _ => true
  | _ => false

/-- The number of resources declared since the last `Clear` of the sequence, when `n` resources
were declared before the sequence. -/
def resourcesSinceClear (n : Nat) : List GraphCall → Nat
  | [] => n
  | GraphCall.Clear :: cs => resourcesSinceClear 0 cs
  | GraphCall.InternalAddRenderPass _ _ :: cs => resourcesSinceClear n cs
  | _ :: cs => resourcesSinceClear (n + 1) cs

/-- The entry at position `i` of `resourceDescs_` has `id_ = i` and the entry at position `i`
of `renderPassEntries_` has `idx_ = i`. -/
def RenderGraphImpl.DenseIds (impl : RenderGraphImpl) : Prop :=
  (∀ (i : Nat) (rd : ResourceDesc), impl.resourceDescs_[i]? = some rd → rd.id_ = i) ∧
  (∀ (i : Nat) (e : RenderPassEntry), impl.renderPassEntries_[i]? = some e → e.idx_ = i)

/-! ## State tracker of the compile context

`src/gpu_d3d12/d3d12_compile_context.h` declares the state tracker (`stateTracker_`,
`pendingBarriers_`, `AddTransition`, `AddUAVBarrier`, `FlushTransitions`); the bodies of these
methods are not among the sources. -/

/-- The struct `D3D12CompileContext::Subresource`: a resource (named by a number here, a pointer
in the source) and a subresource index. -/
structure GPU.Subresource where
  resource_ : Nat := 0
  idx_ : Int := 0
  deriving DecidableEq, Repr

/-- Modelled from the spec: the states of the state machine of a subresource
(`D3D12_RESOURCE_STATES`). -/
inductive GPU.ResourceStates where
  | COMMON
  | RENDER_TARGET
  | DEPTH_WRITE
  | DEPTH_READ
  | SHADER_RESOURCE
  | UNORDERED_ACCESS
  | COPY_SOURCE
  | COPY_DEST
  | PRESENT
  deriving DecidableEq, Repr

/-- Modelled from the spec: a barrier (`D3D12_RESOURCE_BARRIER`): a transition of a subresource
from a before-state to an after-state, or an unordered-access hazard barrier on a
subresource. -/
inductive GPU.ResourceBarrier where
  | Transition (subRsc : GPU.Subresource) (stateBefore stateAfter : GPU.ResourceStates)
  | UAV (subRsc : GPU.Subresource)
  deriving DecidableEq, Repr

/-- The subresource a barrier is about. -/
def GPU.ResourceBarrier.subRsc : GPU.ResourceBarrier → GPU.Subresource
  | GPU.ResourceBarrier.Transition s _ _ => s
  | GPU.ResourceBarrier.UAV s => s

/-- The state-tracking part of the struct `D3D12CompileContext`: the recorded state of every
registered subresource (`stateTracker_`), the staged barriers (`pendingBarriers_`), and the
barriers passed to the backend command list so far, oldest first. -/
structure GPU.D3D12CompileContext where
  stateTracker_ : GPU.Subresource → Option GPU.ResourceStates
  pendingBarriers_ : List GPU.ResourceBarrier := []
  emitted_ : List GPU.ResourceBarrier := []

/-- Modelled from the spec: staging a barrier in the pending barrier set, a deduplicated batch:
a barrier that is already staged is not staged again. -/
def GPU.D3D12CompileContext.stage (ctx : GPU.D3D12CompileContext) (b : GPU.ResourceBarrier) :
    GPU.D3D12CompileContext :=
  if b ∈ ctx.pendingBarriers_ then ctx
  else { ctx with pendingBarriers_ := ctx.pendingBarriers_ ++ [b] }

/-- Modelled from the spec: `D3D12CompileContext::AddTransition` for one subresource. The
required state is compared against the recorded state; if they differ, a transition barrier
(before-state the recorded one, after-state the required one) is staged and the recorded state
becomes the required state. The result tells whether the state changed. A subresource that was
never registered fails fast (`none`). -/
def GPU.D3D12CompileContext.AddTransition (ctx : GPU.D3D12CompileContext)
    (subRsc : GPU.Subresource) (state : GPU.ResourceStates) :
    Option (GPU.D3D12CompileContext × Bool) :=
  match ctx.stateTracker_ subRsc with
  | none => none
  | some current =>
    if current = state then some (ctx, false)
    else
      let ctx := ctx.stage (GPU.ResourceBarrier.Transition subRsc current state)
      some ({ ctx with
              stateTracker_ := fun s => if s = subRsc then some state else ctx.stateTracker_ s },
            true)

/-- Modelled from the spec: `D3D12CompileContext::AddUAVBarrier` for one subresource: stages an
unordered-access hazard barrier. -/
def GPU.D3D12CompileContext.AddUAVBarrier (ctx : GPU.D3D12CompileContext)
    (subRsc : GPU.Subresource) : GPU.D3D12CompileContext :=
  ctx.stage (GPU.ResourceBarrier.UAV subRsc)

/-- Modelled from the spec: step 2 of the algorithm per command, for one subresource the
command touches: the transition if the recorded state differs from the required one; a UAV
hazard barrier if the state is the same and it is the unordered-access state. -/
def GPU.D3D12CompileContext.UseSubresource (ctx : GPU.D3D12CompileContext)
    (subRsc : GPU.Subresource) (state : GPU.ResourceStates) : Option GPU.D3D12CompileContext :=
  match ctx.AddTransition subRsc state with
  | none => none
  | some (ctx, changed) =>
    if !changed && decide (state = GPU.ResourceStates.UNORDERED_ACCESS) then
      some (ctx.AddUAVBarrier subRsc)
    else some ctx

/-- Modelled from the spec: `D3D12CompileContext::FlushTransitions`: all staged barriers are
passed to the backend command list and the pending barrier set is emptied. -/
def GPU.D3D12CompileContext.FlushTransitions (ctx : GPU.D3D12CompileContext) :
    GPU.D3D12CompileContext :=
  { ctx with emitted_ := ctx.emitted_ ++ ctx.pendingBarriers_, pendingBarriers_ := [] }

/-- Modelled from the spec: the state tracking of `D3D12CompileContext::CompileCommand` for a
command given by the subresources it touches and the state each must be in: step 2 for each of
them in order, then the flush of step 3 before the underlying call. -/
def GPU.D3D12CompileContext.CompileCommand (ctx : GPU.D3D12CompileContext)
    (uses : List (GPU.Subresource × GPU.ResourceStates)) : Option GPU.D3D12CompileContext :=
  (uses.foldlM
    (fun (c : GPU.D3D12CompileContext) (u : GPU.Subresource × GPU.ResourceStates) =>
      c.UseSubresource u.1 u.2) ctx).map fun c => c.FlushTransitions

/-- Modelled from the spec: the state tracking of `D3D12CompileContext::CompileCommandList`:
the commands are compiled in order. -/
def GPU.D3D12CompileContext.CompileCommandList (ctx : GPU.D3D12CompileContext)
    (commands : List (List (GPU.Subresource × GPU.ResourceStates))) :
    Option GPU.D3D12CompileContext :=
  commands.foldlM
    (fun (c : GPU.D3D12CompileContext) (uses : List (GPU.Subresource × GPU.ResourceStates)) =>
      c.CompileCommand uses) ctx

/-- The barriers of the list that are about the subresource. -/
def GPU.barriersAbout (subRsc : GPU.Subresource) (bs : List GPU.ResourceBarrier) :
    List GPU.ResourceBarrier :=
  bs.filter fun b => decide (b.subRsc = subRsc)

/-- A tracker in which the subresources `(0, 0)` and `(1, 0)` are registered in the common
state; nothing is staged, nothing was emitted. -/
def GPU.Tracked.ctx : GPU.D3D12CompileContext :=
  { stateTracker_ := fun s =>
      if s = ⟨0, 0⟩ ∨ s = ⟨1, 0⟩ then some GPU.ResourceStates.COMMON else none }

/-- A constructed graph whose cursor stands at 65520, 16 bytes before the end of the arena. -/
def AlmostFull.graph : RenderGraphImpl :=
  { RenderGraph.new with frameDataOffset_ := 65520 }

/-! ## Geometry compression: Morton codes and colour transform

`src/apps/geom_compression/compressed_model.cpp`, namespace `MeshTools`. A `uint64_t` is embedded
as a natural number below `2 ^ 64`, with the left shifts reduced modulo `2 ^ 64`; a `float` is
embedded as a rational number. -/

/-- The function `MeshTools::splitBy3`; `a` is the value of the `unsigned int` argument. -/
def MeshTools.splitBy3 (a : Nat) : Nat :=
  let x := a &&& 0x1fffff
  let x := (x ||| (x <<< 32) % 18446744073709551616) &&& 0x1f00000000ffff
  let x := (x ||| (x <<< 16) % 18446744073709551616) &&& 0x1f0000ff0000ff
  let x := (x ||| (x <<< 8) % 18446744073709551616) &&& 0x100f00f00f00f00f
  let x := (x ||| (x <<< 4) % 18446744073709551616) &&& 0x10c30c30c30c30c3
  let x := (x ||| (x <<< 2) % 18446744073709551616) &&& 0x1249249249249249
  x

/-- The function `MeshTools::MortonEncode`. -/
def MeshTools.MortonEncode (x y z : Nat) : Nat :=
  let answer := 0
  answer ||| (MeshTools.splitBy3 x ||| (MeshTools.splitBy3 y <<< 1) % 18446744073709551616 |||
    (MeshTools.splitBy3 z <<< 2) % 18446744073709551616)

/-- Modelled from the spec: `Math::Vec3` (declared in `math/vec3.h`, not among the sources):
three `float` components. -/
structure Math.Vec3 where
  x : ℚ
  y : ℚ
  z : ℚ
  deriving DecidableEq

/-- Modelled from the spec: `Math::Vec4` (declared in `math/vec4.h`, not among the sources):
four `float` components. -/
structure Math.Vec4 where
  x : ℚ
  y : ℚ
  z : ℚ
  w : ℚ
  deriving DecidableEq

/-- Modelled from the spec: `Math::Vec3::Dot`, the dot product. -/
def Math.Vec3.Dot (a b : Math.Vec3) : ℚ := a.x * b.x + a.y * b.y + a.z * b.z

/-- The function `MeshTools::EncodeYCoCg` on `Math::Vec3`. -/
def MeshTools.EncodeYCoCg (rgb : Math.Vec3) : Math.Vec3 :=
  ⟨rgb.Dot ⟨0.25, 0.5, 0.25⟩, rgb.Dot ⟨0.5, 0.0, -0.5⟩, rgb.Dot ⟨-0.25, 0.5, -0.25⟩⟩

/-- The function `MeshTools::DecodeYCoCg` on `Math::Vec3`. -/
def MeshTools.DecodeYCoCg (ycocg : Math.Vec3) : Math.Vec3 :=
  ⟨ycocg.x + ycocg.y - ycocg.z, ycocg.x + ycocg.z, ycocg.x - ycocg.y - ycocg.z⟩

/-- The overload of `MeshTools::EncodeYCoCg` on `Math::Vec4`. -/
def MeshTools.EncodeYCoCgVec4 (rgba : Math.Vec4) : Math.Vec4 :=
  let rgb : Math.Vec3 := ⟨rgba.x, rgba.y, rgba.z⟩
  ⟨rgb.Dot ⟨0.25, 0.5, 0.25⟩, rgb.Dot ⟨0.5, 0.0, -0.5⟩, rgb.Dot ⟨-0.25, 0.5, -0.25⟩, rgba.w⟩

/-- The overload of `MeshTools::DecodeYCoCg` on `Math::Vec4`. -/
def MeshTools.DecodeYCoCgVec4 (ycocg : Math.Vec4) : Math.Vec4 :=
  ⟨ycocg.x + ycocg.y - ycocg.z, ycocg.x + ycocg.z, ycocg.x - ycocg.y - ycocg.z, ycocg.w⟩

/-! ## Format information

`src/gpu/private/utils.cpp`, namespace `GPU`. The enumerations and structs it works on are
declared in `gpu/types.h` and `gpu/utils.h`, which are not among the sources. -/

/-- The enumeration `GPU::Format`. The enumerators are those that `gpu/private/utils.cpp` names;
`OTHER` stands for every enumerator that it never names. -/
inductive GPU.Format where
  | INVALID
  | R32G32B32A32_TYPELESS
  | R32G32B32A32_FLOAT
  | R32G32B32A32_UINT
  | R32G32B32A32_SINT
  | R32G32B32_TYPELESS
  | R32G32B32_FLOAT
  | R32G32B32_UINT
  | R32G32B32_SINT
  | R16G16B16A16_TYPELESS
  | R16G16B16A16_FLOAT
  | R16G16B16A16_UNORM
  | R16G16B16A16_UINT
  | R16G16B16A16_SNORM
  | R16G16B16A16_SINT
  | R32G32_TYPELESS
  | R32G32_FLOAT
  | R32G32_UINT
  | R32G32_SINT
  | R32G8X24_TYPELESS
  | D32_FLOAT_S8X24_UINT
  | R32_FLOAT_X8X24_TYPELESS
  | X32_TYPELESS_G8X24_UINT
  | R10G10B10A2_TYPELESS
  | R10G10B10A2_UNORM
  | R10G10B10A2_UINT
  | R11G11B10_FLOAT
  | R8G8B8A8_TYPELESS
  | R8G8B8A8_UNORM
  | R8G8B8A8_UNORM_SRGB
  | R8G8B8A8_UINT
  | R8G8B8A8_SNORM
  | R8G8B8A8_SINT
  | R16G16_TYPELESS
  | R16G16_FLOAT
  | R16G16_UNORM
  | R16G16_UINT
  | R16G16_SNORM
  | R16G16_SINT
  | D32_FLOAT
  | R32_TYPELESS
  | R32_FLOAT
  | R32_UINT
  | R32_SINT
  | R24G8_TYPELESS
  | D24_UNORM_S8_UINT
  | R24_UNORM_X8_TYPELESS
  | X24_TYPELESS_G8_UINT
  | R8G8_TYPELESS
  | R8G8_UNORM
  | R8G8_UINT
  | R8G8_SNORM
  | R8G8_SINT
  | D16_UNORM
  | R16_TYPELESS
  | R16_FLOAT
  | R16_UNORM
  | R16_UINT
  | R16_SNORM
  | R16_SINT
  | R8_TYPELESS
  | R8_UNORM
  | R8_UINT
  | R8_SNORM
  | R8_SINT
  | A8_UNORM
  | R1_UNORM
  | R9G9B9E5_SHAREDEXP
  | R8G8_B8G8_UNORM
  | G8R8_G8B8_UNORM
  | B5G6R5_UNORM
  | B5G5R5A1_UNORM
  | R10G10B10_XR_BIAS_A2_UNORM
  | B8G8R8A8_TYPELESS
  | B8G8R8A8_UNORM_SRGB
  | B8G8R8A8_UNORM
  | B8G8R8X8_TYPELESS
  | B8G8R8X8_UNORM_SRGB
  | B8G8R8X8_UNORM
  | BC1_TYPELESS
  | BC1_UNORM
  | BC1_UNORM_SRGB
  | BC2_TYPELESS
  | BC2_UNORM
  | BC2_UNORM_SRGB
  | BC3_TYPELESS
  | BC3_UNORM
  | BC3_UNORM_SRGB
  | BC4_TYPELESS
  | BC4_UNORM
  | BC4_SNORM
  | BC5_TYPELESS
  | BC5_UNORM
  | BC5_SNORM
  | BC6H_TYPELESS
  | BC6H_UF16
  | BC6H_SF16
  | BC7_TYPELESS
  | BC7_UNORM
  | BC7_UNORM_SRGB
  | ETC1_UNORM
  | ETC2_UNORM
  | ETC2A_UNORM
  | ETC2A1_UNORM
  | OTHER
  deriving DecidableEq, Repr

/-- The enumeration `Core::DataType`, with the enumerators that `GetFormatInfo` names and
`INVALID` for the value a default-constructed `FormatInfo` holds. -/
inductive Core.DataType where
  | INVALID
  | TYPELESS
  | FLOAT
  | UINT
  | SINT
  | UNORM
  | SNORM
  deriving DecidableEq, Repr

/-- Modelled from the spec: the struct `GPU::FormatInfo`: the block dimensions in texels, the
bits per block, the bits per channel kind, the data type of the colour channels and the number
of channels. A default-constructed value holds zeros. -/
structure GPU.FormatInfo where
  blockW_ : Int := 0
  blockH_ : Int := 0
  blockBits_ : Int := 0
  rBits_ : Int := 0
  gBits_ : Int := 0
  bBits_ : Int := 0
  aBits_ : Int := 0
  dBits_ : Int := 0
  sBits_ : Int := 0
  xBits_ : Int := 0
  eBits_ : Int := 0
  rgbaFormat_ : Core.DataType := Core.DataType.INVALID
  channels_ : Int := 0
  deriving DecidableEq, Repr

/-- The first switch of `GPU::GetFormatInfo` ("Setup format bits", lines 14-288). The second
component tells whether the default case, `DBG_ASSERT(false)` ("Format not defined"), was
reached. -/
def GPU.GetFormatInfo.setupBits (info : GPU.FormatInfo) (format : GPU.Format) :
    GPU.FormatInfo × Bool :=
  match format with
  | .R32G32B32A32_TYPELESS | .R32G32B32A32_FLOAT | .R32G32B32A32_UINT | .R32G32B32A32_SINT =>
    ({ info with
       rBits_ := 32, gBits_ := 32, bBits_ := 32, aBits_ := 32, channels_ := 4 }, false)
  | .R32G32B32_TYPELESS | .R32G32B32_FLOAT | .R32G32B32_UINT | .R32G32B32_SINT =>
    ({ info with rBits_ := 32, gBits_ := 32, bBits_ := 32, channels_ := 3 }, false)
  | .R16G16B16A16_TYPELESS | .R16G16B16A16_FLOAT | .R16G16B16A16_UNORM | .R16G16B16A16_UINT
  | .R16G16B16A16_SNORM | .R16G16B16A16_SINT =>
    ({ info with
       rBits_ := 16, gBits_ := 16, bBits_ := 16, aBits_ := 16, channels_ := 4 }, false)
  | .R32G32_TYPELESS | .R32G32_FLOAT | .R32G32_UINT | .R32G32_SINT =>
    ({ info with rBits_ := 32, gBits_ := 32, channels_ := 2 }, false)
  | .R32G8X24_TYPELESS =>
    ({ info with
       rBits_ := 32, gBits_ := 8, bBits_ := 0, aBits_ := 0, xBits_ := 24, channels_ := 2 }, false)
  | .D32_FLOAT_S8X24_UINT =>
    ({ info with dBits_ := 32, sBits_ := 8, xBits_ := 24, channels_ := 2 }, false)
  | .R32_FLOAT_X8X24_TYPELESS =>
    ({ info with rBits_ := 32, xBits_ := 32, channels_ := 1 }, false)
  | .X32_TYPELESS_G8X24_UINT =>
    ({ info with gBits_ := 32, xBits_ := 56, channels_ := 1 }, false)
  | .R10G10B10A2_TYPELESS | .R10G10B10A2_UNORM | .R10G10B10A2_UINT =>
    ({ info with rBits_ := 10, gBits_ := 10, bBits_ := 10, aBits_ := 2, channels_ := 4 }, false)
  | .R11G11B10_FLOAT =>
    ({ info with rBits_ := 11, gBits_ := 11, bBits_ := 10, channels_ := 3 }, false)
  | .R8G8B8A8_TYPELESS | .R8G8B8A8_UNORM | .R8G8B8A8_UNORM_SRGB | .R8G8B8A8_UINT
  | .R8G8B8A8_SNORM | .R8G8B8A8_SINT =>
    ({ info with rBits_ := 8, gBits_ := 8, bBits_ := 8, aBits_ := 8, channels_ := 4 }, false)
  | .R16G16_TYPELESS | .R16G16_FLOAT | .R16G16_UNORM | .R16G16_UINT | .R16G16_SNORM
  | .R16G16_SINT =>
    ({ info with rBits_ := 16, gBits_ := 16, channels_ := 2 }, false)
  | .D32_FLOAT =>
    ({ info with dBits_ := 32, channels_ := 1 }, false)
  | .R32_TYPELESS | .R32_FLOAT | .R32_UINT | .R32_SINT =>
    ({ info with rBits_ := 32, channels_ := 1 }, false)
  | .R24G8_TYPELESS =>
    ({ info with rBits_ := 24, gBits_ := 32, channels_ := 2 }, false)
  | .D24_UNORM_S8_UINT =>
    ({ info with dBits_ := 24, sBits_ := 8, channels_ := 2 }, false)
  | .R24_UNORM_X8_TYPELESS =>
    ({ info with rBits_ := 24, xBits_ := 8, channels_ := 1 }, false)
  | .X24_TYPELESS_G8_UINT =>
    ({ info with xBits_ := 24, gBits_ := 8, channels_ := 1 }, false)
  | .R8G8_TYPELESS | .R8G8_UNORM | .R8G8_UINT | .R8G8_SNORM | .R8G8_SINT =>
    ({ info with rBits_ := 8, gBits_ := 8, channels_ := 2 }, false)
  | .D16_UNORM =>
    ({ info with dBits_ := 16, channels_ := 1 }, false)
  | .R16_TYPELESS | .R16_FLOAT | .R16_UNORM | .R16_UINT | .R16_SNORM | .R16_SINT =>
    ({ info with rBits_ := 16 }, false)
  | .R8_TYPELESS | .R8_UNORM | .R8_UINT | .R8_SNORM | .R8_SINT =>
    ({ info with rBits_ := 8, channels_ := 1 }, false)
  | .A8_UNORM =>
    ({ info with aBits_ := 8, channels_ := 1 }, false)
  | .R1_UNORM =>
    ({ info with rBits_ := 1, channels_ := 1 }, false)
  | .R9G9B9E5_SHAREDEXP =>
    ({ info with rBits_ := 9, gBits_ := 9, bBits_ := 9, eBits_ := 5, channels_ := 3 }, false)
  | .R8G8_B8G8_UNORM | .G8R8_G8B8_UNORM =>
    ({ info with rBits_ := 8, gBits_ := 16, bBits_ := 8, channels_ := 3 }, false)
  | .B5G6R5_UNORM =>
    ({ info with rBits_ := 5, gBits_ := 6, bBits_ := 5, channels_ := 3 }, false)
  | .B5G5R5A1_UNORM =>
    ({ info with rBits_ := 5, gBits_ := 6, bBits_ := 5, aBits_ := 1, channels_ := 4 }, false)
  | .R10G10B10_XR_BIAS_A2_UNORM =>
    ({ info with rBits_ := 10, gBits_ := 10, bBits_ := 10, xBits_ := 2, channels_ := 3 }, false)
  | .B8G8R8A8_TYPELESS | .B8G8R8A8_UNORM_SRGB | .B8G8R8A8_UNORM =>
    ({ info with rBits_ := 8, gBits_ := 8, bBits_ := 8, aBits_ := 8, channels_ := 4 }, false)
  | .B8G8R8X8_TYPELESS | .B8G8R8X8_UNORM_SRGB | .B8G8R8X8_UNORM =>
    ({ info with rBits_ := 8, gBits_ := 8, bBits_ := 8, xBits_ := 8, channels_ := 3 }, false)
  | .BC1_TYPELESS | .BC1_UNORM | .BC1_UNORM_SRGB =>
    ({ info with channels_ := 3 }, false)
  | .BC2_TYPELESS | .BC2_UNORM | .BC2_UNORM_SRGB =>
    ({ info with channels_ := 4 }, false)
  | .BC3_TYPELESS | .BC3_UNORM | .BC3_UNORM_SRGB =>
    ({ info with channels_ := 4 }, false)
  | .BC4_TYPELESS | .BC4_UNORM | .BC4_SNORM =>
    ({ info with channels_ := 1 }, false)
  | .BC5_TYPELESS | .BC5_UNORM | .BC5_SNORM =>
    ({ info with channels_ := 2 }, false)
  | .BC6H_TYPELESS | .BC6H_UF16 | .BC6H_SF16 =>
    ({ info with channels_ := 3 }, false)
  | .BC7_TYPELESS | .BC7_UNORM | .BC7_UNORM_SRGB =>
    ({ info with channels_ := 4 }, false)
  | .ETC1_UNORM =>
    ({ info with channels_ := 3 }, false)
  | .ETC2_UNORM =>
    ({ info with channels_ := 3 }, false)
  | .ETC2A_UNORM | .ETC2A1_UNORM =>
    ({ info with channels_ := 4 }, false)
  | _ => (info, true)

/-- The second switch of `GPU::GetFormatInfo` ("Setup RGBA format types where trivial", lines
291-369). -/
def GPU.GetFormatInfo.setupRgbaFormat (info : GPU.FormatInfo) (format : GPU.Format) :
    GPU.FormatInfo :=
  match format with
  | .R32G32B32A32_TYPELESS | .R32G32B32_TYPELESS | .R16G16B16A16_TYPELESS | .R32G32_TYPELESS
  | .R10G10B10A2_TYPELESS | .R8G8B8A8_TYPELESS | .R16G16_TYPELESS | .R32_TYPELESS
  | .R24G8_TYPELESS | .R16_TYPELESS | .R8G8_TYPELESS | .R8_TYPELESS =>
    { info with rgbaFormat_ := Core.DataType.TYPELESS }
  | .R32G32B32A32_FLOAT | .R32G32B32_FLOAT | .R16G16B16A16_FLOAT | .R32G32_FLOAT
  | .R11G11B10_FLOAT | .R16G16_FLOAT | .R32_FLOAT | .R16_FLOAT =>
    { info with rgbaFormat_ := Core.DataType.FLOAT }
  | .R32G32B32A32_UINT | .R32G32B32_UINT | .R16G16B16A16_UINT | .R32G32_UINT
  | .R10G10B10A2_UINT | .R8G8B8A8_UINT | .R16G16_UINT | .R32_UINT | .R8G8_UINT | .R16_UINT
  | .R8_UINT =>
    { info with rgbaFormat_ := Core.DataType.UINT }
  | .R32G32B32A32_SINT | .R32G32B32_SINT | .R16G16B16A16_SINT | .R32G32_SINT | .R8G8B8A8_SINT
  | .R16G16_SINT | .R32_SINT | .R8G8_SINT | .R16_SINT | .R8_SINT =>
    { info with rgbaFormat_ := Core.DataType.SINT }
  | .R16G16B16A16_UNORM | .R10G10B10A2_UNORM | .R8G8B8A8_UNORM | .R8G8B8A8_UNORM_SRGB
  | .R16G16_UNORM | .R8G8_UNORM | .R16_UNORM | .R8_UNORM | .A8_UNORM =>
    { info with rgbaFormat_ := Core.DataType.UNORM }
  | .R16G16B16A16_SNORM | .R8G8B8A8_SNORM | .R16G16_SNORM | .R8G8_SNORM | .R16_SNORM
  | .R8_SNORM =>
    { info with rgbaFormat_ := Core.DataType.SNORM }
  | _ => info

/-- The switch of `GPU::GetFormatInfo` for a format without bits, which "must be a compressed
format" (lines 384-432). -/
def GPU.GetFormatInfo.setupCompressedBlock (info : GPU.FormatInfo) (format : GPU.Format) :
    GPU.FormatInfo :=
  match format with
  | .BC1_TYPELESS | .BC1_UNORM | .BC1_UNORM_SRGB | .BC4_TYPELESS | .BC4_UNORM | .BC4_SNORM =>
    { info with blockBits_ := 64, blockW_ := 4, blockH_ := 4 }
  | .BC2_TYPELESS | .BC2_UNORM | .BC2_UNORM_SRGB | .BC3_TYPELESS | .BC3_UNORM
  | .BC3_UNORM_SRGB | .BC5_TYPELESS | .BC5_UNORM | .BC5_SNORM | .BC6H_TYPELESS | .BC6H_UF16
  | .BC6H_SF16 | .BC7_TYPELESS | .BC7_UNORM | .BC7_UNORM_SRGB =>
    { info with blockBits_ := 128, blockW_ := 4, blockH_ := 4 }
  | .ETC1_UNORM =>
    { info with blockBits_ := 64, blockW_ := 4, blockH_ := 4 }
  | .ETC2_UNORM =>
    { info with blockBits_ := 64, blockW_ := 4, blockH_ := 4 }
  | .ETC2A_UNORM =>
    { info with blockBits_ := 128, blockW_ := 4, blockH_ := 4 }
  | .ETC2A1_UNORM =>
    { info with blockBits_ := 64, blockW_ := 4, blockH_ := 4 }
  | _ => info

/-- The eight statements `info.blockBits_ += info.rBits_;` to `info.blockBits_ += info.eBits_;`
of `GPU::GetFormatInfo` (each reads a field that none of them writes). The sums of the bit counts
stay far below the range of `i32`. -/
def GPU.GetFormatInfo.sumBits (info : GPU.FormatInfo) : GPU.FormatInfo :=
  { info with
    blockBits_ := info.blockBits_ + info.rBits_ + info.gBits_ + info.bBits_ + info.aBits_ +
      info.dBits_ + info.sBits_ + info.xBits_ + info.eBits_ }

/-- The statement `if(info.blockBits_ == 0) ... else ...` of `GPU::GetFormatInfo`: the block of
a compressed format, or a block of one texel. -/
def GPU.GetFormatInfo.setupBlock (info : GPU.FormatInfo) (format : GPU.Format) :
    GPU.FormatInfo :=
  if info.blockBits_ = 0 then GPU.GetFormatInfo.setupCompressedBlock info format
  else { info with blockW_ := 1, blockH_ := 1 }

/-- The statement `if(format == Format::R1_UNORM)` of `GPU::GetFormatInfo`. -/
def GPU.GetFormatInfo.setupR1 (info : GPU.FormatInfo) (format : GPU.Format) : GPU.FormatInfo :=
  if format = GPU.Format.R1_UNORM then { info with blockW_ := 8, blockBits_ := 8 } else info

/-- The function `GPU::GetFormatInfo`, together with whether its `DBG_ASSERT(false)` was
reached. -/
def GPU.GetFormatInfo.run (format : GPU.Format) : GPU.FormatInfo × Bool :=
  let bits := GPU.GetFormatInfo.setupBits {} format
  let info := GPU.GetFormatInfo.setupRgbaFormat bits.1 format
  let info := GPU.GetFormatInfo.sumBits info
  let info := GPU.GetFormatInfo.setupBlock info format
  let info := GPU.GetFormatInfo.setupR1 info format
  (info, bits.2)

/-- The function `GPU::GetFormatInfo`. -/
def GPU.GetFormatInfo (format : GPU.Format) : GPU.FormatInfo :=
  (GPU.GetFormatInfo.run format).1

/-- The format is one that `GetFormatInfo` defines: the call does not reach the assertion
"Format not defined". -/
def GPU.Format.isDefined (format : GPU.Format) : Bool :=
  !(GPU.GetFormatInfo.run format).2

/-- The function `GPU::GetDSVFormat`. -/
def GPU.GetDSVFormat (format : GPU.Format) : GPU.Format :=
  match format with
  | .R16_TYPELESS => GPU.Format.D16_UNORM
  | .R24G8_TYPELESS => GPU.Format.D24_UNORM_S8_UINT
  | .R32_FLOAT | .R32_UINT | .R32_SINT | .R32_TYPELESS => GPU.Format.D32_FLOAT
  | .R32G8X24_TYPELESS | .X32_TYPELESS_G8X24_UINT | .R32_FLOAT_X8X24_TYPELESS =>
    GPU.Format.D32_FLOAT_S8X24_UINT
  | _ => GPU.Format.INVALID

/-- The function `GPU::GetSRVFormatDepth`. -/
def GPU.GetSRVFormatDepth (format : GPU.Format) : GPU.Format :=
  match format with
  | .R16_TYPELESS | .D16_UNORM => GPU.Format.R16_UNORM
  | .R24G8_TYPELESS | .D24_UNORM_S8_UINT => GPU.Format.R24_UNORM_X8_TYPELESS
  | .R32_TYPELESS | .D32_FLOAT => GPU.Format.R32_FLOAT
  | .R32G8X24_TYPELESS | .D32_FLOAT_S8X24_UINT => GPU.Format.R32_FLOAT_X8X24_TYPELESS
  | _ => GPU.Format.INVALID

/-- The function `GPU::GetSRVFormatStencil`. -/
def GPU.GetSRVFormatStencil (format : GPU.Format) : GPU.Format :=
  match format with
  | .R24G8_TYPELESS | .D24_UNORM_S8_UINT => GPU.Format.X24_TYPELESS_G8_UINT
  | .R32G8X24_TYPELESS | .D32_FLOAT_S8X24_UINT => GPU.Format.X32_TYPELESS_G8X24_UINT
  | _ => GPU.Format.INVALID

/-- Two's-complement wrap of an integer into the range of `i64`. -/
def wrapI64 (x : Int) : Int :=
  (x + 9223372036854775808) % 18446744073709551616 - 9223372036854775808

/-- Reduction of an integer into the range of `u32`. -/
def wrapU32 (x : Int) : Int := x % 4294967296

/-- Modelled from the spec: the struct `GPU::Footprint`: the format, the dimensions, and the row
and slice pitch in bytes. -/
structure GPU.Footprint where
  format_ : GPU.Format := GPU.Format.INVALID
  width_ : Int := 0
  height_ : Int := 0
  depth_ : Int := 0
  rowPitch_ : Int := 0
  slicePitch_ : Int := 0
  deriving DecidableEq, Repr

/-- What a call of `GPU::GetTextureFootprint` leaves behind: the footprint, and whether one of
its `DBG_ASSERT`s was violated. -/
structure GPU.FootprintResult where
  footprint : GPU.Footprint
  assertFailed : Bool
  deriving DecidableEq, Repr

/-- The function `GPU::GetTextureFootprint`. Integer division truncates; the result is `none`
when the function divides by a block dimension of zero. -/
def GPU.GetTextureFootprint (format : GPU.Format)
    (width height depth rowPitch slicePitch : Int) : Option GPU.FootprintResult :=
  let assertFailed :=
    !(decide (width ≥ 0) && decide (height ≥ 0) && decide (depth ≥ 0) &&
      decide (rowPitch ≥ 0) && decide (slicePitch ≥ 0))
  let formatInfo := GPU.GetFormatInfo format
  if formatInfo.blockW_ = 0 ∨ formatInfo.blockH_ = 0 then none else
  let widthByBlock := max 1 (wrapI32 (Int.tdiv width formatInfo.blockW_))
  let heightByBlock := max 1 (wrapI32 (Int.tdiv height formatInfo.blockH_))
  let footprint : GPU.Footprint :=
    { format_ := format, width_ := width, height_ := height, depth_ := depth }
  let footprint :=
    { footprint with
      rowPitch_ := Int.tdiv (wrapI32 (widthByBlock * formatInfo.blockBits_)) 8 }
  let assertFailed :=
    assertFailed || (decide (rowPitch > 0) && !decide (rowPitch ≥ footprint.rowPitch_))
  let footprint := if rowPitch > 0 then { footprint with rowPitch_ := rowPitch } else footprint
  let footprint :=
    { footprint with slicePitch_ := wrapI32 (footprint.rowPitch_ * heightByBlock) }
  let assertFailed :=
    assertFailed || (decide (slicePitch > 0) && !decide (slicePitch ≥ footprint.slicePitch_))
  let footprint :=
    if slicePitch > 0 then { footprint with slicePitch_ := slicePitch } else footprint
  some { footprint := footprint, assertFailed := assertFailed }

/-- The state of the loop of `GPU::GetTextureSize`: the accumulated size (`i64`) and the
dimensions of the current level. -/
structure GPU.GetTextureSize.State where
  size : Int
  width : Int
  height : Int
  depth : Int
  deriving DecidableEq, Repr

/-- One iteration of the loop of `GPU::GetTextureSize` (lines 490-498); `none` when it divides by
a block dimension of zero. -/
def GPU.GetTextureSize.level (formatInfo : GPU.FormatInfo) (st : GPU.GetTextureSize.State) :
    Option GPU.GetTextureSize.State :=
  if formatInfo.blockW_ = 0 ∨ formatInfo.blockH_ = 0 then none else
  let blocksW : Int :=
    Int.tdiv (wrapI32 (PotRoundUp st.width formatInfo.blockW_)) formatInfo.blockW_
  let blocksH : Int :=
    Int.tdiv (wrapI32 (PotRoundUp st.height formatInfo.blockH_)) formatInfo.blockH_
  let blocksD : Int := st.depth
  let size :=
    wrapI64 (st.size +
      Int.tdiv
        (wrapI64 (wrapI64 (wrapI64 (formatInfo.blockBits_ * blocksW) * blocksH) * blocksD)) 8)
  some { size := size, width := max (Int.tdiv st.width 2) 1,
         height := max (Int.tdiv st.height 2) 1, depth := max (Int.tdiv st.depth 2) 1 }

/-- The function `GPU::GetTextureSize`. -/
def GPU.GetTextureSize (format : GPU.Format) (width height depth levels elements : Int) :
    Option Int :=
  let formatInfo := GPU.GetFormatInfo format
  ((List.range levels.toNat).foldlM
    (fun (st : GPU.GetTextureSize.State) (_ : Nat) => GPU.GetTextureSize.level formatInfo st)
    { size := 0, width := width, height := height, depth := depth }).map fun st =>
      wrapI64 (st.size * elements)

/-- The enumeration `GPU::VertexUsage`, with the enumerators that the sources name; `OTHER`
stands for every other enumerator. -/
inductive GPU.VertexUsage where
  | POSITION
  | BLENDWEIGHTS
  | BLENDINDICES
  | NORMAL
  | TEXCOORD
  | TANGENT
  | BINORMAL
  | COLOR
  | OTHER
  deriving DecidableEq, Repr

/-- Modelled from the spec: the struct `GPU::VertexElement`, with the fields in the order of its
constructor: stream index, byte offset in the stream, format, usage and usage index. -/
structure GPU.VertexElement where
  streamIdx_ : Int := 0
  offset_ : Int := 0
  format_ : GPU.Format := GPU.Format.INVALID
  usage_ : GPU.VertexUsage := GPU.VertexUsage.OTHER
  usageIdx_ : Int := 0
  deriving DecidableEq, Repr

/-- One iteration of the loop of `GPU::GetStride` (lines 641-648) on the element under the
index; `stride` is a `u32`. -/
def GPU.GetStride.step (streamIdx : Int) (stride : Int) (element : GPU.VertexElement) : Int :=
  if element.streamIdx_ = streamIdx then
    let size := wrapU32 (Int.tdiv (GPU.GetFormatInfo element.format_).blockBits_ 8)
    max stride (wrapU32 (wrapU32 element.offset_ + size))
  else stride

/-- The function `GPU::GetStride`; `elements` is the array behind the pointer. The result is
`none` when the loop reads past the end of the array. -/
def GPU.GetStride (elements : List GPU.VertexElement) (numElements streamIdx : Int) :
    Option Int :=
  ((List.range numElements.toNat).foldlM
    (fun (stride : Int) (elementIdx : Nat) =>
      match elements[elementIdx]? with
      | none => none
      | some element => some (GPU.GetStride.step streamIdx stride element))
    0).map wrapI32

/-- One iteration of the loop "Calculate offsets per-stream" of the constructor
`CompressedModel::CompressedModel` (lines 1273-1279): the state is the elements processed so far
and the array `offsets`; `none` when the stream index is outside `offsets`. -/
def CompressedModel.calculateOffsets.step (st : List GPU.VertexElement × List Int)
    (element : GPU.VertexElement) : Option (List GPU.VertexElement × List Int) :=
  if element.streamIdx_ < 0 then none else
  match st.2[element.streamIdx_.toNat]? with
  | none => none
  | some offset =>
    let size := Int.tdiv (GPU.GetFormatInfo element.format_).blockBits_ 8
    let element := { element with offset_ := offset }
    some (st.1 ++ [element], st.2.set element.streamIdx_.toNat (wrapI32 (offset + size)))

/-- The loop "Calculate offsets per-stream" of the constructor `CompressedModel::CompressedModel`
(lines 1270-1279): the elements with their offsets assigned. The constant
`GPU::MAX_VERTEX_STREAMS` (declared in `gpu/types.h`, not among the sources) is a parameter. -/
def CompressedModel.calculateOffsets (MAX_VERTEX_STREAMS : Nat)
    (elements : List GPU.VertexElement) : Option (List GPU.VertexElement) :=
  (elements.foldlM CompressedModel.calculateOffsets.step
    ([], List.replicate MAX_VERTEX_STREAMS 0)).map fun st => st.1

/-- The vertex declaration that the constructor `CompressedModel::CompressedModel` sets up
(lines 1255-1268), before the offsets are calculated. -/
def CompressedModel.elements : List GPU.VertexElement :=
  [ ⟨0, 0, GPU.Format.R32G32B32_FLOAT, GPU.VertexUsage.POSITION, 0⟩,
    ⟨1, 0, GPU.Format.R8G8B8A8_SNORM, GPU.VertexUsage.NORMAL, 0⟩,
    ⟨1, 0, GPU.Format.R16G16_FLOAT, GPU.VertexUsage.TEXCOORD, 0⟩,
    ⟨2, 0, GPU.Format.R8G8B8A8_UNORM, GPU.VertexUsage.COLOR, 0⟩ ]

/-- The byte size `GetFormatInfo(format).blockBits_ / 8` of an element. -/
def GPU.VertexElement.size (element : GPU.VertexElement) : Int :=
  Int.tdiv (GPU.GetFormatInfo element.format_).blockBits_ 8

/-! ## The binary stream of the model converter -/

theorem scanResources_eq (entry : RenderPassEntry) (outputRes : RenderGraphResource)
    (resources : List RenderGraphResource) (out : List RenderPassEntry) (n : Int) :
    AddDependencies.scanResources entry outputRes resources (out, n) =
      (out ++ (resources.filter fun res =>
          decide (res.idx_ = outputRes.idx_ ∧ res.version_ = outputRes.version_)).map
            fun _ => entry,
       n + ((resources.filter fun res =>
          decide (res.idx_ = outputRes.idx_ ∧ res.version_ = outputRes.version_)).map
            fun _ => entry).length) := by
  unfold AddDependencies.scanResources
  induction resources generalizing out n with
  | nil => simp
  | cons r rs ih =>
    simp only [List.foldl_cons]
    by_cases h : r.idx_ = outputRes.idx_ ∧ r.version_ = outputRes.version_
    · rw [if_pos h, ih]
      simp [List.filter_cons, h]
      omega
    · rw [if_neg h, ih]
      simp [List.filter_cons, h]

theorem scanOutputs_eq (entry : RenderPassEntry) (resources : List RenderGraphResource)
    (out : List RenderPassEntry) (n : Int) :
    AddDependencies.scanOutputs entry resources (out, n) =
      (out ++ producersOf [entry] resources, n + (producersOf [entry] resources).length) := by
  unfold AddDependencies.scanOutputs RenderPassImpl.GetOutputs producersOf
  simp only [List.flatMap_cons, List.flatMap_nil, List.append_nil]
  induction entry.renderPass_.outputs_ generalizing out n with
  | nil => simp
  | cons o os ih =>
    simp only [List.foldl_cons, scanResources_eq, ih, List.flatMap_cons, List.length_append,
      List.append_assoc]
    simp
    omega

theorem producersOf_cons (entry : RenderPassEntry) (entries : List RenderPassEntry)
    (resources : List RenderGraphResource) :
    producersOf (entry :: entries) resources =
      producersOf [entry] resources ++ producersOf entries resources := by
  simp [producersOf]

theorem scanEntries_eq (entries : List RenderPassEntry) (resources : List RenderGraphResource)
    (out : List RenderPassEntry) (n : Int) :
    AddDependencies.scanEntries entries resources (out, n) =
      (out ++ producersOf entries resources, n + (producersOf entries resources).length) := by
  unfold AddDependencies.scanEntries
  induction entries generalizing out n with
  | nil => simp [producersOf]
  | cons e es ih =>
    rw [List.foldl_cons, scanOutputs_eq, ih, producersOf_cons e es]
    simp
    omega

theorem walkTrace_succ (fuel : Nat) (entries : List RenderPassEntry)
    (resources : List RenderGraphResource) :
    walkTrace (fuel + 1) entries resources =
      match concatTraces (fun m => walkTrace fuel entries m.renderPass_.inputs_)
          (producersOf entries resources) with
      | none => none
      | some d =>
        some (producersOf entries resources ++ d.1, resources.map (fun res => res.idx_) ++ d.2) :=
  rfl

/-- The dependency loop of `AddDependencies` (lines 77-81), started at position `s` of the
pushed producers `M`, computes the concatenated traces of the remaining producers, provided
the recursive calls do. -/
theorem dependencyLoop_eq (fuel : Nat) (E : List RenderPassEntry)
    (ih : ∀ (impl : RenderGraphImpl) (out : List RenderPassEntry)
      (rs : List RenderGraphResource), impl.renderPassEntries_ = E →
      AddDependencies fuel impl out rs =
        (walkTrace fuel E rs).map fun t =>
          ({ impl with resourcesNeeded_ := t.2.foldl CoreSet.insert impl.resourcesNeeded_ },
           out ++ t.1))
    (out M : List RenderPassEntry) (n : Nat) :
    ∀ (s : Nat) (impl : RenderGraphImpl) (X : List RenderPassEntry),
      s + n = M.length → impl.renderPassEntries_ = E →
      (List.range' s n).foldlM
        (fun (st : RenderGraphImpl × List RenderPassEntry) k =>
          match st.2[out.length + k]? with
          | some entry => AddDependencies fuel st.1 st.2 entry.renderPass_.GetInputs
          | none => none)
        (impl, out ++ M ++ X) =
      (concatTraces (fun m => walkTrace fuel E m.renderPass_.inputs_) (M.drop s)).map fun d =>
        ({ impl with resourcesNeeded_ := d.2.foldl CoreSet.insert impl.resourcesNeeded_ },
         out ++ M ++ X ++ d.1) := by
  induction n with
  | zero =>
    intro s impl X hs _
    have hdrop : M.drop s = [] := List.drop_eq_nil_of_le (by omega)
    simp [hdrop, concatTraces]
  | succ n ihn =>
    intro s impl X hs hE
    have hlt : s < M.length := by omega
    have hget : (out ++ M ++ X)[out.length + s]? = some (M[s]) := by
      rw [List.append_assoc, List.getElem?_append_right (by omega)]
      simp only [Nat.add_sub_cancel_left]
      rw [List.getElem?_append_left hlt]
      simp
    have hdrop : M.drop s = M[s] :: M.drop (s + 1) := by
      simp
    rw [List.range'_succ, List.foldlM_cons, hdrop]
    simp only [hget, RenderPassImpl.GetInputs]
    rw [ih impl (out ++ M ++ X) _ hE]
    cases hw : walkTrace fuel E (M[s]).renderPass_.inputs_ with
    | none => simp [concatTraces, hw]
    | some a =>
      simp only [Option.map_some', Option.some_bind, Option.bind_eq_bind]
      have hrec := ihn (s + 1)
        { impl with resourcesNeeded_ := a.2.foldl CoreSet.insert impl.resourcesNeeded_ }
        (X ++ a.1) (by omega) hE
      simp only [← List.append_assoc, RenderPassImpl.GetInputs] at hrec ⊢
      rw [hrec]
      cases hc : concatTraces (fun m => walkTrace fuel E m.renderPass_.inputs_)
          (M.drop (s + 1)) with
      | none => simp [concatTraces, hw, hc]
      | some b => simp [concatTraces, hw, hc, List.foldl_append]

/-- The method `AddDependencies` appends the entries of its trace to `outRenderPasses`, inserts
the ids of its trace into the needed-resource set, and changes nothing else. -/
theorem AddDependencies_eq_walkTrace (fuel : Nat) (E : List RenderPassEntry) :
    ∀ (impl : RenderGraphImpl) (out : List RenderPassEntry) (rs : List RenderGraphResource),
      impl.renderPassEntries_ = E →
      AddDependencies fuel impl out rs =
        (walkTrace fuel E rs).map fun t =>
          ({ impl with resourcesNeeded_ := t.2.foldl CoreSet.insert impl.resourcesNeeded_ },
           out ++ t.1) := by
  induction fuel with
  | zero => intro impl out rs _; simp [AddDependencies, walkTrace]
  | succ fuel ih =>
    intro impl out rs hE
    subst hE
    unfold AddDependencies
    simp only [scanEntries_eq]
    have hn : ((out.length : Int) + ((producersOf impl.renderPassEntries_ rs).length : Int)
        - (out.length : Int)).toNat = (producersOf impl.renderPassEntries_ rs).length := by omega
    have hb : ((out.length : Int)).toNat = out.length := by omega
    rw [hn, hb, List.range_eq_range']
    have hloop := dependencyLoop_eq fuel impl.renderPassEntries_ ih out
      (producersOf impl.renderPassEntries_ rs) (producersOf impl.renderPassEntries_ rs).length 0
      { impl with
        resourcesNeeded_ :=
          rs.foldl (fun s res => CoreSet.insert s res.idx_) impl.resourcesNeeded_ }
      [] (by omega) rfl
    simp only [List.append_nil, List.drop_zero] at hloop
    rw [hloop, walkTrace_succ]
    cases hc : concatTraces (fun m => walkTrace fuel impl.renderPassEntries_ m.renderPass_.inputs_)
        (producersOf impl.renderPassEntries_ rs) with
    | none => simp
    | some d => simp [List.foldl_append, List.foldl_map, List.append_assoc]

/-! ## The filter loop -/

theorem CoreSet.mem_insert (s : CoreSet) (x y : Int) :
    y ∈ CoreSet.insert s x ↔ y ∈ s ∨ y = x := by
  unfold CoreSet.insert
  by_cases h : x ∈ s
  · rw [if_pos h]
    constructor
    · intro hy; exact Or.inl hy
    · rintro (hy | rfl)
      · exact hy
      · exact h
  · rw [if_neg h]; simp

theorem filterLoop_eq (n : Nat) :
    ∀ (pre rest : List RenderPassEntry) (seen : CoreSet), rest.length ≤ n →
      FilterRenderPasses.loop n (pre ++ rest) pre.length seen = pre ++ keepFirst seen rest := by
  induction n with
  | zero =>
    intro pre rest seen h
    have : rest = [] := List.length_eq_zero.mp (by omega)
    subst this
    simp [FilterRenderPasses.loop, keepFirst]
  | succ n ih =>
    intro pre rest seen h
    cases rest with
    | nil => simp [FilterRenderPasses.loop, keepFirst]
    | cons e rest =>
      have hget : (pre ++ e :: rest)[pre.length]? = some e := by
        rw [List.getElem?_append_right (le_refl _)]; simp
      have hlen : rest.length ≤ n := by simpa using h
      unfold FilterRenderPasses.loop
      simp only [hget]
      by_cases hs : e.idx_ ∈ seen
      · have herase : (pre ++ e :: rest).eraseIdx pre.length = pre ++ rest := by
          rw [List.eraseIdx_append_of_length_le (le_refl _)]; simp
        simp only [CoreSet.contains, hs, decide_True, if_true, herase]
        rw [ih pre rest _ hlen]
        simp [keepFirst, hs]
      · simp only [CoreSet.contains, hs, decide_False, Bool.false_eq_true, if_false]
        have hrec := ih (pre ++ [e]) rest (CoreSet.insert seen e.idx_) hlen
        simp only [List.append_assoc, List.singleton_append, List.length_append,
          List.length_singleton] at hrec
        rw [hrec]
        simp [keepFirst, hs]

/-- The method `FilterRenderPasses` keeps exactly the first occurrence of every pass index. -/
theorem FilterRenderPasses_eq (l : List RenderPassEntry) :
    FilterRenderPasses l = keepFirst [] l := by
  have h := filterLoop_eq l.length [] l [] (le_refl _)
  simpa [FilterRenderPasses] using h

theorem keepFirst_mem (l : List RenderPassEntry) :
    ∀ (seen : CoreSet) (x : RenderPassEntry), x ∈ keepFirst seen l → x ∈ l ∧ x.idx_ ∉ seen := by
  induction l with
  | nil => intro seen x h; simp [keepFirst] at h
  | cons e rest ih =>
    intro seen x h
    unfold keepFirst at h
    by_cases hs : e.idx_ ∈ seen
    · rw [if_pos hs] at h
      obtain ⟨h1, h2⟩ := ih _ x h
      exact ⟨List.mem_cons_of_mem _ h1, fun hx => h2 ((CoreSet.mem_insert _ _ _).2 (Or.inl hx))⟩
    · rw [if_neg hs] at h
      rcases List.mem_cons.1 h with rfl | h
      · exact ⟨List.mem_cons_self _ _, hs⟩
      · obtain ⟨h1, h2⟩ := ih _ x h
        exact ⟨List.mem_cons_of_mem _ h1, fun hx => h2 ((CoreSet.mem_insert _ _ _).2 (Or.inl hx))⟩

theorem keepFirst_idx_mem (l : List RenderPassEntry) :
    ∀ (seen : CoreSet) (x : RenderPassEntry), x ∈ l → x.idx_ ∉ seen →
      ∃ y ∈ keepFirst seen l, y.idx_ = x.idx_ := by
  induction l with
  | nil => intro seen x h; simp at h
  | cons e rest ih =>
    intro seen x hx hn
    unfold keepFirst
    by_cases hs : e.idx_ ∈ seen
    · rw [if_pos hs]
      rcases List.mem_cons.1 hx with rfl | hx
      · exact absurd hs hn
      · apply ih _ x hx
        intro hm
        rcases (CoreSet.mem_insert _ _ _).1 hm with hm | hm
        · exact hn hm
        · exact hn (hm ▸ hs)
    · rw [if_neg hs]
      by_cases hex : x.idx_ = e.idx_
      · exact ⟨e, List.mem_cons_self _ _, hex.symm⟩
      · rcases List.mem_cons.1 hx with rfl | hx
        · exact absurd rfl hex
        · obtain ⟨y, hy, hyx⟩ := ih (CoreSet.insert seen e.idx_) x hx (by
            intro hm
            rcases (CoreSet.mem_insert _ _ _).1 hm with hm | hm
            · exact hn hm
            · exact hex hm)
          exact ⟨y, List.mem_cons_of_mem _ hy, hyx⟩

theorem keepFirst_nodup (l : List RenderPassEntry) :
    ∀ (seen : CoreSet), ((keepFirst seen l).map fun e => e.idx_).Nodup := by
  induction l with
  | nil => intro seen; simp [keepFirst]
  | cons e rest ih =>
    intro seen
    unfold keepFirst
    by_cases hs : e.idx_ ∈ seen
    · rw [if_pos hs]; exact ih _
    · rw [if_neg hs, List.map_cons, List.nodup_cons]
      refine ⟨?_, ih _⟩
      intro hm
      obtain ⟨y, hy, hye⟩ := List.mem_map.1 hm
      exact (keepFirst_mem rest _ y hy).2 ((CoreSet.mem_insert _ _ _).2 (Or.inr hye))

theorem keepFirst_split (l : List RenderPassEntry) :
    ∀ (seen : CoreSet) (L1 L2 : List RenderPassEntry) (P : RenderPassEntry),
      keepFirst seen l = L1 ++ P :: L2 →
      ∃ X Y, l = X ++ P :: Y ∧ L1 = keepFirst seen X := by
  induction l with
  | nil => intro seen L1 L2 P h; simp [keepFirst] at h
  | cons e rest ih =>
    intro seen L1 L2 P h
    unfold keepFirst at h
    by_cases hs : e.idx_ ∈ seen
    · rw [if_pos hs] at h
      obtain ⟨X, Y, hl, hL⟩ := ih _ L1 L2 P h
      refine ⟨e :: X, Y, by simp [hl], ?_⟩
      simp [keepFirst, hs, hL]
    · rw [if_neg hs] at h
      rcases List.cons_eq_append_iff.1 h with ⟨h1, h2⟩ | ⟨L1', h1, h2⟩
      · refine ⟨[], rest, ?_, ?_⟩
        · simp only [List.nil_append]
          rw [(List.cons.inj h2.symm).1]
        · simp [h1, keepFirst]
      · obtain ⟨X, Y, hl, hL⟩ := ih _ L1' L2 P h2
        refine ⟨e :: X, Y, by simp [hl], ?_⟩
        simp [keepFirst, hs, h1, hL]

/-! ## Properties of the backward walk -/

theorem mem_producersOf (E : List RenderPassEntry) (rs : List RenderGraphResource)
    (e : RenderPassEntry) :
    e ∈ producersOf E rs ↔ e ∈ E ∧ ∃ r ∈ rs, r ∈ e.renderPass_.outputs_ := by
  unfold producersOf
  simp only [List.mem_flatMap, List.mem_map, List.mem_filter, decide_eq_true_eq]
  constructor
  · rintro ⟨a, ha, o, ho, r, ⟨hr, h1, h2⟩, rfl⟩
    refine ⟨ha, r, hr, ?_⟩
    have : r = o := by
      cases r; cases o; simp only [RenderGraphResource.mk.injEq]; exact ⟨h1, h2⟩
    exact this ▸ ho
  · rintro ⟨he, r, hr, ho⟩
    exact ⟨e, he, r, ho, r, ⟨hr, rfl, rfl⟩, rfl⟩

theorem concatTraces_cons (g : RenderPassEntry → Option (List RenderPassEntry × List Int))
    (m : RenderPassEntry) (ms : List RenderPassEntry) (t : List RenderPassEntry × List Int)
    (h : concatTraces g (m :: ms) = some t) :
    ∃ a b, g m = some a ∧ concatTraces g ms = some b ∧ t = (a.1 ++ b.1, a.2 ++ b.2) := by
  unfold concatTraces at h
  cases ha : g m with
  | none => simp [ha] at h
  | some a =>
    cases hb : concatTraces g ms with
    | none => simp [ha, hb] at h
    | some b =>
      simp only [ha, hb, Option.some.injEq] at h
      exact ⟨a, b, rfl, rfl, h.symm⟩

theorem concatTraces_mem (g : RenderPassEntry → Option (List RenderPassEntry × List Int))
    (ms : List RenderPassEntry) :
    ∀ (t : List RenderPassEntry × List Int), concatTraces g ms = some t →
      ∀ x ∈ t.1, ∃ m ∈ ms, ∃ a, g m = some a ∧ x ∈ a.1 := by
  induction ms with
  | nil => intro t h x hx; simp [concatTraces] at h; subst h; simp at hx
  | cons m ms ih =>
    intro t h x hx
    obtain ⟨a, b, ha, hb, rfl⟩ := concatTraces_cons g m ms t h
    rcases List.mem_append.1 hx with hx | hx
    · exact ⟨m, List.mem_cons_self _ _, a, ha, hx⟩
    · obtain ⟨m', hm', a', ha', hx'⟩ := ih b hb x hx
      exact ⟨m', List.mem_cons_of_mem _ hm', a', ha', hx'⟩

theorem concatTraces_sub (g : RenderPassEntry → Option (List RenderPassEntry × List Int))
    (ms : List RenderPassEntry) :
    ∀ (t : List RenderPassEntry × List Int), concatTraces g ms = some t →
      ∀ m ∈ ms, ∃ a, g m = some a ∧ (∀ x ∈ a.1, x ∈ t.1) ∧ (∀ i ∈ a.2, i ∈ t.2) := by
  induction ms with
  | nil => intro t _ m hm; simp at hm
  | cons m0 ms ih =>
    intro t h m hm
    obtain ⟨a, b, ha, hb, rfl⟩ := concatTraces_cons g m0 ms t h
    rcases List.mem_cons.1 hm with rfl | hm
    · exact ⟨a, ha, fun x hx => List.mem_append_left _ hx, fun i hi => List.mem_append_left _ hi⟩
    · obtain ⟨a', ha', hsub, hsub2⟩ := ih b hb m hm
      exact ⟨a', ha', fun x hx => List.mem_append_right _ (hsub x hx),
        fun i hi => List.mem_append_right _ (hsub2 i hi)⟩

theorem concatTraces_split (g : RenderPassEntry → Option (List RenderPassEntry × List Int))
    (ms : List RenderPassEntry) :
    ∀ (t : List RenderPassEntry × List Int), concatTraces g ms = some t →
      ∀ (A B : List RenderPassEntry) (P : RenderPassEntry), t.1 = A ++ P :: B →
        ∃ m ∈ ms, ∃ a A1 B1, g m = some a ∧ a.1 = A1 ++ P :: B1 ∧ ∀ x ∈ B1, x ∈ B := by
  induction ms with
  | nil =>
    intro t h A B P hsplit
    simp [concatTraces] at h
    subst h
    simp at hsplit
  | cons m ms ih =>
    intro t h A B P hsplit
    obtain ⟨a, b, ha, hb, rfl⟩ := concatTraces_cons g m ms t h
    rcases List.append_eq_append_iff.1 hsplit with ⟨A2, hA, hb2⟩ | ⟨C, ha2, hB⟩
    · -- the split point lies in the traces of the later producers
      obtain ⟨m1, hm1, a1, A1, B1, hg, hs1, hsub⟩ := ih b hb A2 B P hb2
      exact ⟨m1, List.mem_cons_of_mem _ hm1, a1, A1, B1, hg, hs1, hsub⟩
    · -- the split point lies in the trace of the first producer, or right at its end
      cases C with
      | nil =>
        simp only [List.append_nil] at ha2
        simp only [List.nil_append] at hB
        obtain ⟨m1, hm1, a1, A1, B1, hg, hs1, hsub⟩ := ih b hb [] B P (by simpa using hB.symm)
        exact ⟨m1, List.mem_cons_of_mem _ hm1, a1, A1, B1, hg, hs1, hsub⟩
      | cons c C =>
        simp only [List.cons_append, List.cons.injEq] at hB
        obtain ⟨rfl, hB⟩ := hB
        refine ⟨m, List.mem_cons_self _ _, a, A, C, ha, ha2, ?_⟩
        intro x hx
        rw [hB]
        exact List.mem_append_left _ hx

/-- Every entry the walk appends is a pass entry of the graph. -/
theorem walkTrace_mem_entries (E : List RenderPassEntry) (fuel : Nat) :
    ∀ (rs : List RenderGraphResource) (t : List RenderPassEntry × List Int),
      walkTrace fuel E rs = some t → ∀ x ∈ t.1, x ∈ E := by
  induction fuel with
  | zero => intro rs t h; simp [walkTrace] at h
  | succ fuel ih =>
    intro rs t h x hx
    rw [walkTrace_succ] at h
    cases hc : concatTraces (fun m => walkTrace fuel E m.renderPass_.inputs_)
        (producersOf E rs) with
    | none => simp [hc] at h
    | some d =>
      simp only [hc, Option.some.injEq] at h
      subst h
      rcases List.mem_append.1 hx with hx | hx
      · exact ((mem_producersOf E rs x).1 hx).1
      · obtain ⟨m, _, a, ha, hxa⟩ := concatTraces_mem _ _ d hc x hx
        exact ih _ a ha x hxa

/-- Every pass with an output equal to a requested reference is pushed by the walk. -/
theorem walkTrace_producers (E : List RenderPassEntry) (fuel : Nat)
    (rs : List RenderGraphResource) (t : List RenderPassEntry × List Int)
    (h : walkTrace fuel E rs = some t) :
    ∀ e ∈ E, (∃ r ∈ rs, r ∈ e.renderPass_.outputs_) → e ∈ t.1 := by
  intro e he hr
  cases fuel with
  | zero => simp [walkTrace] at h
  | succ fuel =>
    rw [walkTrace_succ] at h
    cases hc : concatTraces (fun m => walkTrace fuel E m.renderPass_.inputs_)
        (producersOf E rs) with
    | none => simp [hc] at h
    | some d =>
      simp only [hc, Option.some.injEq] at h
      subst h
      exact List.mem_append_left _ ((mem_producersOf E rs e).2 ⟨he, hr⟩)

/-- In the list the walk appends, every producer of an input of an entry occurs again after
every occurrence of that entry. -/
theorem walkTrace_after (E : List RenderPassEntry) (fuel : Nat) :
    ∀ (rs : List RenderGraphResource) (t : List RenderPassEntry × List Int),
      walkTrace fuel E rs = some t →
      ∀ (A B : List RenderPassEntry) (P : RenderPassEntry), t.1 = A ++ P :: B →
        ∀ q ∈ E, Feeds q P → q ∈ B := by
  induction fuel with
  | zero => intro rs t h; simp [walkTrace] at h
  | succ fuel ih =>
    intro rs t h A B P hsplit q hq hfeed
    rw [walkTrace_succ] at h
    cases hc : concatTraces (fun m => walkTrace fuel E m.renderPass_.inputs_)
        (producersOf E rs) with
    | none => simp [hc] at h
    | some d =>
      simp only [hc, Option.some.injEq] at h
      subst h
      rcases List.append_eq_append_iff.1 hsplit with ⟨A2, hA, hd⟩ | ⟨C, hM, hB⟩
      · obtain ⟨m, _, a, A1, B1, hg, hs1, hsub⟩ := concatTraces_split _ _ d hc A2 B P hd
        exact hsub q (ih _ a hg A1 B1 P hs1 q hq hfeed)
      · cases C with
        | nil =>
          simp only [List.nil_append] at hB
          obtain ⟨m, _, a, A1, B1, hg, hs1, hsub⟩ :=
            concatTraces_split _ _ d hc [] B P (by simpa using hB.symm)
          exact hsub q (ih _ a hg A1 B1 P hs1 q hq hfeed)
        | cons c C =>
          simp only [List.cons_append, List.cons.injEq] at hB
          obtain ⟨rfl, hB⟩ := hB
          have hPm : P ∈ producersOf E rs := by rw [hM]; simp
          obtain ⟨a, ha, hsub, _⟩ := concatTraces_sub _ _ d hc P hPm
          have hqa : q ∈ a.1 := walkTrace_producers E fuel _ a ha q hq hfeed
          rw [hB]
          exact List.mem_append_right _ (hsub q hqa)

/-- Every entry the walk appends lies in every set that contains the producers of the requested
references and is closed under taking producers of inputs. -/
theorem walkTrace_sound (E : List RenderPassEntry) (T : RenderPassEntry → Prop)
    (hstep : ∀ p, T p → ∀ q ∈ E, Feeds q p → T q) (fuel : Nat) :
    ∀ (rs : List RenderGraphResource) (t : List RenderPassEntry × List Int),
      walkTrace fuel E rs = some t →
      (∀ e ∈ E, (∃ r ∈ rs, r ∈ e.renderPass_.outputs_) → T e) →
      ∀ x ∈ t.1, T x := by
  induction fuel with
  | zero => intro rs t h; simp [walkTrace] at h
  | succ fuel ih =>
    intro rs t h hbase x hx
    rw [walkTrace_succ] at h
    cases hc : concatTraces (fun m => walkTrace fuel E m.renderPass_.inputs_)
        (producersOf E rs) with
    | none => simp [hc] at h
    | some d =>
      simp only [hc, Option.some.injEq] at h
      subst h
      have hM : ∀ m ∈ producersOf E rs, T m := fun m hm =>
        hbase m ((mem_producersOf E rs m).1 hm).1 ((mem_producersOf E rs m).1 hm).2
      rcases List.mem_append.1 hx with hx | hx
      · exact hM x hx
      · obtain ⟨m, hm, a, ha, hxa⟩ := concatTraces_mem _ _ d hc x hx
        exact ih _ a ha (fun e he hr => hstep m (hM m hm) e he hr) x hxa

/-! ## Pass resolution of `Execute` -/

/-- What a returning call of `Execute` has computed, in terms of the trace of the walk. -/
theorem Execute_some (fuel : Nat) (impl : RenderGraphImpl) (gpu : Manager)
    (ref : RenderGraphResource) (r : ExecuteResult) (h : Execute fuel impl gpu ref = some r) :
    ∃ t, walkTrace fuel impl.renderPassEntries_
          [Execute.findNewest impl.renderPassEntries_ ref] = some t ∧
      r.finalRes = Execute.findNewest impl.renderPassEntries_ ref ∧
      r.errorLogged = decide ((Execute.findNewest impl.renderPassEntries_ ref).version_ = -1) ∧
      r.renderPassEntries = keepFirst [] t.1.reverse ∧
      CreateResources
        { impl with resourcesNeeded_ := t.2.foldl CoreSet.insert impl.resourcesNeeded_ } gpu
        = some (r.impl, r.gpu) := by
  unfold Execute Execute.fromResolved at h
  simp only [AddDependencies_eq_walkTrace fuel impl.renderPassEntries_ impl [] _ rfl] at h
  cases hw : walkTrace fuel impl.renderPassEntries_
      [Execute.findNewest impl.renderPassEntries_ ref] with
  | none => simp [hw] at h
  | some t =>
    simp only [hw, Option.map_some', List.nil_append] at h
    cases hc : CreateResources
        { impl with resourcesNeeded_ := t.2.foldl CoreSet.insert impl.resourcesNeeded_ } gpu with
    | none => simp [hc] at h
    | some p =>
      simp only [hc, Option.some.injEq] at h
      subst h
      exact ⟨t, rfl, rfl, rfl, FilterRenderPasses_eq _, hc⟩

/-- In a declared graph two pass entries with the same index are the same entry. -/
theorem Declared.idx_inj (impl : RenderGraphImpl) (hdecl : impl.Declared)
    (a b : RenderPassEntry) (ha : a ∈ impl.renderPassEntries_) (hb : b ∈ impl.renderPassEntries_)
    (hab : a.idx_ = b.idx_) : a = b := by
  have hnodup : (impl.renderPassEntries_.map fun e => e.idx_).Nodup := by
    have hd : impl.renderPassEntries_.map (fun e => e.idx_) =
        (List.range impl.renderPassEntries_.length).map Int.ofNat := hdecl
    rw [hd]
    exact (List.nodup_range _).map (fun x y hxy => Int.ofNat.inj hxy)
  exact List.inj_on_of_nodup_map hnodup ha hb hab

/-- A pass entry the walk appended occurs in the filtered reversed list, in a declared graph. -/
theorem mem_keepFirst_reverse (impl : RenderGraphImpl) (hdecl : impl.Declared)
    (W : List RenderPassEntry) (hW : ∀ x ∈ W, x ∈ impl.renderPassEntries_)
    (e : RenderPassEntry) (he : e ∈ W) : e ∈ keepFirst [] W := by
  obtain ⟨y, hy, hye⟩ := keepFirst_idx_mem W [] e he (by simp)
  have hyW : y ∈ W := (keepFirst_mem W [] y hy).1
  have : y = e := Declared.idx_inj impl hdecl y e (hW y hyW) (hW e he) hye
  exact this ▸ hy

/-! ## Creation of resources -/

theorem CreateResources_step_some (st : RenderGraphImpl × Manager) (idx : Int)
    (hv : st.1.ValidId idx) :
    ∃ st2, CreateResources.step st idx = some st2 := by
  obtain ⟨h0, h1⟩ := hv
  unfold CreateResources.step
  rw [if_neg (by omega), List.getElem?_eq_getElem h1]
  by_cases hh : (st.1.resourceDescs_[idx.toNat]).handle_.isValid
  · simp [hh]
  · simp [hh]

theorem CreateResources_step_inv (st st2 : RenderGraphImpl × Manager) (idx : Int)
    (h : CreateResources.step st idx = some st2) :
    st.1.ValidId idx ∧
    st2.1.resourceDescs_.length = st.1.resourceDescs_.length ∧
    st2.1.resourcesNeeded_ = st.1.resourcesNeeded_ ∧
    st2.1.renderPassEntries_ = st.1.renderPassEntries_ := by
  unfold CreateResources.step at h
  by_cases h0 : idx < 0
  · simp [h0] at h
  · rw [if_neg h0] at h
    cases hg : st.1.resourceDescs_[idx.toNat]? with
    | none => simp [hg] at h
    | some resDesc =>
      have hlt : idx.toNat < st.1.resourceDescs_.length := by
        by_contra hge
        rw [List.getElem?_eq_none (by omega)] at hg
        cases hg
      simp only [hg] at h
      by_cases hh : resDesc.handle_.isValid
      · simp only [hh, Bool.not_true, Bool.false_eq_true, if_false, Option.some.injEq] at h
        subst h
        exact ⟨⟨by omega, hlt⟩, rfl, rfl, rfl⟩
      · simp only [hh, Bool.not_false, if_true, Option.some.injEq] at h
        subst h
        exact ⟨⟨by omega, hlt⟩, by simp, rfl, rfl⟩

theorem CreateResources_fold_inv (l : List Int) :
    ∀ (st st2 : RenderGraphImpl × Manager), l.foldlM CreateResources.step st = some st2 →
      (∀ i ∈ l, st.1.ValidId i) ∧
      st2.1.resourceDescs_.length = st.1.resourceDescs_.length ∧
      st2.1.resourcesNeeded_ = st.1.resourcesNeeded_ ∧
      st2.1.renderPassEntries_ = st.1.renderPassEntries_ := by
  induction l with
  | nil =>
    intro st st2 h
    simp only [List.foldlM_nil, Option.pure_def, Option.some.injEq] at h
    subst h
    simp
  | cons i l ih =>
    intro st st2 h
    rw [List.foldlM_cons] at h
    cases hs : CreateResources.step st i with
    | none => simp [hs] at h
    | some st1 =>
      simp only [hs, Option.bind_eq_bind, Option.some_bind] at h
      obtain ⟨hv, hlen, hneed, hent⟩ := CreateResources_step_inv st st1 i hs
      obtain ⟨hall, hlen2, hneed2, hent2⟩ := ih st1 st2 h
      refine ⟨?_, by rw [hlen2, hlen], by rw [hneed2, hneed], by rw [hent2, hent]⟩
      intro j hj
      rcases List.mem_cons.1 hj with rfl | hj
      · exact hv
      · have := hall j hj
        unfold RenderGraphImpl.ValidId at this ⊢
        rw [hlen] at this
        exact this

theorem CreateResources_fold_some (l : List Int) :
    ∀ (st : RenderGraphImpl × Manager), (∀ i ∈ l, st.1.ValidId i) →
      ∃ st2, l.foldlM CreateResources.step st = some st2 := by
  induction l with
  | nil => intro st _; exact ⟨st, rfl⟩
  | cons i l ih =>
    intro st hall
    obtain ⟨st1, hs⟩ := CreateResources_step_some st i (hall i (List.mem_cons_self _ _))
    obtain ⟨_, hlen, _, _⟩ := CreateResources_step_inv st st1 i hs
    obtain ⟨st2, h2⟩ := ih st1 (fun j hj => by
      have := hall j (List.mem_cons_of_mem _ hj)
      unfold RenderGraphImpl.ValidId at this ⊢
      rw [hlen]
      exact this)
    exact ⟨st2, by rw [List.foldlM_cons, hs]; exact h2⟩

/-- The method `CreateResources` returns exactly when every needed id indexes a resource
description; it changes neither the needed-resource set nor the pass entries. -/
theorem CreateResources_some_iff (impl : RenderGraphImpl) (gpu : Manager) :
    (∃ p, CreateResources impl gpu = some p) ↔ ∀ i ∈ impl.resourcesNeeded_, impl.ValidId i := by
  constructor
  · rintro ⟨p, hp⟩
    exact (CreateResources_fold_inv _ _ _ hp).1
  · intro h
    exact CreateResources_fold_some _ (impl, gpu) h

theorem mem_foldl_insert (l : List Int) :
    ∀ (s : CoreSet) (x : Int), x ∈ l.foldl CoreSet.insert s ↔ x ∈ s ∨ x ∈ l := by
  induction l with
  | nil => intro s x; simp
  | cons a l ih =>
    intro s x
    rw [List.foldl_cons, ih, CoreSet.mem_insert, List.mem_cons]
    tauto

/-! ## Enough recursion budget -/

theorem concatTraces_mono (g g2 : RenderPassEntry → Option (List RenderPassEntry × List Int))
    (hg : ∀ m a, g m = some a → g2 m = some a) (ms : List RenderPassEntry) :
    ∀ t, concatTraces g ms = some t → concatTraces g2 ms = some t := by
  induction ms with
  | nil => intro t h; simpa [concatTraces] using h
  | cons m ms ih =>
    intro t h
    obtain ⟨a, b, ha, hb, rfl⟩ := concatTraces_cons g m ms t h
    simp [concatTraces, hg m a ha, ih b hb]

/-- A walk that ends within a recursion budget ends, with the same trace, within every larger
budget. -/
theorem walkTrace_mono (E : List RenderPassEntry) (fuel : Nat) :
    ∀ (k : Nat) (rs : List RenderGraphResource) (t : List RenderPassEntry × List Int),
      walkTrace fuel E rs = some t → walkTrace (fuel + k) E rs = some t := by
  induction fuel with
  | zero => intro k rs t h; simp [walkTrace] at h
  | succ fuel ih =>
    intro k rs t h
    have hk : fuel + 1 + k = (fuel + k) + 1 := by omega
    rw [hk, walkTrace_succ]
    rw [walkTrace_succ] at h
    cases hc : concatTraces (fun m => walkTrace fuel E m.renderPass_.inputs_)
        (producersOf E rs) with
    | none => simp [hc] at h
    | some d =>
      rw [concatTraces_mono _ _ (fun m a ha => ih k _ a ha) _ d hc]
      simpa [hc] using h

/-- The call `Execute` returns as soon as the walk from the resolved reference ends within the
budget and every id in the resulting needed-resource set indexes a resource description. -/
theorem Execute_of_walkTrace (fuel : Nat) (impl : RenderGraphImpl) (gpu : Manager)
    (ref : RenderGraphResource) (t : List RenderPassEntry × List Int)
    (hw : walkTrace fuel impl.renderPassEntries_
      [Execute.findNewest impl.renderPassEntries_ ref] = some t)
    (hvalid : ∀ i, i ∈ impl.resourcesNeeded_ ∨ i ∈ t.2 → impl.ValidId i) :
    ∃ r, Execute fuel impl gpu ref = some r ∧
      r.finalRes = Execute.findNewest impl.renderPassEntries_ ref ∧
      r.errorLogged = decide ((Execute.findNewest impl.renderPassEntries_ ref).version_ = -1) ∧
      r.renderPassEntries = keepFirst [] t.1.reverse ∧
      r.impl.renderPassEntries_ = impl.renderPassEntries_ ∧
      r.impl.resourcesNeeded_ = t.2.foldl CoreSet.insert impl.resourcesNeeded_ ∧
      r.impl.resourceDescs_.length = impl.resourceDescs_.length := by
  obtain ⟨p, hp⟩ := (CreateResources_some_iff
      { impl with resourcesNeeded_ := t.2.foldl CoreSet.insert impl.resourcesNeeded_ } gpu).2
    (fun i hi => hvalid i ((mem_foldl_insert _ _ _).1 hi))
  obtain ⟨_, hlen, hneed, hent⟩ := CreateResources_fold_inv _ _ _ hp
  refine ⟨{ impl := p.1, gpu := p.2,
            finalRes := Execute.findNewest impl.renderPassEntries_ ref,
            errorLogged := decide ((Execute.findNewest impl.renderPassEntries_ ref).version_ = -1),
            renderPassEntries := FilterRenderPasses t.1.reverse }, ?_, rfl, rfl,
          FilterRenderPasses_eq _, hent, hneed, hlen⟩
  unfold Execute Execute.fromResolved
  simp only [AddDependencies_eq_walkTrace fuel impl.renderPassEntries_ impl [] _ rfl, hw,
    Option.map_some', List.nil_append, hp]

/-! ## The search for the newest version -/

theorem findNewest_inner (os : List RenderGraphResource) :
    ∀ fr : RenderGraphResource,
      (os.foldl (fun (finalRes : RenderGraphResource) outputRes =>
          if finalRes.idx_ = outputRes.idx_ ∧ finalRes.version_ < outputRes.version_
          then outputRes else finalRes) fr).idx_ = fr.idx_ ∧
      fr.version_ ≤ (os.foldl (fun (finalRes : RenderGraphResource) outputRes =>
          if finalRes.idx_ = outputRes.idx_ ∧ finalRes.version_ < outputRes.version_
          then outputRes else finalRes) fr).version_ ∧
      (∀ o ∈ os, o.idx_ = fr.idx_ → o.version_ ≤
        (os.foldl (fun (finalRes : RenderGraphResource) outputRes =>
          if finalRes.idx_ = outputRes.idx_ ∧ finalRes.version_ < outputRes.version_
          then outputRes else finalRes) fr).version_) ∧
      ((os.foldl (fun (finalRes : RenderGraphResource) outputRes =>
          if finalRes.idx_ = outputRes.idx_ ∧ finalRes.version_ < outputRes.version_
          then outputRes else finalRes) fr) = fr ∨
       (os.foldl (fun (finalRes : RenderGraphResource) outputRes =>
          if finalRes.idx_ = outputRes.idx_ ∧ finalRes.version_ < outputRes.version_
          then outputRes else finalRes) fr) ∈ os) := by
  induction os with
  | nil => intro fr; simp
  | cons o os ih =>
    intro fr
    rw [List.foldl_cons]
    by_cases hc : fr.idx_ = o.idx_ ∧ fr.version_ < o.version_
    · rw [if_pos hc]
      obtain ⟨h1, h2, h3, h4⟩ := ih o
      refine ⟨by rw [h1, hc.1], by omega, ?_, ?_⟩
      · intro x hx hxi
        rcases List.mem_cons.1 hx with rfl | hx
        · exact h2
        · exact h3 x hx (by rw [hxi, hc.1])
      · rcases h4 with h4 | h4
        · right; rw [h4]; exact List.mem_cons_self _ _
        · right; exact List.mem_cons_of_mem _ h4
    · rw [if_neg hc]
      obtain ⟨h1, h2, h3, h4⟩ := ih fr
      refine ⟨h1, h2, ?_, ?_⟩
      · intro x hx hxi
        rcases List.mem_cons.1 hx with rfl | hx
        · have : x.version_ ≤ fr.version_ := by
            by_contra hlt
            exact hc ⟨hxi.symm, by omega⟩
          omega
        · exact h3 x hx hxi
      · rcases h4 with h4 | h4
        · left; exact h4
        · right; exact List.mem_cons_of_mem _ h4

theorem findNewest_outer (E : List RenderPassEntry) :
    ∀ fr : RenderGraphResource,
      (E.foldl (fun (finalRes : RenderGraphResource) (entry : RenderPassEntry) =>
          entry.renderPass_.GetOutputs.foldl (fun (finalRes : RenderGraphResource) outputRes =>
            if finalRes.idx_ = outputRes.idx_ ∧ finalRes.version_ < outputRes.version_
            then outputRes else finalRes) finalRes) fr).idx_ = fr.idx_ ∧
      fr.version_ ≤ (E.foldl (fun (finalRes : RenderGraphResource) (entry : RenderPassEntry) =>
          entry.renderPass_.GetOutputs.foldl (fun (finalRes : RenderGraphResource) outputRes =>
            if finalRes.idx_ = outputRes.idx_ ∧ finalRes.version_ < outputRes.version_
            then outputRes else finalRes) finalRes) fr).version_ ∧
      (∀ e ∈ E, ∀ o ∈ e.renderPass_.outputs_, o.idx_ = fr.idx_ → o.version_ ≤
        (E.foldl (fun (finalRes : RenderGraphResource) (entry : RenderPassEntry) =>
          entry.renderPass_.GetOutputs.foldl (fun (finalRes : RenderGraphResource) outputRes =>
            if finalRes.idx_ = outputRes.idx_ ∧ finalRes.version_ < outputRes.version_
            then outputRes else finalRes) finalRes) fr).version_) ∧
      ((E.foldl (fun (finalRes : RenderGraphResource) (entry : RenderPassEntry) =>
          entry.renderPass_.GetOutputs.foldl (fun (finalRes : RenderGraphResource) outputRes =>
            if finalRes.idx_ = outputRes.idx_ ∧ finalRes.version_ < outputRes.version_
            then outputRes else finalRes) finalRes) fr) = fr ∨
       ∃ e ∈ E, (E.foldl (fun (finalRes : RenderGraphResource) (entry : RenderPassEntry) =>
          entry.renderPass_.GetOutputs.foldl (fun (finalRes : RenderGraphResource) outputRes =>
            if finalRes.idx_ = outputRes.idx_ ∧ finalRes.version_ < outputRes.version_
            then outputRes else finalRes) finalRes) fr) ∈ e.renderPass_.outputs_) := by
  induction E with
  | nil => intro fr; simp
  | cons e E ih =>
    intro fr
    rw [List.foldl_cons]
    obtain ⟨a1, a2, a3, a4⟩ := findNewest_inner e.renderPass_.GetOutputs fr
    obtain ⟨h1, h2, h3, h4⟩ := ih (e.renderPass_.GetOutputs.foldl
      (fun (finalRes : RenderGraphResource) outputRes =>
        if finalRes.idx_ = outputRes.idx_ ∧ finalRes.version_ < outputRes.version_
        then outputRes else finalRes) fr)
    refine ⟨by rw [h1, a1], by omega, ?_, ?_⟩
    · intro x hx o ho hoi
      rcases List.mem_cons.1 hx with rfl | hx
      · have := a3 o ho hoi
        omega
      · exact h3 x hx o ho (by rw [hoi, a1])
    · rcases h4 with h4 | ⟨x, hx, hxo⟩
      · rcases a4 with a4 | a4
        · left; rw [h4, a4]
        · right; exact ⟨e, List.mem_cons_self _ _, by rw [h4]; exact a4⟩
      · right; exact ⟨x, List.mem_cons_of_mem _ hx, hxo⟩

/-- The search for the newest version keeps the id, never goes below version -1, bounds every
output version of that id, and yields either the unresolved reference or a declared output. -/
theorem findNewest_spec (E : List RenderPassEntry) (ref : RenderGraphResource) :
    (Execute.findNewest E ref).idx_ = ref.idx_ ∧
    -1 ≤ (Execute.findNewest E ref).version_ ∧
    (∀ e ∈ E, ∀ o ∈ e.renderPass_.outputs_, o.idx_ = ref.idx_ →
      o.version_ ≤ (Execute.findNewest E ref).version_) ∧
    (Execute.findNewest E ref = ⟨ref.idx_, -1⟩ ∨
      ∃ e ∈ E, Execute.findNewest E ref ∈ e.renderPass_.outputs_) :=
  findNewest_outer E ⟨ref.idx_, -1⟩

/-- An output whose version lies below the unresolved value -1 is never selected by the
search: with the single output `(0, -2)` the search for id 0 ends at `(0, -1)`. -/
theorem findNewest_below_unresolved :
    Execute.findNewest [{ idx_ := 0, name_ := "A", renderPass_ := { outputs_ := [⟨0, -2⟩] } }]
      ⟨0, 0⟩ = ⟨0, -1⟩ := by
  decide

/-! ## Claims on the dependency resolver -/

/-- C1. In a declared graph, the pass list a returning `Execute` runs is in
producer-before-consumer order: whenever the pass `P` at position `j` of the list has an input
reference equal to an output reference of a declared pass `Q`, then `Q` occurs in the list at a
position strictly smaller than `j`. -/
theorem Execute_producer_before_consumer (fuel : Nat) (impl : RenderGraphImpl) (gpu : Manager)
    (ref : RenderGraphResource) (r : ExecuteResult) (hdecl : impl.Declared)
    (h : Execute fuel impl gpu ref = some r) :
    ∀ (j : Nat) (P Q : RenderPassEntry), r.renderPassEntries[j]? = some P →
      Q ∈ impl.renderPassEntries_ → Feeds Q P →
      ∃ k, k < j ∧ r.renderPassEntries[k]? = some Q := by
  obtain ⟨t, hw, _, _, hL, _⟩ := Execute_some fuel impl gpu ref r h
  intro j P Q hj hQ hfeed
  have hjlt : j < r.renderPassEntries.length := by
    rcases Nat.lt_or_ge j r.renderPassEntries.length with hlt | hge
    · exact hlt
    · rw [List.getElem?_eq_none hge] at hj; cases hj
  have hP : r.renderPassEntries[j] = P := by
    rw [List.getElem?_eq_getElem hjlt] at hj; exact Option.some.inj hj
  have hsplit : keepFirst [] t.1.reverse =
      r.renderPassEntries.take j ++ P :: r.renderPassEntries.drop (j + 1) := by
    rw [← hL, ← hP, ← List.drop_eq_getElem_cons hjlt, List.take_append_drop]
  obtain ⟨X, Y, hrev, hL1⟩ := keepFirst_split _ _ _ _ _ hsplit
  have hWsplit : t.1 = Y.reverse ++ P :: X.reverse := by
    have := List.reverse_eq_append_iff.1 hrev
    simpa using this
  have hQX : Q ∈ X := by
    have := walkTrace_after _ fuel _ t hw _ _ _ hWsplit Q hQ hfeed
    simpa using this
  have hXE : ∀ x ∈ X, x ∈ impl.renderPassEntries_ := fun x hx =>
    walkTrace_mem_entries _ fuel _ t hw x (by rw [hWsplit]; simp [hx])
  have hQL1 : Q ∈ r.renderPassEntries.take j := by
    rw [hL1]; exact mem_keepFirst_reverse impl hdecl X hXE Q hQX
  obtain ⟨k, hk, hkQ⟩ := List.getElem_of_mem hQL1
  have hk2 : k < j := by
    have := hk
    rw [List.length_take] at this
    omega
  refine ⟨k, hk2, ?_⟩
  rw [List.getElem_take] at hkQ
  rw [List.getElem?_eq_getElem (by omega), hkQ]

/-- Witness for C1 on the three-pass graph. -/
theorem Execute_producer_before_consumer_witness :
    Scenario.graph.Declared ∧
    ∃ r, Execute 3 Scenario.graph Scenario.gpu ⟨1, 0⟩ = some r ∧
      ∀ (j : Nat) (P Q : RenderPassEntry), r.renderPassEntries[j]? = some P →
        Q ∈ Scenario.graph.renderPassEntries_ → Feeds Q P →
        ∃ k, k < j ∧ r.renderPassEntries[k]? = some Q := by
  refine ⟨by decide, ?_⟩
  obtain ⟨r, hr⟩ := Option.isSome_iff_exists.1
    (show (Execute 3 Scenario.graph Scenario.gpu ⟨1, 0⟩).isSome = true from by rfl)
  exact ⟨r, hr,
    Execute_producer_before_consumer 3 Scenario.graph Scenario.gpu ⟨1, 0⟩ r (by decide) hr⟩

/-- C2. In a declared graph, the set of passes a returning `Execute` runs is the backward closure
of the resolved final reference: it contains every declared pass with an output equal to the
resolved reference and, with each member, every declared pass that produces one of its inputs,
and it is contained in every set of passes with these two properties. -/
theorem Execute_runs_backward_closure (fuel : Nat) (impl : RenderGraphImpl) (gpu : Manager)
    (ref : RenderGraphResource) (r : ExecuteResult) (hdecl : impl.Declared)
    (h : Execute fuel impl gpu ref = some r) :
    r.finalRes = Execute.findNewest impl.renderPassEntries_ ref ∧
    BackwardClosed impl r.finalRes (fun e => e ∈ r.renderPassEntries) ∧
    ∀ T : RenderPassEntry → Prop, BackwardClosed impl r.finalRes T →
      ∀ e ∈ r.renderPassEntries, T e := by
  obtain ⟨t, hw, hfin, _, hL, _⟩ := Execute_some fuel impl gpu ref r h
  have hWE : ∀ x ∈ t.1.reverse, x ∈ impl.renderPassEntries_ := fun x hx =>
    walkTrace_mem_entries _ fuel _ t hw x (List.mem_reverse.1 hx)
  have hin : ∀ e, e ∈ t.1 → e ∈ r.renderPassEntries := fun e he => by
    rw [hL]
    exact mem_keepFirst_reverse impl hdecl _ hWE e (List.mem_reverse.2 he)
  have hout : ∀ e, e ∈ r.renderPassEntries → e ∈ t.1 := fun e he => by
    rw [hL] at he
    exact List.mem_reverse.1 (keepFirst_mem _ _ e he).1
  refine ⟨hfin, ⟨?_, ?_⟩, ?_⟩
  · intro e he hprod
    apply hin
    exact walkTrace_producers _ fuel _ t hw e he ⟨_, List.mem_singleton.2 rfl, hfin ▸ hprod⟩
  · intro p hp q hq hfeed
    obtain ⟨A, B, hAB⟩ := List.append_of_mem (hout p hp)
    apply hin
    rw [hAB]
    exact List.mem_append_right _
      (List.mem_cons_of_mem _ (walkTrace_after _ fuel _ t hw A B p hAB q hq hfeed))
  · intro T hT e he
    refine walkTrace_sound _ T hT.2 fuel _ t hw ?_ e (hout e he)
    rintro e he ⟨x, hx, hxo⟩
    rw [List.mem_singleton.1 hx, ← hfin] at hxo
    exact hT.1 e he hxo

/-- Witness for C2 on the three-pass graph. -/
theorem Execute_runs_backward_closure_witness :
    Scenario.graph.Declared ∧
    ∃ r, Execute 3 Scenario.graph Scenario.gpu ⟨1, 5⟩ = some r ∧
      r.finalRes = Execute.findNewest Scenario.graph.renderPassEntries_ ⟨1, 5⟩ ∧
      BackwardClosed Scenario.graph r.finalRes (fun e => e ∈ r.renderPassEntries) ∧
      ∀ T : RenderPassEntry → Prop, BackwardClosed Scenario.graph r.finalRes T →
        ∀ e ∈ r.renderPassEntries, T e := by
  refine ⟨by decide, ?_⟩
  obtain ⟨r, hr⟩ := Option.isSome_iff_exists.1
    (show (Execute 3 Scenario.graph Scenario.gpu ⟨1, 5⟩).isSome = true from by rfl)
  exact ⟨r, hr,
    Execute_runs_backward_closure 3 Scenario.graph Scenario.gpu ⟨1, 5⟩ r (by decide) hr⟩

/-- C5. The pass list a returning `Execute` runs contains each pass index at most once, however
often the backward walk pushed the pass. -/
theorem Execute_pass_index_at_most_once (fuel : Nat) (impl : RenderGraphImpl) (gpu : Manager)
    (ref : RenderGraphResource) (r : ExecuteResult)
    (h : Execute fuel impl gpu ref = some r) :
    (r.renderPassEntries.map fun e => e.idx_).Nodup ∧
    ∀ i : Int, (r.renderPassEntries.map fun e => e.idx_).count i ≤ 1 := by
  obtain ⟨t, _, _, _, hL, _⟩ := Execute_some fuel impl gpu ref r h
  have hnd : (r.renderPassEntries.map fun e => e.idx_).Nodup := by
    rw [hL]; exact keepFirst_nodup _ _
  exact ⟨hnd, fun i => List.nodup_iff_count_le_one.1 hnd i⟩

/-- Witness for C5 on the diamond graph, where the walk pushes pass A twice. -/
theorem Execute_pass_index_at_most_once_witness :
    (AddDependencies 4 Diamond.graph [] [⟨3, 1⟩]).map (fun p => p.2.map fun e => e.idx_) =
      some [3, 1, 2, 0, 0] ∧
    ∃ r, Execute 4 Diamond.graph Scenario.gpu ⟨3, 0⟩ = some r ∧
      (r.renderPassEntries.map fun e => e.idx_).Nodup ∧
      ∀ i : Int, (r.renderPassEntries.map fun e => e.idx_).count i ≤ 1 := by
  refine ⟨by rfl, ?_⟩
  obtain ⟨r, hr⟩ := Option.isSome_iff_exists.1
    (show (Execute 4 Diamond.graph Scenario.gpu ⟨3, 0⟩).isSome = true from by rfl)
  exact ⟨r, hr, Execute_pass_index_at_most_once 4 Diamond.graph Scenario.gpu ⟨3, 0⟩ r hr⟩

/-- C3. When some declared pass has an output with the id of `ref` (output versions of that id
being non-negative, as versions count from 0), `Execute` runs its walk from `(ref.idx_, m)`
with `m` the maximum version among the pass outputs with that id; and the version field of the
argument plays no role. -/
theorem Execute_resolves_newest_version (fuel : Nat) (impl : RenderGraphImpl) (gpu : Manager)
    (ref : RenderGraphResource)
    (hex : ∃ e ∈ impl.renderPassEntries_, ∃ o ∈ e.renderPass_.outputs_, o.idx_ = ref.idx_)
    (hnonneg : ∀ e ∈ impl.renderPassEntries_, ∀ o ∈ e.renderPass_.outputs_,
      o.idx_ = ref.idx_ → 0 ≤ o.version_) :
    ∃ m : Int,
      (∃ e ∈ impl.renderPassEntries_,
        (⟨ref.idx_, m⟩ : RenderGraphResource) ∈ e.renderPass_.outputs_) ∧
      (∀ e ∈ impl.renderPassEntries_, ∀ o ∈ e.renderPass_.outputs_,
        o.idx_ = ref.idx_ → o.version_ ≤ m) ∧
      Execute fuel impl gpu ref = Execute.fromResolved fuel impl gpu ⟨ref.idx_, m⟩ ∧
      ∀ v w : Int, Execute fuel impl gpu ⟨ref.idx_, v⟩ = Execute fuel impl gpu ⟨ref.idx_, w⟩ := by
  obtain ⟨hidx, _, hmax, hor⟩ := findNewest_spec impl.renderPassEntries_ ref
  have heq : Execute.findNewest impl.renderPassEntries_ ref =
      ⟨ref.idx_, (Execute.findNewest impl.renderPassEntries_ ref).version_⟩ := by
    cases hf : Execute.findNewest impl.renderPassEntries_ ref with
    | mk i v => rw [hf] at hidx; simp only at hidx; simp [hidx]
  refine ⟨(Execute.findNewest impl.renderPassEntries_ ref).version_, ?_, hmax, ?_, ?_⟩
  · rcases hor with hnone | ⟨e, he, ho⟩
    · obtain ⟨e, he, o, ho, hoi⟩ := hex
      have h1 := hmax e he o ho hoi
      have h2 := hnonneg e he o ho hoi
      rw [hnone] at h1
      simp only at h1
      omega
    · exact ⟨e, he, heq ▸ ho⟩
  · unfold Execute
    rw [← heq]
  · intro v w
    rfl

/-- Witness for C3 on the three-pass graph. -/
theorem Execute_resolves_newest_version_witness :
    ∃ m : Int,
      (∃ e ∈ Scenario.graph.renderPassEntries_,
        (⟨1, m⟩ : RenderGraphResource) ∈ e.renderPass_.outputs_) ∧
      (∀ e ∈ Scenario.graph.renderPassEntries_, ∀ o ∈ e.renderPass_.outputs_,
        o.idx_ = 1 → o.version_ ≤ m) ∧
      Execute 3 Scenario.graph Scenario.gpu ⟨1, 7⟩ =
        Execute.fromResolved 3 Scenario.graph Scenario.gpu ⟨1, m⟩ ∧
      ∀ v w : Int, Execute 3 Scenario.graph Scenario.gpu ⟨1, v⟩ =
        Execute 3 Scenario.graph Scenario.gpu ⟨1, w⟩ :=
  Execute_resolves_newest_version 3 Scenario.graph Scenario.gpu ⟨1, 7⟩ (by decide) (by decide)

/-- When no declared pass has an output with the id of `ref`, and `ref` and the ids already
needed index declared resources, `Execute` returns: the resolved version is the unresolved
value -1, the error line is logged, and the list of executed passes is empty. -/
theorem Execute_unproduced_resource_of_valid (fuel : Nat) (impl : RenderGraphImpl) (gpu : Manager)
    (ref : RenderGraphResource)
    (hno : ∀ e ∈ impl.renderPassEntries_, ∀ o ∈ e.renderPass_.outputs_, o.idx_ ≠ ref.idx_)
    (hneeded : ∀ i ∈ impl.resourcesNeeded_, impl.ValidId i)
    (href : impl.ValidId ref.idx_) :
    ∃ r, Execute (fuel + 1) impl gpu ref = some r ∧
      r.finalRes = ⟨ref.idx_, -1⟩ ∧ r.errorLogged = true ∧ r.renderPassEntries = [] := by
  obtain ⟨hidx, _, _, hor⟩ := findNewest_spec impl.renderPassEntries_ ref
  have hfin : Execute.findNewest impl.renderPassEntries_ ref = ⟨ref.idx_, -1⟩ := by
    rcases hor with h | ⟨e, he, ho⟩
    · exact h
    · exact absurd hidx (hno e he _ ho)
  have hprod : producersOf impl.renderPassEntries_ [⟨ref.idx_, -1⟩] = [] := by
    apply List.eq_nil_iff_forall_not_mem.2
    intro e he
    obtain ⟨hE, x, hx, hxo⟩ := (mem_producersOf _ _ e).1 he
    rw [List.mem_singleton.1 hx] at hxo
    exact hno e hE _ hxo rfl
  have hw : walkTrace (fuel + 1) impl.renderPassEntries_
      [Execute.findNewest impl.renderPassEntries_ ref] = some ([], [ref.idx_]) := by
    rw [hfin, walkTrace_succ, hprod]
    simp [concatTraces]
  obtain ⟨r, hr, h1, h2, h3, _⟩ := Execute_of_walkTrace (fuel + 1) impl gpu ref _ hw (by
    intro i hi
    rcases hi with hi | hi
    · exact hneeded i hi
    · rw [List.mem_singleton.1 hi]; exact href)
  refine ⟨r, hr, by rw [h1, hfin], by rw [h2, hfin]; rfl, by rw [h3]; rfl⟩

/-- Example: the three-pass graph extended by a texture that no pass writes. -/
theorem Execute_unproduced_resource_of_valid_example :
    ∃ r, Execute (0 + 1) (RenderGraphBuilder.CreateTexture Scenario.graph "V" {}).1 Scenario.gpu
        ⟨2, 0⟩ = some r ∧
      r.finalRes = ⟨2, -1⟩ ∧ r.errorLogged = true ∧ r.renderPassEntries = [] :=
  Execute_unproduced_resource_of_valid 0
    (RenderGraphBuilder.CreateTexture Scenario.graph "V" {}).1
    Scenario.gpu ⟨2, 0⟩ (by decide) (by decide) (by decide)

/-- C6. The three-pass scenario: A writes T as render target, B reads that T as shader resource
and writes U, C only reads that U. Declared through the builder, it is the graph
`Scenario.graph`, and `Execute` on a reference to U (of any version, with any backend, with a
recursion budget of at least 3) runs exactly the passes A, B in this order; C is not run. -/
theorem Scenario_execute_runs_A_then_B :
    Scenario.declare = some Scenario.graph ∧
    ∀ (fuel : Nat) (gpu : Manager) (v : Int),
      ∃ r, Execute (3 + fuel) Scenario.graph gpu ⟨1, v⟩ = some r ∧
        r.renderPassEntries = Scenario.graph.renderPassEntries_.take 2 ∧
        r.renderPassEntries.map (fun e => e.name_) = ["A", "B"] := by
  refine ⟨by rfl, ?_⟩
  intro fuel gpu v
  have hfin : Execute.findNewest Scenario.graph.renderPassEntries_ ⟨1, v⟩ = ⟨1, 1⟩ := by rfl
  have hw3 : walkTrace 3 Scenario.graph.renderPassEntries_ [⟨1, 1⟩] =
      some ([Scenario.graph.renderPassEntries_.get ⟨1, by decide⟩,
             Scenario.graph.renderPassEntries_.get ⟨0, by decide⟩], [1, 0, 1, 0]) := by
    decide
  have hw := walkTrace_mono _ 3 fuel _ _ hw3
  rw [← hfin] at hw
  obtain ⟨r, hr, _, _, h3, _⟩ := Execute_of_walkTrace (3 + fuel) Scenario.graph gpu ⟨1, v⟩ _ hw
    (by
      intro i hi
      have : i = 0 ∨ i = 1 := by
        rcases hi with hi | hi
        · simp [Scenario.graph] at hi
        · simp at hi; tauto
      rcases this with rfl | rfl <;> decide)
  refine ⟨r, hr, ?_, ?_⟩
  · rw [h3]; decide
  · rw [h3]; decide

/-- C7. Calling `Execute` a second time on the state the first call left behind, with the same
final resource and nothing declared in between, returns and runs the same passes in the same
order, from the same resolved reference. -/
theorem Execute_twice_same_order (fuel : Nat) (impl : RenderGraphImpl) (gpu : Manager)
    (ref : RenderGraphResource) (r1 : ExecuteResult)
    (h1 : Execute fuel impl gpu ref = some r1) :
    ∃ r2, Execute fuel r1.impl r1.gpu ref = some r2 ∧
      r2.renderPassEntries = r1.renderPassEntries ∧ r2.finalRes = r1.finalRes := by
  obtain ⟨t, hw, hfin, _, hL, hcr⟩ := Execute_some fuel impl gpu ref r1 h1
  obtain ⟨hvalid, hlen, hneed, hent⟩ := CreateResources_fold_inv _ _ _ hcr
  simp only at hlen hneed hent hvalid
  have hw2 : walkTrace fuel r1.impl.renderPassEntries_
      [Execute.findNewest r1.impl.renderPassEntries_ ref] = some t := by
    rw [hent]; exact hw
  obtain ⟨r2, hr2, g1, _, g3, _⟩ := Execute_of_walkTrace fuel r1.impl r1.gpu ref t hw2 (by
    intro i hi
    have hmem : i ∈ t.2.foldl CoreSet.insert impl.resourcesNeeded_ := by
      rcases hi with hi | hi
      · rw [hneed] at hi; exact hi
      · exact (mem_foldl_insert _ _ _).2 (Or.inr hi)
    have := hvalid i hmem
    unfold RenderGraphImpl.ValidId at this ⊢
    rw [hlen]
    exact this)
  exact ⟨r2, hr2, by rw [g3, hL], by rw [g1, hfin, hent]⟩

/-- Witness for C7 on the diamond graph, whose first `Execute` changes the graph state. -/
theorem Execute_twice_same_order_witness :
    ∃ r1, Execute 4 Diamond.graph Scenario.gpu ⟨3, 0⟩ = some r1 ∧
      r1.impl ≠ Diamond.graph ∧
      ∃ r2, Execute 4 r1.impl r1.gpu ⟨3, 0⟩ = some r2 ∧
        r2.renderPassEntries = r1.renderPassEntries ∧ r2.finalRes = r1.finalRes := by
  have hsome : (Execute 4 Diamond.graph Scenario.gpu ⟨3, 0⟩).isSome = true := by rfl
  obtain ⟨r1, hr1⟩ := Option.isSome_iff_exists.1 hsome
  refine ⟨r1, hr1, ?_, Execute_twice_same_order 4 Diamond.graph Scenario.gpu ⟨3, 0⟩ r1 hr1⟩
  have hn : (Execute 4 Diamond.graph Scenario.gpu ⟨3, 0⟩).map
      (fun r => r.impl.resourcesNeeded_) = some [3, 1, 2, 0] := by rfl
  rw [hr1] at hn
  intro hcontra
  rw [Option.map_some', hcontra] at hn
  exact absurd hn (by decide)

/-! ## Claims on usage declaration -/

theorem wrapI32_succ (v : Int) (h1 : -2147483648 ≤ v) (h2 : v < 2147483647) :
    wrapI32 (v + 1) = v + 1 := by
  unfold wrapI32
  omega

theorem containsAllFlags_or (value a b : Nat) :
    ContainsAllFlags value (a ||| b) =
      (ContainsAllFlags value a && ContainsAllFlags value b) := by
  unfold ContainsAllFlags
  rw [Bool.eq_iff_iff]
  simp only [decide_eq_true_eq, Bool.and_eq_true]
  constructor
  · intro h
    have hbit : ∀ j, (value.testBit j && (a.testBit j || b.testBit j)) =
        (a.testBit j || b.testBit j) := fun j => by
      rw [← Nat.testBit_or, ← Nat.testBit_and, h]
    constructor
    · apply Nat.eq_of_testBit_eq
      intro j
      have := hbit j
      rw [Nat.testBit_and]
      revert this
      cases value.testBit j <;> cases a.testBit j <;> cases b.testBit j <;> simp
    · apply Nat.eq_of_testBit_eq
      intro j
      have := hbit j
      rw [Nat.testBit_and]
      revert this
      cases value.testBit j <;> cases a.testBit j <;> cases b.testBit j <;> simp
  · rintro ⟨ha, hb⟩
    apply Nat.eq_of_testBit_eq
    intro j
    have h1 : (value.testBit j && a.testBit j) = a.testBit j := by
      rw [← Nat.testBit_and, ha]
    have h2 : (value.testBit j && b.testBit j) = b.testBit j := by
      rw [← Nat.testBit_and, hb]
    rw [Nat.testBit_and, Nat.testBit_or]
    revert h1 h2
    cases value.testBit j <;> cases a.testBit j <;> cases b.testBit j <;> simp

/-- C8. For a reference `(i, v)` to a Texture or SwapChain resource (with `v` an `i32` below the
largest one, so that the increment does not overflow), `UseRTV` appends `(i, v)` to the inputs
of the pass, appends `(i, v + 1)` to its outputs and returns `(i, v + 1)`: one input and one
output are added and the version grows by exactly 1. -/
theorem UseRTV_registers_input_and_next_version (impl : RenderGraphImpl)
    (renderPass : RenderPassImpl) (i v : Int) (resource : ResourceDesc)
    (hi : 0 ≤ i) (hres : impl.resourceDescs_[i.toNat]? = some resource)
    (hty : resource.resType_ = ResourceType.TEXTURE ∨
      resource.resType_ = ResourceType.SWAP_CHAIN)
    (hlo : -2147483648 ≤ v) (hhi : v < 2147483647) :
    ∃ r, RenderGraphBuilder.UseRTV impl renderPass ⟨i, v⟩ = some r ∧
      r.renderPass.inputs_ = renderPass.inputs_ ++ [⟨i, v⟩] ∧
      r.renderPass.outputs_ = renderPass.outputs_ ++ [⟨i, v + 1⟩] ∧
      r.res = ⟨i, v + 1⟩ ∧
      r.renderPass.inputs_.length = renderPass.inputs_.length + 1 ∧
      r.renderPass.outputs_.length = renderPass.outputs_.length + 1 ∧
      r.dbgBreak = false := by
  unfold RenderGraphBuilder.UseRTV
  simp only [if_neg (not_lt.2 hi), hres, wrapI32_succ v hlo hhi]
  rcases hty with hty | hty <;>
    simp [hty, RenderPassImpl.AddInput, RenderPassImpl.AddOutput]

/-- Witness for C8: the first usage declared in the three-pass scenario. -/
theorem UseRTV_registers_input_and_next_version_witness :
    ∃ r, RenderGraphBuilder.UseRTV Scenario.graph {} ⟨0, 0⟩ = some r ∧
      r.renderPass.inputs_ = ({} : RenderPassImpl).inputs_ ++ [⟨0, 0⟩] ∧
      r.renderPass.outputs_ = ({} : RenderPassImpl).outputs_ ++ [⟨0, 0 + 1⟩] ∧
      r.res = ⟨0, 0 + 1⟩ ∧
      r.renderPass.inputs_.length = ({} : RenderPassImpl).inputs_.length + 1 ∧
      r.renderPass.outputs_.length = ({} : RenderPassImpl).outputs_.length + 1 ∧
      r.dbgBreak = false :=
  UseRTV_registers_input_and_next_version Scenario.graph {} 0 0
    { id_ := 0, name_ := "T", resType_ := ResourceType.TEXTURE,
      textureDesc_ := { bindFlags_ := 0x50 } }
    (by decide) (by rfl) (Or.inl rfl) (by decide) (by decide)

/-- C9. For a reference `(i, v)` to a Texture or SwapChain resource, `UseDSV` appends `(i, v)` to
the inputs of the pass. When both `READ_ONLY_DEPTH` and `READ_ONLY_STENCIL` are set in the
flags, the outputs are unchanged and `(i, v)` is returned. When at most one of them is set (and
`v` is an `i32` below the largest one), exactly one output `(i, v + 1)` is appended and
`(i, v + 1)` is returned. -/
theorem UseDSV_read_only_or_next_version (impl : RenderGraphImpl)
    (renderPass : RenderPassImpl) (i v : Int) (flags : Nat) (resource : ResourceDesc)
    (hi : 0 ≤ i) (hres : impl.resourceDescs_[i.toNat]? = some resource)
    (hty : resource.resType_ = ResourceType.TEXTURE ∨
      resource.resType_ = ResourceType.SWAP_CHAIN) :
    ∃ r, RenderGraphBuilder.UseDSV impl renderPass ⟨i, v⟩ flags = some r ∧
      r.renderPass.inputs_ = renderPass.inputs_ ++ [⟨i, v⟩] ∧
      r.dbgBreak = false ∧
      (ContainsAllFlags flags DSVFlags.READ_ONLY_DEPTH = true ∧
        ContainsAllFlags flags DSVFlags.READ_ONLY_STENCIL = true →
          r.renderPass.outputs_ = renderPass.outputs_ ∧ r.res = ⟨i, v⟩) ∧
      (¬ (ContainsAllFlags flags DSVFlags.READ_ONLY_DEPTH = true ∧
          ContainsAllFlags flags DSVFlags.READ_ONLY_STENCIL = true) →
        -2147483648 ≤ v → v < 2147483647 →
          r.renderPass.outputs_ = renderPass.outputs_ ++ [⟨i, v + 1⟩] ∧ r.res = ⟨i, v + 1⟩) := by
  unfold RenderGraphBuilder.UseDSV
  simp only [if_neg (not_lt.2 hi), hres, containsAllFlags_or]
  by_cases hboth : ContainsAllFlags flags DSVFlags.READ_ONLY_DEPTH = true ∧
      ContainsAllFlags flags DSVFlags.READ_ONLY_STENCIL = true
  · rcases hty with hty | hty <;>
      simp [hty, hboth.1, hboth.2, RenderPassImpl.AddInput, RenderPassImpl.AddOutput]
  · have hb : (ContainsAllFlags flags DSVFlags.READ_ONLY_DEPTH &&
        ContainsAllFlags flags DSVFlags.READ_ONLY_STENCIL) = false := by
      cases h1 : ContainsAllFlags flags DSVFlags.READ_ONLY_DEPTH <;>
        cases h2 : ContainsAllFlags flags DSVFlags.READ_ONLY_STENCIL <;> simp_all
    rcases hty with hty | hty
    · simp only [hty, hb, Bool.not_false, if_true]
      refine ⟨_, rfl, ?_, rfl, fun h => absurd h hboth, fun _ hlo hhi => ?_⟩
      · simp [RenderPassImpl.AddInput, RenderPassImpl.AddOutput]
      · simp [RenderPassImpl.AddInput, RenderPassImpl.AddOutput, wrapI32_succ v hlo hhi]
    · simp only [hty, hb, Bool.not_false, if_true]
      refine ⟨_, rfl, ?_, rfl, fun h => absurd h hboth, fun _ hlo hhi => ?_⟩
      · simp [RenderPassImpl.AddInput, RenderPassImpl.AddOutput]
      · simp [RenderPassImpl.AddInput, RenderPassImpl.AddOutput, wrapI32_succ v hlo hhi]

/-- Witness for C9: depth-stencil usage of texture T with both read-only flags, and with the
read-only-depth flag alone. -/
theorem UseDSV_read_only_or_next_version_witness :
    (∃ r, RenderGraphBuilder.UseDSV Scenario.graph {} ⟨0, 0⟩ 3 = some r ∧
      r.renderPass.inputs_ = [⟨0, 0⟩] ∧ r.renderPass.outputs_ = [] ∧ r.res = ⟨0, 0⟩) ∧
    (∃ r, RenderGraphBuilder.UseDSV Scenario.graph {} ⟨0, 0⟩ 1 = some r ∧
      r.renderPass.inputs_ = [⟨0, 0⟩] ∧ r.renderPass.outputs_ = [⟨0, 1⟩] ∧ r.res = ⟨0, 1⟩) := by
  constructor
  · obtain ⟨r, hr, hin, _, hro, _⟩ := UseDSV_read_only_or_next_version Scenario.graph {} 0 0 3
      { id_ := 0, name_ := "T", resType_ := ResourceType.TEXTURE,
        textureDesc_ := { bindFlags_ := 0x50 } }
      (by decide) (by rfl) (Or.inl rfl)
    obtain ⟨hout, hret⟩ := hro ⟨by decide, by decide⟩
    exact ⟨r, hr, hin, hout, hret⟩
  · obtain ⟨r, hr, hin, _, _, hrw⟩ := UseDSV_read_only_or_next_version Scenario.graph {} 0 0 1
      { id_ := 0, name_ := "T", resType_ := ResourceType.TEXTURE,
        textureDesc_ := { bindFlags_ := 0x50 } }
      (by decide) (by rfl) (Or.inl rfl)
    obtain ⟨hout, hret⟩ := hrw (by decide) (by decide) (by decide)
    exact ⟨r, hr, hin, hout, hret⟩

/-- C10. For a reference to a Buffer, Texture or SwapChain resource, `UseSRV` appends the
reference to the inputs of the pass, leaves the outputs unchanged and returns the reference
unchanged. -/
theorem UseSRV_registers_input_only (impl : RenderGraphImpl)
    (renderPass : RenderPassImpl) (i v : Int) (resource : ResourceDesc)
    (hi : 0 ≤ i) (hres : impl.resourceDescs_[i.toNat]? = some resource)
    (hty : resource.resType_ = ResourceType.BUFFER ∨
      resource.resType_ = ResourceType.TEXTURE ∨
      resource.resType_ = ResourceType.SWAP_CHAIN) :
    ∃ r, RenderGraphBuilder.UseSRV impl renderPass ⟨i, v⟩ = some r ∧
      r.renderPass.inputs_ = renderPass.inputs_ ++ [⟨i, v⟩] ∧
      r.renderPass.outputs_ = renderPass.outputs_ ∧
      r.res = ⟨i, v⟩ ∧
      r.dbgBreak = false := by
  unfold RenderGraphBuilder.UseSRV
  simp only [if_neg (not_lt.2 hi), hres]
  rcases hty with hty | hty | hty <;>
    simp [hty, RenderPassImpl.AddInput]

/-- Witness for C10: shader-resource usage of version 1 of texture T in the three-pass graph. -/
theorem UseSRV_registers_input_only_witness :
    ∃ r, RenderGraphBuilder.UseSRV Scenario.graph {} ⟨0, 1⟩ = some r ∧
      r.renderPass.inputs_ = ({} : RenderPassImpl).inputs_ ++ [⟨0, 1⟩] ∧
      r.renderPass.outputs_ = ({} : RenderPassImpl).outputs_ ∧
      r.res = ⟨0, 1⟩ ∧
      r.dbgBreak = false :=
  UseSRV_registers_input_only Scenario.graph {} 0 1
    { id_ := 0, name_ := "T", resType_ := ResourceType.TEXTURE,
      textureDesc_ := { bindFlags_ := 0x50 } }
    (by decide) (by rfl) (Or.inr (Or.inl rfl))

/-! ## What the usage declarations do, for every resource kind -/

theorem UseSRV_shape (impl : RenderGraphImpl) (p : RenderPassImpl) (res : RenderGraphResource)
    (hv : impl.ValidId res.idx_) :
    ∃ u, RenderGraphBuilder.UseSRV impl p res = some u ∧
      u.impl.renderPassEntries_ = impl.renderPassEntries_ ∧
      u.impl.resourceDescs_.length = impl.resourceDescs_.length ∧
      u.renderPass = { inputs_ := p.inputs_ ++ [res], outputs_ := p.outputs_ } ∧
      u.res = res := by
  obtain ⟨h0, h1⟩ := hv
  unfold RenderGraphBuilder.UseSRV
  simp only [if_neg (not_lt.2 h0), List.getElem?_eq_getElem h1]
  exact ⟨_, rfl, rfl, by simp, rfl, rfl⟩

theorem UseRTV_shape (impl : RenderGraphImpl) (p : RenderPassImpl) (res : RenderGraphResource)
    (hv : impl.ValidId res.idx_) (hlo : -2147483648 ≤ res.version_)
    (hhi : res.version_ < 2147483647) :
    ∃ u, RenderGraphBuilder.UseRTV impl p res = some u ∧
      u.impl.renderPassEntries_ = impl.renderPassEntries_ ∧
      u.impl.resourceDescs_.length = impl.resourceDescs_.length ∧
      u.renderPass = { inputs_ := p.inputs_ ++ [res], outputs_ := p.outputs_ ++ [res.next] } ∧
      u.res = res.next := by
  obtain ⟨h0, h1⟩ := hv
  unfold RenderGraphBuilder.UseRTV
  simp only [if_neg (not_lt.2 h0), List.getElem?_eq_getElem h1, wrapI32_succ _ hlo hhi]
  exact ⟨_, rfl, rfl, by simp, rfl, rfl⟩

theorem UseDSV_shape (impl : RenderGraphImpl) (p : RenderPassImpl) (res : RenderGraphResource)
    (flags : Nat) (hv : impl.ValidId res.idx_) (hlo : -2147483648 ≤ res.version_)
    (hhi : res.version_ < 2147483647) :
    ∃ u, RenderGraphBuilder.UseDSV impl p res flags = some u ∧
      u.impl.renderPassEntries_ = impl.renderPassEntries_ ∧
      u.impl.resourceDescs_.length = impl.resourceDescs_.length ∧
      u.renderPass =
        { inputs_ := p.inputs_ ++ [res],
          outputs_ := p.outputs_ ++
            (if ContainsAllFlags flags (DSVFlags.READ_ONLY_DEPTH ||| DSVFlags.READ_ONLY_STENCIL)
             then [] else [res.next]) } ∧
      u.res =
        (if ContainsAllFlags flags (DSVFlags.READ_ONLY_DEPTH ||| DSVFlags.READ_ONLY_STENCIL)
         then res else res.next) := by
  obtain ⟨h0, h1⟩ := hv
  unfold RenderGraphBuilder.UseDSV
  simp only [if_neg (not_lt.2 h0), List.getElem?_eq_getElem h1, wrapI32_succ _ hlo hhi]
  by_cases hro : ContainsAllFlags flags
      (DSVFlags.READ_ONLY_DEPTH ||| DSVFlags.READ_ONLY_STENCIL) = true
  · simp only [hro, Bool.not_true, Bool.false_eq_true, if_false, if_true]
    exact ⟨_, rfl, rfl, by simp, by simp [RenderPassImpl.AddInput], rfl⟩
  · simp only [hro, Bool.not_false, if_true, if_false, Bool.not_eq_true] at *
    simp only [hro, Bool.not_false, if_true, Bool.false_eq_true, if_false]
    exact ⟨_, rfl, rfl, by simp, rfl, rfl⟩

/-! ## The invariant of a declaration -/

/-- A call that leaves the pass entries alone, keeps or extends the resource descriptions,
appends inputs that were returned references, appends outputs that are successors of returned
references, and returns one reference, preserves the invariant. -/
theorem Inv_of_extension (st st2 : BuildState) (B : Int)
    (ins outs : List RenderGraphResource) (ret : RenderGraphResource)
    (hinv : st.Inv B)
    (hent : st2.impl.renderPassEntries_ = st.impl.renderPassEntries_)
    (hlen : st.impl.resourceDescs_.length ≤ st2.impl.resourceDescs_.length)
    (hin : st2.renderPass.inputs_ = st.renderPass.inputs_ ++ ins)
    (hout : st2.renderPass.outputs_ = st.renderPass.outputs_ ++ outs)
    (hret : st2.returned = st.returned ++ [ret])
    (hins : ∀ x ∈ ins, x ∈ st.returned)
    (houts : ∀ o ∈ outs, (⟨o.idx_, o.version_ - 1⟩ : RenderGraphResource) ∈ st.returned)
    (hretok : st2.impl.ValidId ret.idx_ ∧ 0 ≤ ret.version_ ∧ ret.version_ ≤ B + 1 ∧
      (ret.version_ = 0 ∨ ret ∈ st.returned ∨ ret ∈ outs)) :
    st2.Inv (B + 1) ∧ st2.allOutputs = st.allOutputs ++ outs := by
  obtain ⟨hB, ha, hb, hc, hd, he⟩ := hinv
  have hall : st2.allOutputs = st.allOutputs ++ outs := by
    unfold BuildState.allOutputs
    rw [hent, hout, List.append_assoc]
  refine ⟨⟨by omega, ?_, ?_, ?_, ?_, ?_⟩, hall⟩
  · intro r hr
    rw [hret] at hr
    rcases List.mem_append.1 hr with hr | hr
    · obtain ⟨⟨v0, v1⟩, h1, h2, h3⟩ := ha r hr
      refine ⟨⟨v0, by omega⟩, h1, by omega, ?_⟩
      rcases h3 with h3 | h3
      · exact Or.inl h3
      · exact Or.inr (by rw [hall]; exact List.mem_append_left _ h3)
    · rw [List.mem_singleton.1 hr]
      obtain ⟨g1, g2, g3, g4⟩ := hretok
      refine ⟨g1, g2, g3, ?_⟩
      rcases g4 with g4 | g4 | g4
      · exact Or.inl g4
      · rcases (ha ret g4).2.2.2 with h3 | h3
        · exact Or.inl h3
        · exact Or.inr (by rw [hall]; exact List.mem_append_left _ h3)
      · exact Or.inr (by rw [hall]; exact List.mem_append_right _ g4)
  · intro o ho
    rw [hall] at ho
    rw [hret]
    rcases List.mem_append.1 ho with ho | ho
    · exact List.mem_append_left _ (hb o ho)
    · exact List.mem_append_left _ (houts o ho)
  · unfold RenderGraphImpl.Declared at hc ⊢
    rw [hent]; exact hc
  · unfold RenderGraphImpl.InputsFromSameOrEarlierPasses at hd ⊢
    rw [hent]; exact hd
  · intro x hx
    rw [hin] at hx
    rcases List.mem_append.1 hx with hx | hx
    · rcases he x hx with h3 | h3
      · exact Or.inl h3
      · exact Or.inr (by rw [hall]; exact List.mem_append_left _ h3)
    · rcases (ha x (hins x hx)).2.2.2 with h3 | h3
      · exact Or.inl h3
      · exact Or.inr (by rw [hall]; exact List.mem_append_left _ h3)

/-- Registering the pass under construction preserves the invariant and the pass outputs. -/
theorem Inv_of_register (st : BuildState) (B : Int) (name : String) (hinv : st.Inv B) :
    ({ st with impl := InternalAddRenderPass st.impl name st.renderPass,
               renderPass := {} } : BuildState).Inv (B + 1) ∧
    ({ st with impl := InternalAddRenderPass st.impl name st.renderPass,
               renderPass := {} } : BuildState).allOutputs = st.allOutputs := by
  obtain ⟨hB, ha, hb, hc, hd, he⟩ := hinv
  have hall : ({ st with impl := InternalAddRenderPass st.impl name st.renderPass,
                         renderPass := {} } : BuildState).allOutputs = st.allOutputs := by
    simp [BuildState.allOutputs, InternalAddRenderPass]
  refine ⟨⟨by omega, ?_, ?_, ?_, ?_, ?_⟩, hall⟩
  · intro r hr
    obtain ⟨h0, h1, h2, h3⟩ := ha r hr
    exact ⟨h0, h1, by omega, by rw [hall]; exact h3⟩
  · intro o ho
    rw [hall] at ho
    exact hb o ho
  · unfold RenderGraphImpl.Declared at hc ⊢
    simp only [InternalAddRenderPass, List.map_append, List.map_cons, List.map_nil,
      List.length_append, List.length_singleton, List.range_succ, hc]
    rfl
  · intro k e hk x hx
    simp only [InternalAddRenderPass] at hk
    rcases Nat.lt_or_ge k st.impl.renderPassEntries_.length with hlt | hge
    · rw [List.getElem?_append_left hlt] at hk
      rcases hd k e hk x hx with h0 | ⟨j, q, hj, hq, hxq⟩
      · exact Or.inl h0
      · refine Or.inr ⟨j, q, hj, ?_, hxq⟩
        simp only [InternalAddRenderPass]
        rw [List.getElem?_append_left (by omega)]
        exact hq
    · rw [List.getElem?_append_right hge] at hk
      have hk0 : k - st.impl.renderPassEntries_.length = 0 := by
        by_contra hne
        rw [List.getElem?_eq_none (by simp; omega)] at hk
        cases hk
      rw [hk0] at hk
      simp only [List.getElem?_cons_zero, Option.some.injEq] at hk
      subst hk
      simp only at hx
      rcases he x hx with h0 | hmem
      · exact Or.inl h0
      · right
        unfold BuildState.allOutputs at hmem
        rcases List.mem_append.1 hmem with hmem | hmem
        · obtain ⟨q, hq, hxq⟩ := List.mem_flatMap.1 hmem
          obtain ⟨j, hj, hjq⟩ := List.getElem_of_mem hq
          refine ⟨j, q, by omega, ?_, hxq⟩
          simp only [InternalAddRenderPass]
          rw [List.getElem?_append_left hj, List.getElem?_eq_getElem hj, hjq]
        · refine ⟨k, { idx_ := st.impl.renderPassEntries_.length, name_ := name,
                       renderPass_ := st.renderPass }, le_refl _, ?_, hmem⟩
          simp only [InternalAddRenderPass]
          rw [List.getElem?_append_right hge, hk0]
          rfl
  · intro x hx
    simp at hx

/-- Declaring a resource preserves the invariant and the pass outputs. -/
theorem Inv_of_create (st : BuildState) (B : Int) (rd : ResourceDesc) (hinv : st.Inv B) :
    ({ st with impl := { st.impl with resourceDescs_ := st.impl.resourceDescs_ ++ [rd] },
               returned := st.returned ++ [⟨st.impl.resourceDescs_.length, 0⟩] }
      : BuildState).Inv (B + 1) ∧
    ({ st with impl := { st.impl with resourceDescs_ := st.impl.resourceDescs_ ++ [rd] },
               returned := st.returned ++ [⟨st.impl.resourceDescs_.length, 0⟩] }
      : BuildState).allOutputs = st.allOutputs := by
  have hB0 : 0 ≤ B := hinv.1
  have h := Inv_of_extension st
    { st with impl := { st.impl with resourceDescs_ := st.impl.resourceDescs_ ++ [rd] },
              returned := st.returned ++ [⟨st.impl.resourceDescs_.length, 0⟩] }
    B [] [] ⟨st.impl.resourceDescs_.length, 0⟩ hinv rfl (by simp) (by simp) (by simp) rfl
    (by simp) (by simp)
    ⟨by simp [RenderGraphImpl.ValidId], le_refl _, by simp only; omega, Or.inl rfl⟩
  exact ⟨h.1, by rw [h.2, List.append_nil]⟩

theorem next_pred_mem (res : RenderGraphResource) (l : List RenderGraphResource)
    (h : res ∈ l) :
    ∀ o ∈ [res.next], (⟨o.idx_, o.version_ - 1⟩ : RenderGraphResource) ∈ l := by
  intro o ho
  rw [List.mem_singleton.1 ho]
  have : (⟨res.next.idx_, res.next.version_ - 1⟩ : RenderGraphResource) = res := by
    cases res
    simp [RenderGraphResource.next]
  rw [this]
  exact h

/-- One builder call given a returned reference succeeds, preserves the invariant, and appends
to the pass outputs the successor of its reference when it is a write usage. -/
theorem step_inv (st : BuildState) (B : Int) (c : BuilderCall) (hinv : st.Inv B)
    (hB : B < 2147483647) (harg : c.argReturned st.returned = true) :
    ∃ st2, st.step c = some st2 ∧ st2.Inv (B + 1) ∧
      st2.allOutputs = st.allOutputs ++ (writeArgs [c]).map RenderGraphResource.next := by
  have hB0 : 0 ≤ B := hinv.1
  cases c with
  | CreateBuffer name desc =>
    have h := Inv_of_create st B
      { id_ := st.impl.resourceDescs_.length, name_ := name, resType_ := ResourceType.BUFFER,
        bufferDesc_ := desc } hinv
    exact ⟨_, rfl, h.1, by simp only [writeArgs, List.map_nil, List.append_nil]; exact h.2⟩
  | CreateTexture name desc =>
    have h := Inv_of_create st B
      { id_ := st.impl.resourceDescs_.length, name_ := name, resType_ := ResourceType.TEXTURE,
        textureDesc_ := desc } hinv
    exact ⟨_, rfl, h.1, by simp only [writeArgs, List.map_nil, List.append_nil]; exact h.2⟩
  | ImportResource handle =>
    have h := Inv_of_create st B
      { id_ := st.impl.resourceDescs_.length, resType_ := handle.GetType, handle_ := handle }
      hinv
    exact ⟨_, rfl, h.1, by simp only [writeArgs, List.map_nil, List.append_nil]; exact h.2⟩
  | UseSRV res =>
    have hmem : res ∈ st.returned := by simpa [BuilderCall.argReturned] using harg
    obtain ⟨hv, h0, h1, _⟩ := hinv.2.1 res hmem
    obtain ⟨u, hu, hent, hlen, hpass, hres⟩ := UseSRV_shape st.impl st.renderPass res hv
    refine ⟨{ impl := u.impl, renderPass := u.renderPass, returned := st.returned ++ [u.res] },
      by simp [BuildState.step, hu], ?_⟩
    have := Inv_of_extension st
      { impl := u.impl, renderPass := u.renderPass, returned := st.returned ++ [u.res] }
      B [res] [] u.res hinv hent (le_of_eq hlen.symm) (by rw [hpass]) (by rw [hpass]; simp) rfl
      (by simpa using hmem) (by simp)
      ⟨by rw [hres]; exact ⟨hv.1, by rw [hlen]; exact hv.2⟩, by rw [hres]; exact h0,
       by rw [hres]; omega, by rw [hres]; exact Or.inr (Or.inl hmem)⟩
    simpa [writeArgs] using this
  | UseRTV res =>
    have hmem : res ∈ st.returned := by simpa [BuilderCall.argReturned] using harg
    obtain ⟨hv, h0, h1, _⟩ := hinv.2.1 res hmem
    obtain ⟨u, hu, hent, hlen, hpass, hres⟩ :=
      UseRTV_shape st.impl st.renderPass res hv (by omega) (by omega)
    refine ⟨{ impl := u.impl, renderPass := u.renderPass, returned := st.returned ++ [u.res] },
      by simp [BuildState.step, hu], ?_⟩
    have := Inv_of_extension st
      { impl := u.impl, renderPass := u.renderPass, returned := st.returned ++ [u.res] }
      B [res] [res.next] u.res hinv hent (le_of_eq hlen.symm) (by rw [hpass]) (by rw [hpass])
      rfl (by simpa using hmem) (next_pred_mem res _ hmem)
      ⟨by rw [hres]; exact ⟨hv.1, by rw [hlen]; exact hv.2⟩,
       by rw [hres]; simp only [RenderGraphResource.next]; omega,
       by rw [hres]; simp only [RenderGraphResource.next]; omega,
       by rw [hres]; exact Or.inr (Or.inr (List.mem_singleton.2 rfl))⟩
    simpa [writeArgs] using this
  | UseDSV res flags =>
    have hmem : res ∈ st.returned := by simpa [BuilderCall.argReturned] using harg
    obtain ⟨hv, h0, h1, _⟩ := hinv.2.1 res hmem
    obtain ⟨u, hu, hent, hlen, hpass, hres⟩ :=
      UseDSV_shape st.impl st.renderPass res flags hv (by omega) (by omega)
    refine ⟨{ impl := u.impl, renderPass := u.renderPass, returned := st.returned ++ [u.res] },
      by simp [BuildState.step, hu], ?_⟩
    by_cases hro : ContainsAllFlags flags
        (DSVFlags.READ_ONLY_DEPTH ||| DSVFlags.READ_ONLY_STENCIL) = true
    · simp only [hro, if_true] at hpass hres
      have := Inv_of_extension st
        { impl := u.impl, renderPass := u.renderPass, returned := st.returned ++ [u.res] }
        B [res] [] u.res hinv hent (le_of_eq hlen.symm) (by rw [hpass]) (by rw [hpass]) rfl
        (by simpa using hmem) (by simp)
        ⟨by rw [hres]; exact ⟨hv.1, by rw [hlen]; exact hv.2⟩, by rw [hres]; exact h0,
         by rw [hres]; omega, by rw [hres]; exact Or.inr (Or.inl hmem)⟩
      simpa [writeArgs, hro] using this
    · simp only [hro, if_false, Bool.false_eq_true] at hpass hres
      have := Inv_of_extension st
        { impl := u.impl, renderPass := u.renderPass, returned := st.returned ++ [u.res] }
        B [res] [res.next] u.res hinv hent (le_of_eq hlen.symm) (by rw [hpass]) (by rw [hpass])
        rfl (by simpa using hmem) (next_pred_mem res _ hmem)
        ⟨by rw [hres]; exact ⟨hv.1, by rw [hlen]; exact hv.2⟩,
         by rw [hres]; simp only [RenderGraphResource.next]; omega,
         by rw [hres]; simp only [RenderGraphResource.next]; omega,
         by rw [hres]; exact Or.inr (Or.inr (List.mem_singleton.2 rfl))⟩
      simpa [writeArgs, hro] using this
  | InternalAddRenderPass name =>
    refine ⟨_, rfl, ?_⟩
    have := Inv_of_register st B name hinv
    simpa [writeArgs] using this

theorem writeArgs_cons (c : BuilderCall) (cs : List BuilderCall) :
    writeArgs (c :: cs) = writeArgs [c] ++ writeArgs cs := by
  cases c with
  | UseDSV res flags =>
    by_cases h : ContainsAllFlags flags
        (DSVFlags.READ_ONLY_DEPTH ||| DSVFlags.READ_ONLY_STENCIL) = true <;>
      simp [writeArgs, h]
  | _ => simp [writeArgs]

/-- A sequence of builder calls in which every usage call is given a returned reference runs
through, preserves the invariant, and appends to the pass outputs the successors of the
references given to its write usages, in call order. -/
theorem run_inv (cs : List BuilderCall) :
    ∀ (st : BuildState) (B : Int), st.Inv B → B + cs.length < 2147483647 →
      st.threaded cs = true →
      ∃ st2, st.run cs = some st2 ∧ st2.Inv (B + cs.length) ∧
        st2.allOutputs = st.allOutputs ++ (writeArgs cs).map RenderGraphResource.next := by
  induction cs with
  | nil =>
    intro st B hinv _ _
    exact ⟨st, rfl, by simpa using hinv, by simp [writeArgs]⟩
  | cons c cs ih =>
    intro st B hinv hB hthr
    simp only [List.length_cons, Nat.cast_add, Nat.cast_one] at hB
    unfold BuildState.threaded at hthr
    rw [Bool.and_eq_true] at hthr
    obtain ⟨harg, hrest⟩ := hthr
    obtain ⟨st1, hstep, hinv1, hout1⟩ := step_inv st B c hinv (by omega) harg
    rw [hstep] at hrest
    obtain ⟨st2, hrun, hinv2, hout2⟩ := ih st1 (B + 1) hinv1 (by omega) hrest
    refine ⟨st2, by simp [BuildState.run, hstep, hrun], ?_, ?_⟩
    · have : B + ((cs.length + 1 : Nat) : Int) = B + 1 + cs.length := by push_cast; omega
      simp only [List.length_cons]
      rw [this]; exact hinv2
    · rw [hout2, hout1, writeArgs_cons c cs, List.map_append, List.append_assoc]

theorem init_Inv : BuildState.init.Inv 0 := by
  refine ⟨le_refl _, ?_, ?_, ?_, ?_, ?_⟩
  · intro r hr; simp [BuildState.init] at hr
  · intro o ho; simp [BuildState.init, BuildState.allOutputs, RenderGraph.new] at ho
  · simp [RenderGraphImpl.Declared, BuildState.init, RenderGraph.new]
  · intro k e hk
    simp [BuildState.init, RenderGraph.new] at hk
  · intro x hx; simp [BuildState.init] at hx

/-- The largest version of an id in a list of references, 0 when the id does not occur with a
positive version. -/
theorem exists_max_version (i : Int) (L : List RenderGraphResource) :
    ∃ M : Int, 0 ≤ M ∧ (∀ v, (⟨i, v⟩ : RenderGraphResource) ∈ L → v ≤ M) ∧
      (M = 0 ∨ (⟨i, M⟩ : RenderGraphResource) ∈ L) := by
  induction L with
  | nil => exact ⟨0, le_refl _, by simp, Or.inl rfl⟩
  | cons x L ih =>
    obtain ⟨M, hM0, hMle, hMmem⟩ := ih
    by_cases hx : x.idx_ = i ∧ M < x.version_
    · refine ⟨x.version_, by omega, ?_, Or.inr ?_⟩
      · intro v hv
        rcases List.mem_cons.1 hv with hv | hv
        · rw [← hv]
        · have := hMle v hv; omega
      · have : (⟨i, x.version_⟩ : RenderGraphResource) = x := by
          cases x; simp only [RenderGraphResource.mk.injEq, and_true]; exact hx.1.symm
        rw [this]; exact List.mem_cons_self _ _
    · refine ⟨M, hM0, ?_, ?_⟩
      · intro v hv
        rcases List.mem_cons.1 hv with hv | hv
        · by_contra hlt
          apply hx
          rw [← hv]
          exact ⟨rfl, by simp only; omega⟩
        · exact hMle v hv
      · rcases hMmem with h | h
        · exact Or.inl h
        · exact Or.inr (List.mem_cons_of_mem _ h)

/-- Under the invariant, the versions of an id among the pass outputs are exactly 1, ..., n. -/
theorem Inv_versions_contiguous (st : BuildState) (B : Int) (hinv : st.Inv B) (i : Int) :
    ∃ n : Nat, ∀ v : Int,
      (⟨i, v⟩ : RenderGraphResource) ∈ st.allOutputs ↔ 1 ≤ v ∧ v ≤ n := by
  obtain ⟨_, ha, hb, _, _, _⟩ := hinv
  have hP : ∀ v : Int, (⟨i, v⟩ : RenderGraphResource) ∈ st.allOutputs →
      1 ≤ v ∧ (2 ≤ v → (⟨i, v - 1⟩ : RenderGraphResource) ∈ st.allOutputs) := by
    intro v hv
    have hpred := hb _ hv
    obtain ⟨_, h0, _, h3⟩ := ha _ hpred
    simp only at h0 h3
    refine ⟨by omega, fun h2 => ?_⟩
    rcases h3 with h3 | h3
    · omega
    · exact h3
  obtain ⟨M, hM0, hMle, hMmem⟩ := exists_max_version i st.allOutputs
  refine ⟨M.toNat, fun v => ⟨fun hv => ⟨(hP v hv).1, by have := hMle v hv; omega⟩, ?_⟩⟩
  rintro ⟨h1, h2⟩
  have hMpos : 1 ≤ M := by omega
  have hMin : (⟨i, M⟩ : RenderGraphResource) ∈ st.allOutputs := by
    rcases hMmem with h | h
    · omega
    · exact h
  have hdown : ∀ k : Nat, 1 ≤ M - k → (⟨i, M - k⟩ : RenderGraphResource) ∈ st.allOutputs := by
    intro k
    induction k with
    | zero => intro _; simpa using hMin
    | succ k ihk =>
      intro hk
      have hprev := ihk (by push_cast at hk; omega)
      have := (hP _ hprev).2 (by push_cast at hk; omega)
      have he : M - ((k + 1 : Nat) : Int) = M - (k : Int) - 1 := by push_cast; omega
      rw [he]; exact this
  have := hdown (M - v).toNat (by omega)
  have he : M - ((M - v).toNat : Int) = v := by omega
  rw [he] at this
  exact this

/-! ## Claims on declared graphs -/

/-- C11. For every sequence of fewer than 2^31 - 1 builder calls in which each usage call is
given a reference returned by an earlier call, the sequence runs through and, for every resource
id, the versions of that id that occur in pass outputs are exactly 1, ..., n for some n >= 0:
they are contiguous from 1 and version 0 is never an output. -/
theorem declared_output_versions_contiguous (cs : List BuilderCall)
    (hlen : cs.length < 2147483647) (hthr : BuildState.init.threaded cs = true) :
    ∃ st, BuildState.init.run cs = some st ∧
      ∀ i : Int, ∃ n : Nat, ∀ v : Int,
        (⟨i, v⟩ : RenderGraphResource) ∈ st.allOutputs ↔ 1 ≤ v ∧ v ≤ n := by
  obtain ⟨st, hrun, hinv, _⟩ := run_inv cs BuildState.init 0 init_Inv (by omega) hthr
  exact ⟨st, hrun, fun i => Inv_versions_contiguous st _ hinv i⟩

/-- Witness for C11 on the three-pass scenario. -/
theorem declared_output_versions_contiguous_witness :
    ∃ st, BuildState.init.run Scenario.calls = some st ∧
      ∀ i : Int, ∃ n : Nat, ∀ v : Int,
        (⟨i, v⟩ : RenderGraphResource) ∈ st.allOutputs ↔ 1 ≤ v ∧ v ≤ n :=
  declared_output_versions_contiguous Scenario.calls (by decide) (by decide)

theorem next_injective : Function.Injective RenderGraphResource.next := by
  intro a b h
  cases a; cases b
  simp only [RenderGraphResource.next, RenderGraphResource.mk.injEq] at h
  simp only [RenderGraphResource.mk.injEq]
  exact ⟨h.1, by omega⟩

/-- Counterexample to C12: two passes write the same reference `(0, 0)`, which `CreateTexture`
returned; both passes then have `(0, 1)` among their outputs. -/
theorem forked_reference_has_two_producers :
    BuildState.init.threaded Forked.calls = true ∧
    ∃ st, BuildState.init.run Forked.calls = some st ∧
      (st.impl.renderPassEntries_.map fun e => e.renderPass_.outputs_) = [[⟨0, 1⟩], [⟨0, 1⟩]] ∧
      ¬ st.UniqueProducers := by
  refine ⟨by decide, ?_⟩
  obtain ⟨st, hst⟩ := Option.isSome_iff_exists.1
    (show (BuildState.init.run Forked.calls).isSome = true from by decide)
  have hent : (BuildState.init.run Forked.calls).map
      (fun st => st.impl.renderPassEntries_.map fun e => e.renderPass_.outputs_) =
      some [[⟨0, 1⟩], [⟨0, 1⟩]] := by decide
  have hout : (BuildState.init.run Forked.calls).map (fun st => st.allOutputs) =
      some [⟨0, 1⟩, ⟨0, 1⟩] := by decide
  rw [hst, Option.map_some', Option.some.injEq] at hent hout
  refine ⟨st, hst, hent, ?_⟩
  intro h
  have h1 := h ⟨0, 1⟩ (by rw [hout]; decide) (by decide)
  rw [hout] at h1
  exact absurd h1 (by decide)

/-- C12, amended. For every sequence of fewer than 2^31 - 1 builder calls in which each usage
call is given a reference returned by an earlier call and no reference is given to more than one
write usage (`UseRTV`, or `UseDSV` without both read-only flags), every reference that occurs in
some pass's outputs occurs in the outputs of one pass only, and once. -/
theorem declared_outputs_unique_producer (cs : List BuilderCall)
    (hlen : cs.length < 2147483647) (hthr : BuildState.init.threaded cs = true)
    (hlin : (writeArgs cs).Nodup) :
    ∃ st, BuildState.init.run cs = some st ∧ st.UniqueProducers ∧ st.allOutputs.Nodup := by
  obtain ⟨st, hrun, _, hout⟩ := run_inv cs BuildState.init 0 init_Inv (by omega) hthr
  have h0 : BuildState.init.allOutputs = [] := by
    simp [BuildState.init, BuildState.allOutputs, RenderGraph.new]
  rw [h0, List.nil_append] at hout
  have hnd : st.allOutputs.Nodup := by
    rw [hout]; exact hlin.map next_injective
  exact ⟨st, hrun, fun x hx _ => List.count_eq_one_of_mem hnd hx, hnd⟩

/-- Witness for the amended C12 on the three-pass scenario. -/
theorem declared_outputs_unique_producer_witness :
    ∃ st, BuildState.init.run Scenario.calls = some st ∧ st.UniqueProducers ∧
      st.allOutputs.Nodup :=
  declared_outputs_unique_producer Scenario.calls (by decide) (by decide) (by decide)

/-- Counterexample to C13: a pass writes texture T as render target and then reads the reference
`(0, 1)` this write returned; its input `(0, 1)` is not of version 0 and no pass is registered
before it. -/
theorem self_read_input_not_from_earlier_pass :
    BuildState.init.threaded SelfRead.calls = true ∧
    ∃ st, BuildState.init.run SelfRead.calls = some st ∧
      st.impl.renderPassEntries_ =
        [{ idx_ := 0, name_ := "P",
           renderPass_ := { inputs_ := [⟨0, 0⟩, ⟨0, 1⟩], outputs_ := [⟨0, 1⟩] } }] ∧
      ¬ st.impl.InputsFromEarlierPasses := by
  refine ⟨by decide, ?_⟩
  obtain ⟨st, hst⟩ := Option.isSome_iff_exists.1
    (show (BuildState.init.run SelfRead.calls).isSome = true from by decide)
  have hent : (BuildState.init.run SelfRead.calls).map (fun st => st.impl.renderPassEntries_) =
      some [{ idx_ := 0, name_ := "P",
              renderPass_ := { inputs_ := [⟨0, 0⟩, ⟨0, 1⟩], outputs_ := [⟨0, 1⟩] } }] := by
    decide
  rw [hst, Option.map_some', Option.some.injEq] at hent
  refine ⟨st, hst, hent, ?_⟩
  intro h
  have h1 := h 0 _ (by rw [hent]; rfl) ⟨0, 1⟩ (by decide)
  rcases h1 with h1 | ⟨j, _, hj, _, _⟩
  · exact absurd h1 (by decide)
  · omega

/-- C13, amended. For every sequence of fewer than 2^31 - 1 builder calls in which each usage
call is given a reference returned by an earlier call, the registered passes carry their
position as index and every input reference of every registered pass either has version 0 or
equals an output of the same pass or of a pass registered earlier (smaller pass index). -/
theorem declared_inputs_from_same_or_earlier_pass (cs : List BuilderCall)
    (hlen : cs.length < 2147483647) (hthr : BuildState.init.threaded cs = true) :
    ∃ st, BuildState.init.run cs = some st ∧ st.impl.Declared ∧
      st.impl.InputsFromSameOrEarlierPasses := by
  obtain ⟨st, hrun, hinv, _⟩ := run_inv cs BuildState.init 0 init_Inv (by omega) hthr
  exact ⟨st, hrun, hinv.2.2.2.1, hinv.2.2.2.2.1⟩

/-- Witness for the amended C13 on the pass that reads its own output. -/
theorem declared_inputs_from_same_or_earlier_pass_witness :
    ∃ st, BuildState.init.run SelfRead.calls = some st ∧ st.impl.Declared ∧
      st.impl.InputsFromSameOrEarlierPasses :=
  declared_inputs_from_same_or_earlier_pass SelfRead.calls (by decide) (by decide)

/-! ## Claims on incompatible usages and bind flags -/

/-- Counterexample to C14: `UseRTV` and `UseDSV` on a Buffer and `UseSRV` on a resource of
`INVALID` kind reach `DBG_BREAK` and then complete the declaration: the input (and for the write
usages the output) is registered on the pass and the reference is returned, version-bumped for
the write usages. -/
theorem incompatible_usage_still_registers :
    RenderGraphBuilder.UseRTV Incompatible.graph {} ⟨0, 0⟩ =
      some { impl := Incompatible.graph,
             renderPass := { inputs_ := [⟨0, 0⟩], outputs_ := [⟨0, 1⟩] },
             res := ⟨0, 1⟩, dbgBreak := true } ∧
    RenderGraphBuilder.UseDSV Incompatible.graph {} ⟨0, 0⟩ 0 =
      some { impl := Incompatible.graph,
             renderPass := { inputs_ := [⟨0, 0⟩], outputs_ := [⟨0, 1⟩] },
             res := ⟨0, 1⟩, dbgBreak := true } ∧
    RenderGraphBuilder.UseSRV Incompatible.graph {} ⟨1, 0⟩ =
      some { impl := Incompatible.graph,
             renderPass := { inputs_ := [⟨1, 0⟩], outputs_ := [] },
             res := ⟨1, 0⟩, dbgBreak := true } ∧
    (Incompatible.graph.resourceDescs_.map fun rd => rd.resType_) =
      [ResourceType.BUFFER, ResourceType.INVALID] := by
  decide

theorem OrBindFlags_zero (impl : RenderGraphImpl) (i : Nat) :
    impl.OrBindFlags i 0 0 = impl := by
  unfold RenderGraphImpl.OrBindFlags
  cases h : impl.resourceDescs_[i]? with
  | none => rfl
  | some resource =>
    simp only [Nat.or_zero]
    have : impl.resourceDescs_.set i resource = impl.resourceDescs_ := by
      apply List.ext_getElem?
      intro k
      by_cases hk : i = k
      · subst hk
        rw [List.getElem?_set_self (by
          by_contra hge
          rw [List.getElem?_eq_none (by omega)] at h
          cases h), h]
      · rw [List.getElem?_set_ne hk]
    simp only [this]

/-- C15. `UseSRV`, `UseRTV` and `UseDSV` on a reference to a resource of a compatible kind OR
the `SHADER_RESOURCE`, `RENDER_TARGET` and `DEPTH_STENCIL` bit into the bind flags of the
referenced resource (of `bufferDesc_` for a Buffer under `UseSRV`, of `textureDesc_` for a
Texture or SwapChain) and change nothing else in the graph; ORing bits in keeps every bit that
was set and leaves the description of every other resource unchanged. -/
theorem usage_ors_bind_flag (impl : RenderGraphImpl) (p : RenderPassImpl) (i v : Int)
    (flags : Nat) (resource : ResourceDesc)
    (hi : 0 ≤ i) (hres : impl.resourceDescs_[i.toNat]? = some resource) :
    (resource.resType_ = ResourceType.BUFFER →
      ∃ r, RenderGraphBuilder.UseSRV impl p ⟨i, v⟩ = some r ∧
        r.impl = impl.OrBindFlags i.toNat BindFlags.SHADER_RESOURCE 0) ∧
    (resource.resType_ = ResourceType.TEXTURE ∨ resource.resType_ = ResourceType.SWAP_CHAIN →
      (∃ r, RenderGraphBuilder.UseSRV impl p ⟨i, v⟩ = some r ∧
        r.impl = impl.OrBindFlags i.toNat 0 BindFlags.SHADER_RESOURCE) ∧
      (∃ r, RenderGraphBuilder.UseRTV impl p ⟨i, v⟩ = some r ∧
        r.impl = impl.OrBindFlags i.toNat 0 BindFlags.RENDER_TARGET) ∧
      (∃ r, RenderGraphBuilder.UseDSV impl p ⟨i, v⟩ flags = some r ∧
        r.impl = impl.OrBindFlags i.toNat 0 BindFlags.DEPTH_STENCIL)) ∧
    (∀ buf tex : Nat,
      (impl.OrBindFlags i.toNat buf tex).resourceDescs_[i.toNat]? =
        some { resource with
               bufferDesc_ :=
                 { resource.bufferDesc_ with
                   bindFlags_ := resource.bufferDesc_.bindFlags_ ||| buf }
               textureDesc_ :=
                 { resource.textureDesc_ with
                   bindFlags_ := resource.textureDesc_.bindFlags_ ||| tex } } ∧
      (∀ j : Nat, resource.bufferDesc_.bindFlags_.testBit j = true →
        (resource.bufferDesc_.bindFlags_ ||| buf).testBit j = true) ∧
      (∀ j : Nat, resource.textureDesc_.bindFlags_.testBit j = true →
        (resource.textureDesc_.bindFlags_ ||| tex).testBit j = true) ∧
      (∀ k : Nat, k ≠ i.toNat →
        (impl.OrBindFlags i.toNat buf tex).resourceDescs_[k]? = impl.resourceDescs_[k]?) ∧
      (impl.OrBindFlags i.toNat buf tex).renderPassEntries_ = impl.renderPassEntries_) := by
  have hlt : i.toNat < impl.resourceDescs_.length := by
    by_contra hge
    rw [List.getElem?_eq_none (by omega)] at hres
    cases hres
  refine ⟨?_, ?_, ?_⟩
  · intro hty
    unfold RenderGraphBuilder.UseSRV RenderGraphImpl.OrBindFlags
    simp only [if_neg (not_lt.2 hi), hres, hty, Nat.or_zero]
    exact ⟨_, rfl, rfl⟩
  · intro hty
    refine ⟨?_, ?_, ?_⟩
    · unfold RenderGraphBuilder.UseSRV RenderGraphImpl.OrBindFlags
      simp only [if_neg (not_lt.2 hi), hres, Nat.or_zero]
      rcases hty with hty | hty <;> simp only [hty] <;> exact ⟨_, rfl, rfl⟩
    · unfold RenderGraphBuilder.UseRTV RenderGraphImpl.OrBindFlags
      simp only [if_neg (not_lt.2 hi), hres, Nat.or_zero]
      rcases hty with hty | hty <;> simp only [hty] <;> exact ⟨_, rfl, rfl⟩
    · unfold RenderGraphBuilder.UseDSV RenderGraphImpl.OrBindFlags
      simp only [if_neg (not_lt.2 hi), hres, Nat.or_zero]
      by_cases hro : ContainsAllFlags flags
          (DSVFlags.READ_ONLY_DEPTH ||| DSVFlags.READ_ONLY_STENCIL) = true
      · rcases hty with hty | hty <;> simp only [hty, hro, Bool.not_true, Bool.false_eq_true,
          if_false] <;> exact ⟨_, rfl, rfl⟩
      · simp only [Bool.not_eq_true] at hro
        rcases hty with hty | hty <;> simp only [hty, hro, Bool.not_false, if_true] <;>
          exact ⟨_, rfl, rfl⟩
  · intro buf tex
    unfold RenderGraphImpl.OrBindFlags
    rw [hres]
    refine ⟨List.getElem?_set_self hlt, ?_, ?_, ?_, rfl⟩
    · intro j hj
      rw [Nat.testBit_or, hj, Bool.true_or]
    · intro j hj
      rw [Nat.testBit_or, hj, Bool.true_or]
    · intro k hk
      exact List.getElem?_set_ne (Ne.symm hk)

/-- Witness for C15 on texture T of the three-pass graph. -/
theorem usage_ors_bind_flag_witness :
    (∃ r, RenderGraphBuilder.UseRTV Scenario.graph {} ⟨0, 0⟩ = some r ∧
      r.impl = Scenario.graph.OrBindFlags 0 0 BindFlags.RENDER_TARGET) ∧
    (∃ r, RenderGraphBuilder.UseDSV Scenario.graph {} ⟨0, 0⟩ 0 = some r ∧
      r.impl = Scenario.graph.OrBindFlags 0 0 BindFlags.DEPTH_STENCIL) ∧
    ((Scenario.graph.OrBindFlags 0 0 BindFlags.DEPTH_STENCIL).resourceDescs_.map
      fun rd => rd.textureDesc_.bindFlags_) = [0xD0, 0x50] := by
  obtain ⟨_, htex, _⟩ := usage_ors_bind_flag Scenario.graph {} 0 0 0
    { id_ := 0, name_ := "T", resType_ := ResourceType.TEXTURE,
      textureDesc_ := { bindFlags_ := 0x50 } } (by decide) (by rfl)
  obtain ⟨_, hrtv, hdsv⟩ := htex (Or.inl rfl)
  exact ⟨hrtv, hdsv, by decide⟩

/-! ## Frame allocator: one call -/

theorem wrapI32_of_range (x : Int) (h1 : -2147483648 ≤ x) (h2 : x ≤ 2147483647) :
    wrapI32 x = x := by
  unfold wrapI32
  omega

theorem wrapI32_range (x : Int) : -2147483648 ≤ wrapI32 x ∧ wrapI32 x ≤ 2147483647 := by
  unfold wrapI32
  omega

theorem wrapI32_eq_sub (x : Int) : ∃ k : Int, wrapI32 x = x - 4294967296 * k :=
  ⟨(x + 2147483648) / 4294967296, by unfold wrapI32; omega⟩

/-- The rounded size is the least multiple of the alignment that is at least the size. -/
theorem PotRoundUp_spec (size A : Int) (hA : 0 < A) :
    size ≤ PotRoundUp size A ∧ PotRoundUp size A - size < A ∧ A ∣ PotRoundUp size A := by
  unfold PotRoundUp
  have h1 := Int.emod_add_ediv (size + (A - 1)) A
  have h2 := Int.emod_nonneg (size + (A - 1)) (ne_of_gt hA)
  have h3 := Int.emod_lt_of_pos (size + (A - 1)) hA
  have h4 : (size + (A - 1)) / A * A = A * ((size + (A - 1)) / A) := mul_comm _ _
  refine ⟨by rw [h4]; linarith, by rw [h4]; linarith, Dvd.intro_left _ rfl⟩

theorem Alloc_frameData (A : Int) (impl : RenderGraphImpl) (size : Int) :
    (impl.Alloc A size).impl.frameData_ = impl.frameData_ ∧
    (impl.Alloc A size).impl.frameDataOffset_ =
      wrapI32 (impl.frameDataOffset_ + wrapI32 (PotRoundUp size A)) := by
  unfold RenderGraphImpl.Alloc AtomicAddAcq
  simp only
  split <;> exact ⟨rfl, rfl⟩

/-- C16. For every size >= 0 (the rounded size and the advanced cursor being representable as
`i32`), `Alloc` advances the cursor by exactly `r`, the size rounded up to the next multiple of
the alignment (`r >= size`, `r - size` below the alignment, `r` divisible by it), and a
successful call returns the arena offset that the cursor held before the call. -/
theorem Alloc_advances_cursor_by_rounded_size (A : Int) (impl : RenderGraphImpl) (size : Int)
    (hA : 0 < A) (hsize : 0 ≤ size)
    (hcur : -2147483648 ≤ impl.frameDataOffset_)
    (hr : PotRoundUp size A ≤ 2147483647)
    (hno : impl.frameDataOffset_ + PotRoundUp size A ≤ 2147483647) :
    size ≤ PotRoundUp size A ∧ PotRoundUp size A - size < A ∧ A ∣ PotRoundUp size A ∧
    (impl.Alloc A size).impl.frameDataOffset_ = impl.frameDataOffset_ + PotRoundUp size A ∧
    ∀ p, (impl.Alloc A size).ptr = some p → p = impl.frameDataOffset_ := by
  obtain ⟨h1, h2, h3⟩ := PotRoundUp_spec size A hA
  have hw1 : wrapI32 (PotRoundUp size A) = PotRoundUp size A :=
    wrapI32_of_range _ (by omega) hr
  have hw2 : wrapI32 (impl.frameDataOffset_ + PotRoundUp size A) =
      impl.frameDataOffset_ + PotRoundUp size A := wrapI32_of_range _ (by omega) hno
  refine ⟨h1, h2, h3, by rw [(Alloc_frameData A impl size).2, hw1, hw2], ?_⟩
  intro p hp
  unfold RenderGraphImpl.Alloc AtomicAddAcq at hp
  simp only [hw1, hw2] at hp
  split at hp
  · cases hp
  · simp only [Option.some.injEq] at hp
    rw [← hp]
    have : impl.frameDataOffset_ + PotRoundUp size A - PotRoundUp size A =
        impl.frameDataOffset_ := by omega
    rw [this]
    exact wrapI32_of_range _ hcur (by omega)

/-- Witness for C16: a request of 5 bytes on a fresh graph with alignment 16. -/
theorem Alloc_advances_cursor_by_rounded_size_witness :
    (5 : Int) ≤ PotRoundUp 5 16 ∧ PotRoundUp 5 16 - 5 < 16 ∧ (16 : Int) ∣ PotRoundUp 5 16 ∧
    (RenderGraph.new.Alloc 16 5).impl.frameDataOffset_ =
      RenderGraph.new.frameDataOffset_ + PotRoundUp 5 16 ∧
    ∀ p, (RenderGraph.new.Alloc 16 5).ptr = some p → p = RenderGraph.new.frameDataOffset_ :=
  Alloc_advances_cursor_by_rounded_size 16 RenderGraph.new 5 (by decide) (by decide)
    (by decide) (by decide) (by decide)

theorem new_frameData_length :
    (RenderGraph.new.frameData_.length : Int) = MAX_FRAME_DATA := by
  unfold RenderGraph.new
  rw [List.length_replicate]
  decide

theorem sumInts_take_succ (rs : List Int) :
    ∀ i, i < rs.length → sumInts (rs.take (i + 1)) = sumInts (rs.take i) + rs.getD i 0 := by
  induction rs with
  | nil => intro i hi; simp at hi
  | cons r rs ih =>
    intro i hi
    cases i with
    | zero => simp [sumInts]
    | succ i =>
      have := ih i (by simpa using hi)
      simp only [List.take_succ_cons, sumInts, List.getD_cons_succ] at this ⊢
      omega

theorem sumInts_take_nonneg_step (rs : List Int) (hpos : ∀ r ∈ rs, 0 ≤ r) (i : Nat) :
    sumInts (rs.take i) ≤ sumInts (rs.take (i + 1)) := by
  rcases Nat.lt_or_ge i rs.length with hlt | hge
  · rw [sumInts_take_succ rs i hlt]
    have : 0 ≤ rs.getD i 0 := by
      rw [List.getD_eq_getElem _ _ hlt]
      exact hpos _ (List.getElem_mem _)
    omega
  · rw [List.take_of_length_le hge, List.take_of_length_le (by omega)]

theorem sumInts_take_mono (rs : List Int) (hpos : ∀ r ∈ rs, 0 ≤ r) (i j : Nat) (hij : i ≤ j) :
    sumInts (rs.take i) ≤ sumInts (rs.take j) := by
  induction j with
  | zero =>
    have : i = 0 := by omega
    subst this; exact le_refl _
  | succ j ih =>
    rcases Nat.lt_or_ge i (j + 1) with hlt | hge
    · exact le_trans (ih (by omega)) (sumInts_take_nonneg_step rs hpos j)
    · have : i = j + 1 := by omega
      subst this; exact le_refl _

theorem sumInts_nonneg (rs : List Int) (hpos : ∀ r ∈ rs, 0 ≤ r) : 0 ≤ sumInts rs := by
  induction rs with
  | nil => simp [sumInts]
  | cons r rs ih =>
    have h1 := hpos r (List.mem_cons_self _ _)
    have h2 := ih (fun y hy => hpos y (List.mem_cons_of_mem _ hy))
    simp only [sumInts]
    omega

theorem sumInts_cover (rs : List Int) (hpos : ∀ r ∈ rs, 0 ≤ r) :
    ∀ x : Int, 0 ≤ x → x < sumInts rs →
      ∃ i, i < rs.length ∧ sumInts (rs.take i) ≤ x ∧ x < sumInts (rs.take i) + rs.getD i 0 := by
  induction rs with
  | nil => intro x h0 h1; simp [sumInts] at h1; omega
  | cons r rs ih =>
    intro x h0 h1
    by_cases hx : x < r
    · exact ⟨0, by simp, by simpa [sumInts] using h0, by simpa [sumInts] using hx⟩
    · simp only [sumInts] at h1
      obtain ⟨i, hi, h2, h3⟩ := ih (fun y hy => hpos y (List.mem_cons_of_mem _ hy)) (x - r)
        (by omega) (by omega)
      refine ⟨i + 1, by simpa using hi, ?_, ?_⟩
      · simp only [List.take_succ_cons, sumInts]; omega
      · simp only [List.take_succ_cons, sumInts, List.getD_cons_succ]; omega

/-- A sequence of `Alloc` calls that fits into the arena, started at a non-negative cursor:
the call at position `i` returns the start cursor plus the sum of the earlier rounded sizes, no
assertion is violated, and the final cursor is the start cursor plus the sum of all rounded
sizes. -/
theorem AllocAll_within_capacity (A : Int) (hA : 0 < A) (sizes : List Int) :
    ∀ (impl : RenderGraphImpl),
      (impl.frameData_.length : Int) ≤ 2147483647 →
      0 ≤ impl.frameDataOffset_ → (∀ s ∈ sizes, 0 ≤ s) →
      impl.frameDataOffset_ + sumInts (sizes.map fun s => PotRoundUp s A) ≤
        (impl.frameData_.length : Int) →
      (impl.AllocAll A sizes).1.frameDataOffset_ =
        impl.frameDataOffset_ + sumInts (sizes.map fun s => PotRoundUp s A) ∧
      ∀ i, i < sizes.length → ∃ res, (impl.AllocAll A sizes).2[i]? = some res ∧
        res.ptr = some (impl.frameDataOffset_ +
          sumInts ((sizes.map fun s => PotRoundUp s A).take i)) ∧
        res.assertFailed = false := by
  induction sizes with
  | nil =>
    intro impl _ _ _ _
    exact ⟨by simp [RenderGraphImpl.AllocAll, sumInts], fun i hi => by simp at hi⟩
  | cons size sizes ih =>
    intro impl hcap hcur hsizes hsum
    simp only [List.map_cons, sumInts] at hsum
    have hsize : 0 ≤ size := hsizes size (List.mem_cons_self _ _)
    have hrest : ∀ s ∈ sizes, 0 ≤ s := fun s hs => hsizes s (List.mem_cons_of_mem _ hs)
    obtain ⟨h1, _, _⟩ := PotRoundUp_spec size A hA
    have hsumpos : 0 ≤ sumInts (sizes.map fun s => PotRoundUp s A) := by
      apply sumInts_nonneg
      intro r hr
      obtain ⟨s, hs, rfl⟩ := List.mem_map.1 hr
      have := (PotRoundUp_spec s A hA).1
      have := hrest s hs
      omega
    have hw1 : wrapI32 (PotRoundUp size A) = PotRoundUp size A :=
      wrapI32_of_range _ (by omega) (by omega)
    have hw2 : wrapI32 (impl.frameDataOffset_ + PotRoundUp size A) =
        impl.frameDataOffset_ + PotRoundUp size A := wrapI32_of_range _ (by omega) (by omega)
    have hw3 : wrapI32 (impl.frameDataOffset_ + PotRoundUp size A - PotRoundUp size A) =
        impl.frameDataOffset_ := by
      have : impl.frameDataOffset_ + PotRoundUp size A - PotRoundUp size A =
          impl.frameDataOffset_ := by omega
      rw [this]
      exact wrapI32_of_range _ (by omega) (by omega)
    have hfit : impl.frameDataOffset_ + PotRoundUp size A ≤ (impl.frameData_.length : Int) := by
      omega
    have hng : ¬ impl.frameDataOffset_ + PotRoundUp size A > (impl.frameData_.length : Int) := by
      omega
    have hres : impl.Alloc A size =
        { impl := { impl with frameDataOffset_ := impl.frameDataOffset_ + PotRoundUp size A },
          ptr := some impl.frameDataOffset_, assertFailed := false } := by
      unfold RenderGraphImpl.Alloc AtomicAddAcq
      simp only [hw1, hw2, hw3, hng, if_false, hfit, decide_True, Bool.not_true]
    obtain ⟨g1, g2⟩ := ih
      { impl with frameDataOffset_ := impl.frameDataOffset_ + PotRoundUp size A }
      hcap (by simp only; omega) hrest (by simp only; omega)
    simp only at g1 g2
    unfold RenderGraphImpl.AllocAll
    simp only [hres, List.map_cons, sumInts]
    refine ⟨by rw [g1]; omega, ?_⟩
    intro i hi
    cases i with
    | zero =>
      refine ⟨{ impl := { impl with
                          frameDataOffset_ := impl.frameDataOffset_ + PotRoundUp size A },
                ptr := some impl.frameDataOffset_, assertFailed := false },
              List.getElem?_cons_zero, ?_, rfl⟩
      simp [sumInts]
    | succ i =>
      obtain ⟨res, hget, hptr, hass⟩ := g2 i (by simpa using hi)
      refine ⟨res, by simpa using hget, ?_, hass⟩
      rw [hptr]
      simp only [List.take_succ_cons, sumInts]
      congr 1
      omega

/-- C18. For every sequence of `Alloc` calls with non-negative sizes, issued on an arena of
65536 bytes with the cursor at 0 (as after construction or `Clear`), whose rounded sizes sum to
at most 65536: every call succeeds, call `i` returns the sum of the earlier rounded sizes, the
returned ranges are pairwise disjoint, they cover `[0, cursor)` without gap, and the final
cursor is the sum of the rounded sizes. -/
theorem AllocAll_ranges_tile_the_arena (A : Int) (impl : RenderGraphImpl) (sizes : List Int)
    (hA : 0 < A) (hcap : (impl.frameData_.length : Int) = MAX_FRAME_DATA)
    (hcur : impl.frameDataOffset_ = 0) (hsizes : ∀ s ∈ sizes, 0 ≤ s)
    (hsum : sumInts (sizes.map fun s => PotRoundUp s A) ≤ 65536) :
    (∀ i, i < sizes.length → ∃ res, (impl.AllocAll A sizes).2[i]? = some res ∧
      res.ptr = some (sumInts ((sizes.map fun s => PotRoundUp s A).take i)) ∧
      res.assertFailed = false) ∧
    (∀ i j, i < j → j < sizes.length →
      sumInts ((sizes.map fun s => PotRoundUp s A).take i) +
          (sizes.map fun s => PotRoundUp s A).getD i 0 ≤
        sumInts ((sizes.map fun s => PotRoundUp s A).take j)) ∧
    (∀ x : Int, 0 ≤ x → x < (impl.AllocAll A sizes).1.frameDataOffset_ →
      ∃ i, i < sizes.length ∧ sumInts ((sizes.map fun s => PotRoundUp s A).take i) ≤ x ∧
        x < sumInts ((sizes.map fun s => PotRoundUp s A).take i) +
          (sizes.map fun s => PotRoundUp s A).getD i 0) ∧
    (impl.AllocAll A sizes).1.frameDataOffset_ =
      sumInts (sizes.map fun s => PotRoundUp s A) := by
  have hM : MAX_FRAME_DATA = 65536 := by decide
  rw [hM] at hcap
  have hpos : ∀ r ∈ sizes.map (fun s => PotRoundUp s A), 0 ≤ r := by
    intro r hr
    obtain ⟨s, hs, rfl⟩ := List.mem_map.1 hr
    have := (PotRoundUp_spec s A hA).1
    have := hsizes s hs
    omega
  obtain ⟨g1, g2⟩ := AllocAll_within_capacity A hA sizes impl (by omega) (by omega) hsizes
    (by omega)
  rw [hcur, zero_add] at g1
  refine ⟨?_, ?_, ?_, g1⟩
  · intro i hi
    obtain ⟨res, h1, h2, h3⟩ := g2 i hi
    rw [hcur, zero_add] at h2
    exact ⟨res, h1, h2, h3⟩
  · intro i j hij hj
    have hi : i < (sizes.map fun s => PotRoundUp s A).length := by simp; omega
    rw [← sumInts_take_succ _ i hi]
    exact sumInts_take_mono _ hpos (i + 1) j (by omega)
  · intro x hx0 hx1
    rw [g1] at hx1
    obtain ⟨i, hi, h2, h3⟩ := sumInts_cover _ hpos x hx0 hx1
    exact ⟨i, by simpa using hi, h2, h3⟩

/-- Witness for C18: four requests on a fresh graph with alignment 16. -/
theorem AllocAll_ranges_tile_the_arena_witness :
    (∀ i, i < ([5, 17, 0, 64] : List Int).length →
      ∃ res, (RenderGraph.new.AllocAll 16 [5, 17, 0, 64]).2[i]? = some res ∧
        res.ptr = some (sumInts ((([5, 17, 0, 64] : List Int).map
          fun s => PotRoundUp s 16).take i)) ∧
        res.assertFailed = false) ∧
    (RenderGraph.new.AllocAll 16 [5, 17, 0, 64]).1.frameDataOffset_ =
      sumInts (([5, 17, 0, 64] : List Int).map fun s => PotRoundUp s 16) ∧
    sumInts (([5, 17, 0, 64] : List Int).map fun s => PotRoundUp s 16) = 112 := by
  have h := AllocAll_ranges_tile_the_arena 16 RenderGraph.new [5, 17, 0, 64] (by decide)
    new_frameData_length (by decide) (by decide) (by decide)
  exact ⟨h.1, h.2.2.2, by decide⟩

theorem dvd_wrapI32 (A x : Int) (hpow : A ∣ 4294967296) (h : A ∣ x) : A ∣ wrapI32 x := by
  obtain ⟨k, hk⟩ := wrapI32_eq_sub x
  rw [hk]
  exact Int.dvd_sub h (Dvd.dvd.mul_right hpow k)

theorem PotRoundUp_dvd (size A : Int) : A ∣ PotRoundUp size A :=
  Dvd.intro_left _ rfl

theorem Alloc_keeps_alignment (A : Int) (hpow : A ∣ 4294967296) (impl : RenderGraphImpl)
    (size : Int) (hcur : A ∣ impl.frameDataOffset_) :
    A ∣ (impl.Alloc A size).impl.frameDataOffset_ ∧
    ∀ p, (impl.Alloc A size).ptr = some p → A ∣ p := by
  have hr : A ∣ wrapI32 (PotRoundUp size A) := dvd_wrapI32 A _ hpow (PotRoundUp_dvd size A)
  have hnext : A ∣ wrapI32 (impl.frameDataOffset_ + wrapI32 (PotRoundUp size A)) :=
    dvd_wrapI32 A _ hpow (Int.dvd_add hcur hr)
  refine ⟨by rw [(Alloc_frameData A impl size).2]; exact hnext, ?_⟩
  intro p hp
  unfold RenderGraphImpl.Alloc AtomicAddAcq at hp
  simp only at hp
  split at hp
  · cases hp
  · simp only [Option.some.injEq] at hp
    rw [← hp]
    exact dvd_wrapI32 A _ hpow (Int.dvd_sub hnext hr)

theorem AllocAll_keeps_alignment (A : Int) (hpow : A ∣ 4294967296) (sizes : List Int) :
    ∀ impl : RenderGraphImpl, A ∣ impl.frameDataOffset_ →
      A ∣ (impl.AllocAll A sizes).1.frameDataOffset_ ∧
      ∀ r ∈ (impl.AllocAll A sizes).2,
        A ∣ r.impl.frameDataOffset_ ∧ ∀ p, r.ptr = some p → A ∣ p := by
  induction sizes with
  | nil => intro impl h; exact ⟨h, fun r hr => by simp [RenderGraphImpl.AllocAll] at hr⟩
  | cons size sizes ih =>
    intro impl h
    obtain ⟨h1, h2⟩ := Alloc_keeps_alignment A hpow impl size h
    obtain ⟨g1, g2⟩ := ih (impl.Alloc A size).impl h1
    unfold RenderGraphImpl.AllocAll
    refine ⟨g1, ?_⟩
    intro r hr
    rcases List.mem_cons.1 hr with rfl | hr
    · exact ⟨h1, h2⟩
    · exact g2 r hr

theorem AllocAll_frameData (A : Int) (sizes : List Int) :
    ∀ impl : RenderGraphImpl, (impl.AllocAll A sizes).1.frameData_ = impl.frameData_ := by
  induction sizes with
  | nil => intro impl; rfl
  | cons size sizes ih =>
    intro impl
    unfold RenderGraphImpl.AllocAll
    simp only
    rw [ih, (Alloc_frameData A impl size).1]

/-- C19. For every alignment that is a power of two (a divisor of 2^32) and every sequence of
`Alloc` calls since construction or the last `Clear`, the cursor is a multiple of the alignment
after every call, and so is the arena offset every successful call returns. -/
theorem AllocAll_cursor_and_offsets_aligned (A : Int) (hpow : A ∣ 4294967296)
    (start : RenderGraphImpl)
    (hstart : start = RenderGraph.new ∨
      ∃ (impl : RenderGraphImpl) (gpu : Manager), start = (Clear impl gpu).1)
    (sizes : List Int) :
    A ∣ (start.AllocAll A sizes).1.frameDataOffset_ ∧
    ∀ r ∈ (start.AllocAll A sizes).2,
      A ∣ r.impl.frameDataOffset_ ∧ ∀ p, r.ptr = some p → A ∣ p := by
  apply AllocAll_keeps_alignment A hpow sizes start
  rcases hstart with rfl | ⟨impl, gpu, rfl⟩
  · exact ⟨0, by simp [RenderGraph.new]⟩
  · exact ⟨0, by simp [Clear]⟩

/-- Witness for C19: requests on a fresh graph with alignment 16, one of them beyond the
capacity. -/
theorem AllocAll_cursor_and_offsets_aligned_witness :
    (16 : Int) ∣ (RenderGraph.new.AllocAll 16 [5, 70000, 3]).1.frameDataOffset_ ∧
    ∀ r ∈ (RenderGraph.new.AllocAll 16 [5, 70000, 3]).2,
      (16 : Int) ∣ r.impl.frameDataOffset_ ∧ ∀ p, r.ptr = some p → (16 : Int) ∣ p :=
  AllocAll_cursor_and_offsets_aligned 16 (by decide) RenderGraph.new (Or.inl rfl)
    [5, 70000, 3]

/-- C20. After `Clear`, whatever was allocated before, the cursor is 0 and the arena keeps its
size and holds only zero bytes; for a graph that was constructed and then used for `Alloc`
calls these are 65536 zero bytes; and the next successful `Alloc` returns arena offset 0. -/
theorem Clear_resets_cursor_and_zeroes_arena (impl : RenderGraphImpl) (gpu : Manager) :
    (Clear impl gpu).1.frameDataOffset_ = 0 ∧
    (Clear impl gpu).1.frameData_.length = impl.frameData_.length ∧
    (∀ b ∈ (Clear impl gpu).1.frameData_, b = 0) ∧
    (∀ (A : Int) (sizes : List Int) (g : Manager),
      (Clear (RenderGraph.new.AllocAll A sizes).1 g).1.frameData_ = List.replicate 65536 0) ∧
    (∀ (A size p : Int), ((Clear impl gpu).1.Alloc A size).ptr = some p → p = 0) := by
  refine ⟨rfl, by simp [Clear], ?_, ?_, ?_⟩
  · intro b hb
    simp only [Clear] at hb
    exact (List.mem_replicate.1 hb).2
  · intro A sizes g
    simp only [Clear, AllocAll_frameData]
    unfold RenderGraph.new
    rw [List.length_replicate]
    rfl
  · intro A size p hp
    unfold RenderGraphImpl.Alloc AtomicAddAcq at hp
    simp only [Clear, zero_add] at hp
    obtain ⟨h1, h2⟩ := wrapI32_range (PotRoundUp size A)
    rw [wrapI32_of_range _ h1 h2, sub_self] at hp
    split at hp
    · cases hp
    · simp only [Option.some.injEq] at hp
      rw [← hp]
      decide

/-- Witness for C20: a graph whose cursor stands at 48 and whose arena holds non-zero bytes. -/
theorem Clear_resets_cursor_and_zeroes_arena_witness :
    (Clear { frameData_ := [7, 0, 9, 1], frameDataOffset_ := 48 } Scenario.gpu).1.frameDataOffset_
      = 0 ∧
    (Clear { frameData_ := [7, 0, 9, 1], frameDataOffset_ := 48 } Scenario.gpu).1.frameData_
      = [0, 0, 0, 0] ∧
    (∀ (A size p : Int),
      ((Clear { frameData_ := [7, 0, 9, 1], frameDataOffset_ := 48 } Scenario.gpu).1.Alloc
        A size).ptr = some p → p = 0) := by
  have h := Clear_resets_cursor_and_zeroes_arena
    { frameData_ := [7, 0, 9, 1], frameDataOffset_ := 48 } Scenario.gpu
  exact ⟨h.1, by decide, h.2.2.2.2⟩

theorem set_getElem?_same (l : List ResourceDesc) (i : Nat) (x : ResourceDesc)
    (h : l[i]? = some x) : l.set i x = l := by
  apply List.ext_getElem?
  intro k
  by_cases hk : i = k
  · subst hk
    rw [List.getElem?_set_self (by
      by_contra hge
      rw [List.getElem?_eq_none (by omega)] at h
      cases h), h]
  · rw [List.getElem?_set_ne hk]

theorem UseSRV_incompatible (impl : RenderGraphImpl) (p : RenderPassImpl)
    (res : RenderGraphResource) (resource : ResourceDesc) (hi : 0 ≤ res.idx_)
    (hres : impl.resourceDescs_[res.idx_.toNat]? = some resource)
    (h1 : resource.resType_ ≠ ResourceType.BUFFER)
    (h2 : resource.resType_ ≠ ResourceType.TEXTURE)
    (h3 : resource.resType_ ≠ ResourceType.SWAP_CHAIN) :
    ∃ r, RenderGraphBuilder.UseSRV impl p res = some r ∧ r.dbgBreak = true ∧ r.impl = impl := by
  unfold RenderGraphBuilder.UseSRV
  simp only [if_neg (not_lt.2 hi), hres]
  cases hk : resource.resType_ <;> simp_all [set_getElem?_same _ _ _ hres]

theorem UseRTV_incompatible (impl : RenderGraphImpl) (p : RenderPassImpl)
    (res : RenderGraphResource) (resource : ResourceDesc) (hi : 0 ≤ res.idx_)
    (hres : impl.resourceDescs_[res.idx_.toNat]? = some resource)
    (h2 : resource.resType_ ≠ ResourceType.TEXTURE)
    (h3 : resource.resType_ ≠ ResourceType.SWAP_CHAIN) :
    ∃ r, RenderGraphBuilder.UseRTV impl p res = some r ∧ r.dbgBreak = true ∧ r.impl = impl := by
  unfold RenderGraphBuilder.UseRTV
  simp only [if_neg (not_lt.2 hi), hres]
  cases hk : resource.resType_ <;> simp_all [set_getElem?_same _ _ _ hres]

theorem UseDSV_incompatible (impl : RenderGraphImpl) (p : RenderPassImpl)
    (res : RenderGraphResource) (flags : Nat) (resource : ResourceDesc) (hi : 0 ≤ res.idx_)
    (hres : impl.resourceDescs_[res.idx_.toNat]? = some resource)
    (h2 : resource.resType_ ≠ ResourceType.TEXTURE)
    (h3 : resource.resType_ ≠ ResourceType.SWAP_CHAIN) :
    ∃ r, RenderGraphBuilder.UseDSV impl p res flags = some r ∧ r.dbgBreak = true ∧
      r.impl = impl := by
  unfold RenderGraphBuilder.UseDSV
  simp only [if_neg (not_lt.2 hi), hres]
  by_cases hro : ContainsAllFlags flags
      (DSVFlags.READ_ONLY_DEPTH ||| DSVFlags.READ_ONLY_STENCIL) = true
  · cases hk : resource.resType_ <;> simp_all [set_getElem?_same _ _ _ hres]
  · cases hk : resource.resType_ <;> simp_all [set_getElem?_same _ _ _ hres]

/-- C14, amended. Declaring a usage that is incompatible with the kind of the resource (`UseSRV`
on a kind other than Buffer, Texture and SwapChain; `UseRTV` or `UseDSV` on a kind other than
Texture and SwapChain, in particular on a Buffer) reaches `DBG_BREAK` and leaves the graph,
bind flags included, unchanged; the declaration is not abandoned: the input is registered on the
pass, and `UseRTV` and `UseDSV` without both read-only flags register the output of the next
version and return it (the version being an `i32` below the largest one). -/
theorem incompatible_usage_breaks_then_registers (impl : RenderGraphImpl)
    (p : RenderPassImpl) (i v : Int) (flags : Nat) (resource : ResourceDesc)
    (hi : 0 ≤ i) (hres : impl.resourceDescs_[i.toNat]? = some resource)
    (hlo : -2147483648 ≤ v) (hhi : v < 2147483647)
    (h2 : resource.resType_ ≠ ResourceType.TEXTURE)
    (h3 : resource.resType_ ≠ ResourceType.SWAP_CHAIN) :
    (resource.resType_ ≠ ResourceType.BUFFER →
      ∃ r, RenderGraphBuilder.UseSRV impl p ⟨i, v⟩ = some r ∧ r.dbgBreak = true ∧
        r.impl = impl ∧
        r.renderPass = { inputs_ := p.inputs_ ++ [⟨i, v⟩], outputs_ := p.outputs_ } ∧
        r.res = ⟨i, v⟩) ∧
    (∃ r, RenderGraphBuilder.UseRTV impl p ⟨i, v⟩ = some r ∧ r.dbgBreak = true ∧
      r.impl = impl ∧
      r.renderPass = { inputs_ := p.inputs_ ++ [⟨i, v⟩], outputs_ := p.outputs_ ++ [⟨i, v + 1⟩] } ∧
      r.res = ⟨i, v + 1⟩) ∧
    (∃ r, RenderGraphBuilder.UseDSV impl p ⟨i, v⟩ flags = some r ∧ r.dbgBreak = true ∧
      r.impl = impl ∧
      r.renderPass =
        { inputs_ := p.inputs_ ++ [⟨i, v⟩],
          outputs_ := p.outputs_ ++
            (if ContainsAllFlags flags (DSVFlags.READ_ONLY_DEPTH ||| DSVFlags.READ_ONLY_STENCIL)
             then [] else [⟨i, v + 1⟩]) } ∧
      r.res =
        (if ContainsAllFlags flags (DSVFlags.READ_ONLY_DEPTH ||| DSVFlags.READ_ONLY_STENCIL)
         then ⟨i, v⟩ else ⟨i, v + 1⟩)) := by
  have hlt : i.toNat < impl.resourceDescs_.length := by
    by_contra hge
    rw [List.getElem?_eq_none (by omega)] at hres
    cases hres
  have hv : impl.ValidId (⟨i, v⟩ : RenderGraphResource).idx_ := ⟨hi, hlt⟩
  refine ⟨?_, ?_, ?_⟩
  · intro h1
    obtain ⟨r, hr, hb, himpl⟩ := UseSRV_incompatible impl p ⟨i, v⟩ resource hi hres h1 h2 h3
    obtain ⟨u, hu, _, _, hpass, hret⟩ := UseSRV_shape impl p ⟨i, v⟩ hv
    rw [hr, Option.some.injEq] at hu
    subst hu
    exact ⟨r, hr, hb, himpl, hpass, hret⟩
  · obtain ⟨r, hr, hb, himpl⟩ := UseRTV_incompatible impl p ⟨i, v⟩ resource hi hres h2 h3
    obtain ⟨u, hu, _, _, hpass, hret⟩ := UseRTV_shape impl p ⟨i, v⟩ hv hlo hhi
    rw [hr, Option.some.injEq] at hu
    subst hu
    exact ⟨r, hr, hb, himpl, hpass, hret⟩
  · obtain ⟨r, hr, hb, himpl⟩ :=
      UseDSV_incompatible impl p ⟨i, v⟩ flags resource hi hres h2 h3
    obtain ⟨u, hu, _, _, hpass, hret⟩ := UseDSV_shape impl p ⟨i, v⟩ flags hv hlo hhi
    rw [hr, Option.some.injEq] at hu
    subst hu
    refine ⟨r, hr, hb, himpl, hpass, ?_⟩
    rw [hret]
    split <;> rfl

/-- Witness for the amended C14 on the buffer of `Incompatible.graph`. -/
theorem incompatible_usage_breaks_then_registers_witness :
    ∃ r, RenderGraphBuilder.UseRTV Incompatible.graph {} ⟨0, 0⟩ = some r ∧ r.dbgBreak = true ∧
      r.impl = Incompatible.graph ∧
      r.renderPass = { inputs_ := [] ++ [⟨0, 0⟩], outputs_ := [] ++ [⟨0, 0 + 1⟩] } ∧
      r.res = ⟨0, 0 + 1⟩ :=
  (incompatible_usage_breaks_then_registers Incompatible.graph {} 0 0 0
    { id_ := 0, name_ := "B", resType_ := ResourceType.BUFFER }
    (by decide) (by rfl) (by decide) (by decide) (by decide) (by decide)).2.1

/-! ## The filter keeps first occurrences -/

theorem keepFirst_sublist (l : List RenderPassEntry) :
    ∀ (seen : CoreSet), (keepFirst seen l).Sublist l := by
  induction l with
  | nil => intro seen; exact List.Sublist.refl _
  | cons e rest ih =>
    intro seen
    unfold keepFirst
    by_cases h : e.idx_ ∈ seen
    · rw [if_pos h]; exact List.Sublist.cons _ (ih _)
    · rw [if_neg h]; exact List.Sublist.cons₂ _ (ih _)

theorem keepFirst_eq_filterMap (rest : List RenderPassEntry) :
    ∀ (pre : List RenderPassEntry) (seen : CoreSet),
      (∀ x, x ∈ seen ↔ ∃ q ∈ pre, q.idx_ = x) →
      keepFirst seen rest =
        (List.range' pre.length rest.length).filterMap fun i =>
          match (pre ++ rest)[i]? with
          | some e =>
            if ((pre ++ rest).take i).all (fun q => decide (q.idx_ ≠ e.idx_)) then some e
            else none
          | none => none := by
  induction rest with
  | nil => intro pre seen _; simp [keepFirst]
  | cons e rest ih =>
    intro pre seen hseen
    have hnext : ∀ x, x ∈ CoreSet.insert seen e.idx_ ↔ ∃ q ∈ pre ++ [e], q.idx_ = x := by
      intro x
      rw [CoreSet.mem_insert, hseen]
      constructor
      · rintro (⟨q, hq, rfl⟩ | rfl)
        · exact ⟨q, List.mem_append_left _ hq, rfl⟩
        · exact ⟨e, by simp, rfl⟩
      · rintro ⟨q, hq, rfl⟩
        rcases List.mem_append.1 hq with hq | hq
        · exact Or.inl ⟨q, hq, rfl⟩
        · right; rw [List.mem_singleton.1 hq]
    have ih2 := ih (pre ++ [e]) (CoreSet.insert seen e.idx_) hnext
    rw [List.append_assoc, List.singleton_append, List.length_append, List.length_singleton] at ih2
    have hget : (pre ++ e :: rest)[pre.length]? = some e := by
      rw [List.getElem?_append_right (le_refl _)]; simp
    have htake : (pre ++ e :: rest).take pre.length = pre := List.take_left _ _
    have hcond : (pre.all fun q => decide (q.idx_ ≠ e.idx_)) = true ↔ e.idx_ ∉ seen := by
      rw [List.all_eq_true, hseen]
      constructor
      · rintro h ⟨q, hq, hqe⟩
        exact (of_decide_eq_true (h q hq)) hqe
      · intro h q hq
        exact decide_eq_true (fun hqe => h ⟨q, hq, hqe⟩)
    rw [List.length_cons, List.range'_succ, List.filterMap_cons, hget]
    simp only [htake]
    unfold keepFirst
    by_cases hin : e.idx_ ∈ seen
    · rw [if_pos hin, if_neg (fun hc => (hcond.1 hc) hin)]
      exact ih2
    · rw [if_neg hin, if_pos (hcond.2 hin)]
      simp only
      rw [ih2]

/-- C27. For every list of pass entries, `FilterRenderPasses` returns the entries at the first
occurrence of their pass index, in the order of the list: the entry at position `i` is kept
exactly when no entry before it has the same index. The result is a subsequence of the list, no
pass index occurs twice in it, and every pass index of the list occurs in it. -/
theorem FilterRenderPasses_keeps_first_occurrences (l : List RenderPassEntry) :
    FilterRenderPasses l = firstOccurrences l ∧
    (FilterRenderPasses l).Sublist l ∧
    ((FilterRenderPasses l).map fun e => e.idx_).Nodup ∧
    ∀ e ∈ l, ∃ y ∈ FilterRenderPasses l, y.idx_ = e.idx_ := by
  rw [FilterRenderPasses_eq]
  refine ⟨?_, keepFirst_sublist l [], keepFirst_nodup l [], ?_⟩
  · have h := keepFirst_eq_filterMap l [] [] (by simp)
    rw [h]
    unfold firstOccurrences
    simp [List.range_eq_range']
  · intro e he
    exact keepFirst_idx_mem l [] e he (by simp)

/-! ## Termination of the backward walk -/

theorem concatTraces_some (g : RenderPassEntry → Option (List RenderPassEntry × List Int))
    (ms : List RenderPassEntry) (h : ∀ m ∈ ms, ∃ a, g m = some a) :
    ∃ t, concatTraces g ms = some t := by
  induction ms with
  | nil => exact ⟨_, rfl⟩
  | cons m ms ih =>
    obtain ⟨a, ha⟩ := h m (List.mem_cons_self _ _)
    obtain ⟨b, hb⟩ := ih (fun x hx => h x (List.mem_cons_of_mem _ hx))
    exact ⟨(a.1 ++ b.1, a.2 ++ b.2), by simp [concatTraces, ha, hb]⟩

theorem concatTraces_mem_ids (g : RenderPassEntry → Option (List RenderPassEntry × List Int))
    (ms : List RenderPassEntry) :
    ∀ (t : List RenderPassEntry × List Int), concatTraces g ms = some t →
      ∀ i ∈ t.2, ∃ m ∈ ms, ∃ a, g m = some a ∧ i ∈ a.2 := by
  induction ms with
  | nil =>
    intro t h i hi
    simp only [concatTraces, Option.some.injEq] at h
    subst h
    simp at hi
  | cons m ms ih =>
    intro t h i hi
    obtain ⟨a, b, ha, hb, rfl⟩ := concatTraces_cons g m ms t h
    rcases List.mem_append.1 hi with hi | hi
    · exact ⟨m, List.mem_cons_self _ _, a, ha, hi⟩
    · obtain ⟨m2, hm2, a2, ha2, hi2⟩ := ih b hb i hi
      exact ⟨m2, List.mem_cons_of_mem _ hm2, a2, ha2, hi2⟩

/-- The ids a walk inserts into the needed-resource set are the ids of the requested references
and of the inputs of the entries it pushes. -/
theorem walkTrace_ids (E : List RenderPassEntry) (fuel : Nat) :
    ∀ (rs : List RenderGraphResource) (t : List RenderPassEntry × List Int),
      walkTrace fuel E rs = some t →
      (∀ i ∈ t.2, (∃ r ∈ rs, r.idx_ = i) ∨
        ∃ x ∈ t.1, ∃ inp ∈ x.renderPass_.inputs_, inp.idx_ = i) ∧
      (∀ r ∈ rs, r.idx_ ∈ t.2) ∧
      (∀ x ∈ t.1, ∀ inp ∈ x.renderPass_.inputs_, inp.idx_ ∈ t.2) := by
  induction fuel with
  | zero => intro rs t h; simp [walkTrace] at h
  | succ fuel ih =>
    intro rs t h
    rw [walkTrace_succ] at h
    cases hd : concatTraces (fun m => walkTrace fuel E m.renderPass_.inputs_)
        (producersOf E rs) with
    | none => simp [hd] at h
    | some d =>
      simp only [hd, Option.some.injEq] at h
      subst h
      refine ⟨?_, ?_, ?_⟩
      · intro i hi
        rcases List.mem_append.1 hi with hi | hi
        · obtain ⟨r, hr, hri⟩ := List.mem_map.1 hi
          exact Or.inl ⟨r, hr, hri⟩
        · obtain ⟨m, hm, a, ha, hia⟩ := concatTraces_mem_ids _ _ d hd i hi
          obtain ⟨a2, ha2, hsub, _⟩ := concatTraces_sub _ _ d hd m hm
          have haa : a2 = a := by
            have : some a2 = some a := by rw [← ha2, ← ha]
            exact Option.some.inj this
          subst haa
          rcases (ih _ a2 ha).1 i hia with ⟨r, hr, hri⟩ | ⟨x, hx, inp, hinp, hri⟩
          · exact Or.inr ⟨m, List.mem_append_left _ hm, r, hr, hri⟩
          · exact Or.inr ⟨x, List.mem_append_right _ (hsub x hx), inp, hinp, hri⟩
      · intro r hr
        exact List.mem_append_left _ (List.mem_map.2 ⟨r, hr, rfl⟩)
      · intro x hx inp hinp
        rcases List.mem_append.1 hx with hx | hx
        · obtain ⟨a, ha, _, hsub2⟩ := concatTraces_sub _ _ d hd x hx
          exact List.mem_append_right _ (hsub2 _ ((ih _ a ha).2.1 inp hinp))
        · obtain ⟨m, hm, a, ha, hxa⟩ := concatTraces_mem _ _ d hd x hx
          obtain ⟨a2, ha2, _, hsub2⟩ := concatTraces_sub _ _ d hd m hm
          have haa : a2 = a := by
            have : some a2 = some a := by rw [← ha2, ← ha]
            exact Option.some.inj this
          subst haa
          exact List.mem_append_right _ (hsub2 _ ((ih _ a2 ha).2.2 x hxa inp hinp))

/-- When producers are declared earlier, the walk from the inputs of the entry at position `k`
needs a recursion depth of at most `k + 1`. -/
theorem walkTrace_of_declared_earlier (impl : RenderGraphImpl)
    (hearly : impl.ProducersDeclaredEarlier) :
    ∀ (k : Nat) (e : RenderPassEntry), impl.renderPassEntries_[k]? = some e →
      ∃ t, walkTrace (k + 1) impl.renderPassEntries_ e.renderPass_.inputs_ = some t := by
  intro k
  induction k using Nat.strong_induction_on with
  | _ k ih =>
    intro e he
    rw [walkTrace_succ]
    have hall : ∀ m ∈ producersOf impl.renderPassEntries_ e.renderPass_.inputs_,
        ∃ a, walkTrace k impl.renderPassEntries_ m.renderPass_.inputs_ = some a := by
      intro m hm
      obtain ⟨hmE, r, hr, hro⟩ := (mem_producersOf _ _ m).1 hm
      obtain ⟨j, hj⟩ := List.mem_iff_getElem?.1 hmE
      have hjk : j < k :=
        hearly (k, e) (List.mk_mem_enum_iff_getElem?.2 he) (j, m)
          (List.mk_mem_enum_iff_getElem?.2 hj) ⟨r, hr, hro⟩
      obtain ⟨a, ha⟩ := ih j hjk m hj
      refine ⟨a, ?_⟩
      have := walkTrace_mono impl.renderPassEntries_ (j + 1) (k - (j + 1)) _ a ha
      rwa [Nat.add_sub_cancel' hjk] at this
    obtain ⟨d, hd⟩ := concatTraces_some _ _ hall
    rw [hd]
    exact ⟨_, rfl⟩

theorem walkTrace_terminates (impl : RenderGraphImpl)
    (hearly : impl.ProducersDeclaredEarlier) (rs : List RenderGraphResource) :
    ∃ t, walkTrace (impl.renderPassEntries_.length + 1) impl.renderPassEntries_ rs = some t := by
  rw [walkTrace_succ]
  have hall : ∀ m ∈ producersOf impl.renderPassEntries_ rs,
      ∃ a, walkTrace impl.renderPassEntries_.length impl.renderPassEntries_
        m.renderPass_.inputs_ = some a := by
    intro m hm
    obtain ⟨hmE, _⟩ := (mem_producersOf _ _ m).1 hm
    obtain ⟨j, hj⟩ := List.mem_iff_getElem?.1 hmE
    have hjlen : j < impl.renderPassEntries_.length := by
      by_contra hge
      rw [List.getElem?_eq_none (by omega)] at hj
      cases hj
    obtain ⟨a, ha⟩ := walkTrace_of_declared_earlier impl hearly j m hj
    refine ⟨a, ?_⟩
    have := walkTrace_mono impl.renderPassEntries_ (j + 1)
      (impl.renderPassEntries_.length - (j + 1)) _ a ha
    rwa [Nat.add_sub_cancel' hjlen] at this
  obtain ⟨d, hd⟩ := concatTraces_some _ _ hall
  rw [hd]
  exact ⟨_, rfl⟩

/-- C25. In a graph in which every pass that produces an input of a pass is declared strictly
earlier than that pass, `AddDependencies` returns for every requested list of references with a
recursion depth of at most the number of declared passes plus one, and so does `Execute` when
the ids it meets index declared resources. -/
theorem AddDependencies_terminates_when_producers_earlier (impl : RenderGraphImpl)
    (hearly : impl.ProducersDeclaredEarlier) :
    (∀ (outRenderPasses : List RenderPassEntry) (resources : List RenderGraphResource),
      ∃ r, AddDependencies (impl.renderPassEntries_.length + 1) impl outRenderPasses resources
        = some r) ∧
    ∀ (gpu : Manager) (ref : RenderGraphResource),
      (∀ i ∈ impl.resourcesNeeded_, impl.ValidId i) →
      (∀ e ∈ impl.renderPassEntries_, ∀ x ∈ e.renderPass_.inputs_, impl.ValidId x.idx_) →
      impl.ValidId ref.idx_ →
      ∃ r, Execute (impl.renderPassEntries_.length + 1) impl gpu ref = some r := by
  constructor
  · intro out rs
    obtain ⟨t, ht⟩ := walkTrace_terminates impl hearly rs
    rw [AddDependencies_eq_walkTrace _ impl.renderPassEntries_ impl out rs rfl, ht]
    exact ⟨_, rfl⟩
  · intro gpu ref hneeded hinputs href
    obtain ⟨t, ht⟩ := walkTrace_terminates impl hearly
      [Execute.findNewest impl.renderPassEntries_ ref]
    obtain ⟨r, hr, _⟩ := Execute_of_walkTrace _ impl gpu ref t ht (by
      intro i hi
      rcases hi with hi | hi
      · exact hneeded i hi
      · rcases (walkTrace_ids _ _ _ t ht).1 i hi with ⟨r, hr, hri⟩ | ⟨x, hx, inp, hinp, hri⟩
        · rw [List.mem_singleton.1 hr] at hri
          rw [← hri, (findNewest_spec impl.renderPassEntries_ ref).1]
          exact href
        · rw [← hri]
          exact hinputs x (walkTrace_mem_entries _ _ _ t ht x hx) inp hinp)
    exact ⟨r, hr⟩

/-- Witness for C25: the three-pass graph, in which A is declared before B and B before C. -/
theorem AddDependencies_terminates_when_producers_earlier_witness :
    Scenario.graph.ProducersDeclaredEarlier ∧
    (∀ (outRenderPasses : List RenderPassEntry) (resources : List RenderGraphResource),
      ∃ r, AddDependencies (Scenario.graph.renderPassEntries_.length + 1) Scenario.graph
        outRenderPasses resources = some r) ∧
    ∀ (gpu : Manager) (ref : RenderGraphResource),
      (∀ i ∈ Scenario.graph.resourcesNeeded_, Scenario.graph.ValidId i) →
      (∀ e ∈ Scenario.graph.renderPassEntries_, ∀ x ∈ e.renderPass_.inputs_,
        Scenario.graph.ValidId x.idx_) →
      Scenario.graph.ValidId ref.idx_ →
      ∃ r, Execute (Scenario.graph.renderPassEntries_.length + 1) Scenario.graph gpu ref
        = some r :=
  ⟨by decide, AddDependencies_terminates_when_producers_earlier Scenario.graph (by decide)⟩

/-! ## The last executed pass -/

theorem keepFirst_append (X Y : List RenderPassEntry) :
    ∀ (seen : CoreSet), keepFirst seen (X ++ Y) =
      keepFirst seen X ++ keepFirst ((X.map fun e => e.idx_).foldl CoreSet.insert seen) Y := by
  induction X with
  | nil => intro seen; simp [keepFirst]
  | cons e X ih =>
    intro seen
    simp only [List.cons_append, keepFirst, List.map_cons, List.foldl_cons]
    by_cases h : e.idx_ ∈ seen
    · simp only [if_pos h]; exact ih _
    · simp only [if_neg h, List.cons_append]
      exact congrArg (fun l => e :: l) (ih _)

theorem walkTrace_succ_some (fuel : Nat) (E : List RenderPassEntry)
    (rs : List RenderGraphResource) (t : List RenderPassEntry × List Int)
    (h : walkTrace (fuel + 1) E rs = some t) :
    ∃ d, concatTraces (fun m => walkTrace fuel E m.renderPass_.inputs_) (producersOf E rs)
        = some d ∧
      t = (producersOf E rs ++ d.1, rs.map (fun res => res.idx_) ++ d.2) := by
  rw [walkTrace_succ] at h
  cases hd : concatTraces (fun m => walkTrace fuel E m.renderPass_.inputs_)
      (producersOf E rs) with
  | none => simp [hd] at h
  | some d =>
    simp only [hd, Option.some.injEq] at h
    exact ⟨d, rfl, h.symm⟩

/-- Among passes whose walks all return, one is reached by none of these walks. -/
theorem walkTrace_has_top (E : List RenderPassEntry) (fuel : Nat) :
    ∀ Ms : List RenderPassEntry, Ms ≠ [] → (∀ m ∈ Ms, m ∈ E) →
      (∀ m ∈ Ms, ∃ t, walkTrace fuel E m.renderPass_.inputs_ = some t) →
      ∃ m ∈ Ms, ∀ m2 ∈ Ms, ∀ t, walkTrace fuel E m2.renderPass_.inputs_ = some t → m ∉ t.1 := by
  induction fuel with
  | zero =>
    intro Ms hne _ hall
    obtain ⟨m, hm⟩ := List.exists_mem_of_ne_nil Ms hne
    obtain ⟨t, ht⟩ := hall m hm
    simp [walkTrace] at ht
  | succ f ih =>
    intro Ms hne hE hall
    by_contra hcon
    push_neg at hcon
    have hPs : ∀ m ∈ Ms, ∀ p ∈ producersOf E m.renderPass_.inputs_,
        ∃ a, walkTrace f E p.renderPass_.inputs_ = some a := by
      intro m hm p hp
      obtain ⟨t, ht⟩ := hall m hm
      obtain ⟨d, hd, _⟩ := walkTrace_succ_some f E _ t ht
      obtain ⟨a, ha, _⟩ := concatTraces_sub _ _ d hd p hp
      exact ⟨a, ha⟩
    have hne2 : (Ms.flatMap fun m => producersOf E m.renderPass_.inputs_) ≠ [] := by
      obtain ⟨m0, hm0⟩ := List.exists_mem_of_ne_nil Ms hne
      obtain ⟨m2, hm2, t, ht, hmem⟩ := hcon m0 hm0
      obtain ⟨d, hd, rfl⟩ := walkTrace_succ_some f E _ t ht
      intro hnil
      rcases List.mem_append.1 hmem with hmem | hmem
      · have : m0 ∈ Ms.flatMap fun m => producersOf E m.renderPass_.inputs_ :=
          List.mem_flatMap.2 ⟨m2, hm2, hmem⟩
        rw [hnil] at this
        cases this
      · obtain ⟨p, hp, _⟩ := concatTraces_mem _ _ d hd m0 hmem
        have : p ∈ Ms.flatMap fun m => producersOf E m.renderPass_.inputs_ :=
          List.mem_flatMap.2 ⟨m2, hm2, hp⟩
        rw [hnil] at this
        cases this
    obtain ⟨top, htop, hnot⟩ := ih (Ms.flatMap fun m => producersOf E m.renderPass_.inputs_) hne2
      (by
        intro p hp
        obtain ⟨m, _, hpm⟩ := List.mem_flatMap.1 hp
        exact ((mem_producersOf _ _ p).1 hpm).1)
      (by
        intro p hp
        obtain ⟨m, hm, hpm⟩ := List.mem_flatMap.1 hp
        exact hPs m hm p hpm)
    obtain ⟨m1, hm1, htop1⟩ := List.mem_flatMap.1 htop
    obtain ⟨htopE, r, hr, hro⟩ := (mem_producersOf _ _ top).1 htop1
    obtain ⟨m2, hm2, t, ht, hmem⟩ := hcon m1 hm1
    obtain ⟨d, hd, rfl⟩ := walkTrace_succ_some f E _ t ht
    rcases List.mem_append.1 hmem with hmem | hmem
    · obtain ⟨a, ha⟩ := hPs m2 hm2 m1 hmem
      exact hnot m1 (List.mem_flatMap.2 ⟨m2, hm2, hmem⟩) a ha
        (walkTrace_producers E f _ a ha top htopE ⟨r, hr, hro⟩)
    · obtain ⟨p, hp, a, ha, hma⟩ := concatTraces_mem _ _ d hd m1 hmem
      obtain ⟨A, B, hsplit⟩ := List.append_of_mem hma
      have := walkTrace_after E f _ a ha A B m1 hsplit top htopE ⟨r, hr, hro⟩
      exact hnot p (List.mem_flatMap.2 ⟨m2, hm2, hp⟩) a ha (by rw [hsplit]; simp [this])

/-- C29. In a declared graph, when the search resolves the final reference (its version is not
the unresolved value -1) and `Execute` returns, the error line is not logged, the list of
executed passes is non-empty, and its last element is a declared pass whose outputs contain the
resolved final reference. -/
theorem Execute_last_pass_produces_final_reference (fuel : Nat) (impl : RenderGraphImpl)
    (gpu : Manager) (ref : RenderGraphResource) (r : ExecuteResult) (hdecl : impl.Declared)
    (hres : (Execute.findNewest impl.renderPassEntries_ ref).version_ ≠ -1)
    (h : Execute fuel impl gpu ref = some r) :
    r.errorLogged = false ∧
    ∃ last, r.renderPassEntries.getLast? = some last ∧ last ∈ impl.renderPassEntries_ ∧
      r.finalRes ∈ last.renderPass_.outputs_ := by
  obtain ⟨t, hw, hfin, herr, hL, _⟩ := Execute_some fuel impl gpu ref r h
  refine ⟨by rw [herr]; exact decide_eq_false hres, ?_⟩
  obtain ⟨_, _, _, hor⟩ := findNewest_spec impl.renderPassEntries_ ref
  have hprod : ∃ e ∈ impl.renderPassEntries_,
      Execute.findNewest impl.renderPassEntries_ ref ∈ e.renderPass_.outputs_ := by
    rcases hor with hu | hp
    · exact absurd (by rw [hu]) hres
    · exact hp
  obtain ⟨e0, he0, he0o⟩ := hprod
  cases fuel with
  | zero => simp [walkTrace] at hw
  | succ f =>
    obtain ⟨d, hd, rfl⟩ := walkTrace_succ_some f _ _ t hw
    have hMmem : ∀ m ∈ producersOf impl.renderPassEntries_
        [Execute.findNewest impl.renderPassEntries_ ref],
        m ∈ impl.renderPassEntries_ ∧
          Execute.findNewest impl.renderPassEntries_ ref ∈ m.renderPass_.outputs_ := by
      intro m hm
      obtain ⟨hmE, x, hx, hxo⟩ := (mem_producersOf _ _ m).1 hm
      rw [List.mem_singleton.1 hx] at hxo
      exact ⟨hmE, hxo⟩
    have hne : producersOf impl.renderPassEntries_
        [Execute.findNewest impl.renderPassEntries_ ref] ≠ [] := by
      intro hnil
      have : e0 ∈ producersOf impl.renderPassEntries_
          [Execute.findNewest impl.renderPassEntries_ ref] :=
        (mem_producersOf _ _ e0).2 ⟨he0, _, List.mem_singleton_self _, he0o⟩
      rw [hnil] at this
      cases this
    obtain ⟨top, htop, hnot⟩ := walkTrace_has_top impl.renderPassEntries_ f _ hne
      (fun m hm => (hMmem m hm).1)
      (fun m hm => by
        obtain ⟨a, ha, _⟩ := concatTraces_sub _ _ d hd m hm
        exact ⟨a, ha⟩)
    have htopd : top ∉ d.1 := by
      intro hc
      obtain ⟨m, hm, a, ha, hma⟩ := concatTraces_mem _ _ d hd top hc
      exact hnot m hm a ha hma
    have hidx : top.idx_ ∉ (d.1.reverse.map fun e => e.idx_).foldl CoreSet.insert [] := by
      intro hc
      rcases (mem_foldl_insert _ _ _).1 hc with hc | hc
      · cases hc
      · obtain ⟨q, hq, hqi⟩ := List.mem_map.1 hc
        have hqd : q ∈ d.1 := List.mem_reverse.1 hq
        have hqE : q ∈ impl.renderPassEntries_ :=
          walkTrace_mem_entries _ _ _ _ hw q (List.mem_append_right _ hqd)
        have := Declared.idx_inj impl hdecl q top hqE (hMmem top htop).1 hqi
        rw [this] at hqd
        exact htopd hqd
    obtain ⟨y, hy, _⟩ := keepFirst_idx_mem _ _ top (List.mem_reverse.2 htop) hidx
    have hKne : keepFirst ((d.1.reverse.map fun e => e.idx_).foldl CoreSet.insert [])
        (producersOf impl.renderPassEntries_
          [Execute.findNewest impl.renderPassEntries_ ref]).reverse ≠ [] := by
      intro hnil
      rw [hnil] at hy
      cases hy
    refine ⟨List.getLast _ hKne, ?_, ?_⟩
    · rw [hL]
      simp only [List.reverse_append]
      rw [keepFirst_append, List.getLast?_append, List.getLast?_eq_getLast _ hKne]
      rfl
    · have hlast := List.getLast_mem hKne
      have hm := List.mem_reverse.1 (keepFirst_mem _ _ _ hlast).1
      rw [hfin]
      exact hMmem _ hm

/-- Witness for C29: both A and B produce the resolved reference `(0, 1)` and A is reached
again through B; the executed list is A, B and its last element B produces `(0, 1)`. -/
theorem Execute_last_pass_produces_final_reference_witness :
    Reached.graph.Declared ∧
    ∃ r, Execute 3 Reached.graph Scenario.gpu ⟨0, 0⟩ = some r ∧
      (r.renderPassEntries.map fun e => e.name_) = ["A", "B"] ∧
      r.errorLogged = false ∧
      ∃ last, r.renderPassEntries.getLast? = some last ∧
        last ∈ Reached.graph.renderPassEntries_ ∧ r.finalRes ∈ last.renderPass_.outputs_ := by
  refine ⟨by decide, ?_⟩
  obtain ⟨r, hr⟩ := Option.isSome_iff_exists.1
    (show (Execute 3 Reached.graph Scenario.gpu ⟨0, 0⟩).isSome = true from by rfl)
  refine ⟨r, hr, ?_,
    Execute_last_pass_produces_final_reference 3 Reached.graph Scenario.gpu ⟨0, 0⟩ r
      (by decide) (by decide) hr⟩
  obtain ⟨t, hw, _, _, hL, _⟩ := Execute_some 3 Reached.graph Scenario.gpu ⟨0, 0⟩ r hr
  have ht : walkTrace 3 Reached.graph.renderPassEntries_
      [Execute.findNewest Reached.graph.renderPassEntries_ ⟨0, 0⟩] = some t := hw
  have hdec : (walkTrace 3 Reached.graph.renderPassEntries_
      [Execute.findNewest Reached.graph.renderPassEntries_ ⟨0, 0⟩]).map
        (fun t => (keepFirst [] t.1.reverse).map fun e => e.name_) = some ["A", "B"] := by
    decide
  rw [ht] at hdec
  rw [hL]
  exact Option.some.inj hdec

/-! ## The creation loop, one resource at a time -/

/-- What one iteration of the creation loop does, by the state of the resource it visits. -/
theorem CreateResources_step_cases (st st2 : RenderGraphImpl × Manager) (idx : Int)
    (h : CreateResources.step st idx = some st2) :
    0 ≤ idx ∧ ∃ rd, st.1.resourceDescs_[idx.toNat]? = some rd ∧
      ((rd.handle_.isValid = true ∧ st2 = st) ∨
       (rd.handle_.isValid = false ∧
        (rd.resType_ = ResourceType.BUFFER ∨ rd.resType_ = ResourceType.TEXTURE) ∧
        ∃ c, (c = ManagerCall.CreateBuffer rd.bufferDesc_ rd.name_ (st.2.handles_ st.2.numCreated)
              ∨ c = ManagerCall.CreateTexture rd.textureDesc_ rd.name_
                (st.2.handles_ st.2.numCreated)) ∧
          st2 = ({ st.1 with
                   resourceDescs_ := st.1.resourceDescs_.set idx.toNat
                     { rd with handle_ := st.2.handles_ st.2.numCreated }
                   transientResources_ :=
                     st.1.transientResources_ ++ [st.2.handles_ st.2.numCreated] },
                 { st.2 with calls_ := st.2.calls_ ++ [c] })) ∨
       (rd.handle_.isValid = false ∧ rd.resType_ ≠ ResourceType.BUFFER ∧
        rd.resType_ ≠ ResourceType.TEXTURE ∧
        st2 = ({ st.1 with
                 resourceDescs_ := st.1.resourceDescs_.set idx.toNat rd
                 transientResources_ := st.1.transientResources_ ++ [rd.handle_] },
               st.2))) := by
  unfold CreateResources.step at h
  by_cases h0 : idx < 0
  · simp [h0] at h
  · rw [if_neg h0] at h
    refine ⟨by omega, ?_⟩
    cases hg : st.1.resourceDescs_[idx.toNat]? with
    | none => simp [hg] at h
    | some rd =>
      refine ⟨rd, rfl, ?_⟩
      simp only [hg] at h
      by_cases hh : rd.handle_.isValid = true
      · simp only [hh, Bool.not_true, Bool.false_eq_true, if_false, Option.some.injEq] at h
        exact Or.inl ⟨hh, h.symm⟩
      · have hf : rd.handle_.isValid = false := by simpa using hh
        simp only [hf, Bool.not_false, if_true, Option.some.injEq] at h
        right
        by_cases hb : rd.resType_ = ResourceType.BUFFER
        · left
          rw [if_pos hb] at h
          exact ⟨hf, Or.inl hb, _, Or.inl rfl, h.symm⟩
        · rw [if_neg hb] at h
          by_cases ht : rd.resType_ = ResourceType.TEXTURE
          · left
            rw [if_pos ht] at h
            exact ⟨hf, Or.inr ht, _, Or.inr rfl, h.symm⟩
          · right
            rw [if_neg ht] at h
            exact ⟨hf, hb, ht, h.symm⟩

theorem CreatedBetween.refl (st : RenderGraphImpl × Manager) : CreatedBetween st st :=
  ⟨rfl, rfl, fun _ rd h => ⟨rd.handle_, h, fun _ => rfl⟩, rfl, [], by simp, by simp⟩

theorem CreatedBetween.trans (a b c : RenderGraphImpl × Manager)
    (hab : CreatedBetween a b) (hbc : CreatedBetween b c) : CreatedBetween a c := by
  obtain ⟨h1, h2, h3, h4, add1, h5, h6⟩ := hab
  obtain ⟨g1, g2, g3, g4, add2, g5, g6⟩ := hbc
  refine ⟨by rw [g1, h1], by rw [g2, h2], ?_, by omega, add1 ++ add2,
    by rw [g5, h5, List.append_assoc], by rw [g6, h6, List.append_assoc]⟩
  intro k rd hk
  obtain ⟨h, hb, hv⟩ := h3 k rd hk
  obtain ⟨h', hc, hv'⟩ := g3 k _ hb
  refine ⟨h', hc, ?_⟩
  intro hval
  have e1 := hv hval
  rw [hv' (by rw [e1]; exact hval), e1]

theorem numCreated_append_create (gpu : Manager) (c : ManagerCall)
    (hc : (∃ d n h, c = ManagerCall.CreateBuffer d n h) ∨
      ∃ d n h, c = ManagerCall.CreateTexture d n h) :
    Manager.numCreated { gpu with calls_ := gpu.calls_ ++ [c] } = gpu.numCreated + 1 := by
  unfold Manager.numCreated
  rcases hc with ⟨d, n, h, rfl⟩ | ⟨d, n, h, rfl⟩ <;> simp [List.filter_append]

theorem CreateResources_step_between (st st2 : RenderGraphImpl × Manager) (idx : Int)
    (hvalid : ∀ n, (st.2.handles_ n).isValid = true)
    (h : CreateResources.step st idx = some st2) : CreatedBetween st st2 := by
  obtain ⟨h0, rd, hrd, hcase⟩ := CreateResources_step_cases st st2 idx h
  have hlt : idx.toNat < st.1.resourceDescs_.length := by
    by_contra hge
    rw [List.getElem?_eq_none (by omega)] at hrd
    cases hrd
  have hget : st.1.resourceDescs_[idx.toNat] = rd := by
    have := List.getElem?_eq_getElem hlt
    rw [hrd] at this
    exact (Option.some.inj this).symm
  rcases hcase with ⟨_, rfl⟩ | ⟨hinv, _, c, hc, rfl⟩ | ⟨hinv, _, _, rfl⟩
  · exact CreatedBetween.refl _
  · refine ⟨rfl, by simp, ?_, ?_, [st.2.handles_ st.2.numCreated], ?_, ?_⟩
    · intro k rd0 hk
      by_cases hki : k = idx.toNat
      · subst hki
        rw [hrd] at hk
        cases hk
        refine ⟨st.2.handles_ st.2.numCreated, ?_, ?_⟩
        · simp [List.getElem?_set, hlt]
        · intro hval; rw [hinv] at hval; cases hval
      · refine ⟨rd0.handle_, ?_, fun _ => rfl⟩
        simp only
        rw [List.getElem?_set_ne (fun hc => hki hc.symm)]
        exact hk
    · have hn : Manager.numCreated { st.2 with calls_ := st.2.calls_ ++ [c] }
          = st.2.numCreated + 1 := by
        apply numCreated_append_create
        rcases hc with rfl | rfl
        · exact Or.inl ⟨_, _, _, rfl⟩
        · exact Or.inr ⟨_, _, _, rfl⟩
      simp only [hn]
      unfold RenderGraphImpl.numWithHandle
      simp only
      rw [List.countP_set _ _ _ _ hlt, hget, hinv]
      simp only [Bool.false_eq_true, if_false, hvalid, if_true]
      omega
    · unfold Manager.createdHandles
      rcases hc with rfl | rfl <;> simp [List.filterMap_append]
    · simp [List.filter_append, hvalid]
  · refine ⟨rfl, by simp, ?_, ?_, [], by simp, ?_⟩
    · intro k rd0 hk
      by_cases hki : k = idx.toNat
      · subst hki
        rw [hrd] at hk
        cases hk
        refine ⟨rd.handle_, ?_, fun _ => rfl⟩
        simp [List.getElem?_set, hlt]
      · refine ⟨rd0.handle_, ?_, fun _ => rfl⟩
        simp only
        rw [List.getElem?_set_ne (fun hc => hki hc.symm)]
        exact hk
    · unfold RenderGraphImpl.numWithHandle
      simp only
      rw [List.countP_set _ _ _ _ hlt, hget, hinv]
      simp
    · simp [List.filter_append, hinv]

theorem CreateResources_fold_between (l : List Int) :
    ∀ (st st2 : RenderGraphImpl × Manager), (∀ n, (st.2.handles_ n).isValid = true) →
      l.foldlM CreateResources.step st = some st2 → CreatedBetween st st2 := by
  induction l with
  | nil =>
    intro st st2 _ h
    simp only [List.foldlM_nil, Option.pure_def, Option.some.injEq] at h
    subst h
    exact CreatedBetween.refl _
  | cons i l ih =>
    intro st st2 hvalid h
    rw [List.foldlM_cons] at h
    cases hs : CreateResources.step st i with
    | none => simp [hs] at h
    | some st1 =>
      simp only [hs, Option.bind_eq_bind, Option.some_bind] at h
      have h1 := CreateResources_step_between st st1 i hvalid hs
      have h2 := ih st1 st2 (by rw [h1.1]; exact hvalid) h
      exact CreatedBetween.trans _ _ _ h1 h2

/-- The creation loop leaves every resource description alone whose index is not in the list
of ids it visits. -/
theorem CreateResources_fold_untouched (l : List Int) :
    ∀ (st st2 : RenderGraphImpl × Manager), l.foldlM CreateResources.step st = some st2 →
      ∀ k : Nat, (k : Int) ∉ l → st2.1.resourceDescs_[k]? = st.1.resourceDescs_[k]? := by
  induction l with
  | nil =>
    intro st st2 h k _
    simp only [List.foldlM_nil, Option.pure_def, Option.some.injEq] at h
    subst h
    rfl
  | cons i l ih =>
    intro st st2 h k hk
    rw [List.foldlM_cons] at h
    cases hs : CreateResources.step st i with
    | none => simp [hs] at h
    | some st1 =>
      simp only [hs, Option.bind_eq_bind, Option.some_bind] at h
      rw [ih st1 st2 h k (fun hc => hk (List.mem_cons_of_mem _ hc))]
      have hne : i.toNat ≠ k := by
        intro hc
        obtain ⟨h0, _⟩ := CreateResources_step_cases st st1 i hs
        apply hk
        rw [← hc, Int.toNat_of_nonneg h0]
        exact List.mem_cons_self _ _
      obtain ⟨_, rd, _, hcase⟩ := CreateResources_step_cases st st1 i hs
      rcases hcase with ⟨_, rfl⟩ | ⟨_, _, c, _, rfl⟩ | ⟨_, _, _, rfl⟩
      · rfl
      · exact List.getElem?_set_ne hne
      · exact List.getElem?_set_ne hne

/-- After the creation loop, every visited resource of kind Buffer or Texture holds a handle,
provided the backend returns valid handles. -/
theorem CreateResources_fold_materialised (l : List Int) :
    ∀ (st st2 : RenderGraphImpl × Manager), (∀ n, (st.2.handles_ n).isValid = true) →
      l.foldlM CreateResources.step st = some st2 →
      ∀ i ∈ l, 0 ≤ i ∧ ∃ rd, st2.1.resourceDescs_[i.toNat]? = some rd ∧
        (rd.resType_ = ResourceType.BUFFER ∨ rd.resType_ = ResourceType.TEXTURE →
          rd.handle_.isValid = true) := by
  induction l with
  | nil => intro st st2 _ _ i hi; cases hi
  | cons j l ih =>
    intro st st2 hvalid h i hi
    rw [List.foldlM_cons] at h
    cases hs : CreateResources.step st j with
    | none => simp [hs] at h
    | some st1 =>
      simp only [hs, Option.bind_eq_bind, Option.some_bind] at h
      have h1 := CreateResources_step_between st st1 j hvalid hs
      have hvalid1 : ∀ n, (st1.2.handles_ n).isValid = true := by rw [h1.1]; exact hvalid
      by_cases hil : i ∈ l
      · exact ih st1 st2 hvalid1 h i hil
      · have hij : i = j := by
          rcases List.mem_cons.1 hi with h | h
          · exact h
          · exact absurd h hil
        subst hij
        obtain ⟨h0, rd, hrd, hcase⟩ := CreateResources_step_cases st st1 i hs
        have hlt : i.toNat < st.1.resourceDescs_.length := by
          by_contra hge
          rw [List.getElem?_eq_none (by omega)] at hrd
          cases hrd
        refine ⟨h0, ?_⟩
        have hst1 : ∃ rd1, st1.1.resourceDescs_[i.toNat]? = some rd1 ∧
            (rd1.resType_ = ResourceType.BUFFER ∨ rd1.resType_ = ResourceType.TEXTURE →
              rd1.handle_.isValid = true) := by
          rcases hcase with ⟨hv, rfl⟩ | ⟨_, _, c, _, rfl⟩ | ⟨_, hb, ht, rfl⟩
          · exact ⟨rd, hrd, fun _ => hv⟩
          · exact ⟨{ rd with handle_ := st.2.handles_ st.2.numCreated },
              by simp [List.getElem?_set, hlt], fun _ => hvalid _⟩
          · refine ⟨rd, by simp [List.getElem?_set, hlt], ?_⟩
            rintro (hk | hk)
            · exact absurd hk hb
            · exact absurd hk ht
        obtain ⟨rd1, hrd1, hkind⟩ := hst1
        obtain ⟨hh, hrd2, hkeep⟩ := (CreateResources_fold_between l st1 st2 hvalid1 h).2.2.1 _ rd1 hrd1
        refine ⟨_, hrd2, ?_⟩
        intro hk
        have hv1 := hkind hk
        show hh.isValid = true
        rw [hkeep hv1]
        exact hv1

/-! ## Write usages register an input first -/

theorem UseSRV_some (impl : RenderGraphImpl) (p : RenderPassImpl) (res : RenderGraphResource)
    (u : UseResult) (h : RenderGraphBuilder.UseSRV impl p res = some u) :
    u.impl.renderPassEntries_ = impl.renderPassEntries_ ∧
    u.renderPass.inputs_ = p.inputs_ ++ [res] ∧ u.renderPass.outputs_ = p.outputs_ := by
  unfold RenderGraphBuilder.UseSRV at h
  by_cases h0 : res.idx_ < 0
  · simp [h0] at h
  · rw [if_neg h0] at h
    cases hg : impl.resourceDescs_[res.idx_.toNat]? with
    | none => simp [hg] at h
    | some rd =>
      simp only [hg, Option.some.injEq] at h
      subst h
      exact ⟨rfl, rfl, rfl⟩

theorem UseRTV_some (impl : RenderGraphImpl) (p : RenderPassImpl) (res : RenderGraphResource)
    (u : UseResult) (h : RenderGraphBuilder.UseRTV impl p res = some u) :
    u.impl.renderPassEntries_ = impl.renderPassEntries_ ∧
    u.renderPass.inputs_ = p.inputs_ ++ [res] ∧
    u.renderPass.outputs_ = p.outputs_ ++ [⟨res.idx_, wrapI32 (res.version_ + 1)⟩] := by
  unfold RenderGraphBuilder.UseRTV at h
  by_cases h0 : res.idx_ < 0
  · simp [h0] at h
  · rw [if_neg h0] at h
    cases hg : impl.resourceDescs_[res.idx_.toNat]? with
    | none => simp [hg] at h
    | some rd =>
      simp only [hg, Option.some.injEq] at h
      subst h
      exact ⟨rfl, rfl, rfl⟩

theorem UseDSV_some (impl : RenderGraphImpl) (p : RenderPassImpl) (res : RenderGraphResource)
    (flags : Nat) (u : UseResult) (h : RenderGraphBuilder.UseDSV impl p res flags = some u) :
    u.impl.renderPassEntries_ = impl.renderPassEntries_ ∧
    u.renderPass.inputs_ = p.inputs_ ++ [res] ∧
    (u.renderPass.outputs_ = p.outputs_ ∨
      u.renderPass.outputs_ = p.outputs_ ++ [⟨res.idx_, wrapI32 (res.version_ + 1)⟩]) := by
  unfold RenderGraphBuilder.UseDSV at h
  by_cases h0 : res.idx_ < 0
  · simp [h0] at h
  · rw [if_neg h0] at h
    cases hg : impl.resourceDescs_[res.idx_.toNat]? with
    | none => simp [hg] at h
    | some rd =>
      simp only [hg] at h
      by_cases hro : ContainsAllFlags flags
          (DSVFlags.READ_ONLY_DEPTH ||| DSVFlags.READ_ONLY_STENCIL) = true
      · simp only [hro, Bool.not_true, Bool.false_eq_true, if_false, Option.some.injEq] at h
        subst h
        exact ⟨rfl, rfl, Or.inl rfl⟩
      · have hf : ContainsAllFlags flags
            (DSVFlags.READ_ONLY_DEPTH ||| DSVFlags.READ_ONLY_STENCIL) = false := by
          simpa using hro
        simp only [hf, Bool.not_false, if_true, Option.some.injEq] at h
        subst h
        exact ⟨rfl, rfl, Or.inr rfl⟩

/-- A usage call that appends the input `res` and possibly an output of the same id keeps the
property that every output has the id of an input. -/
theorem outputs_have_inputs_step (p q : RenderPassImpl) (res : RenderGraphResource) (v : Int)
    (hp : ∀ o ∈ p.outputs_, ∃ x ∈ p.inputs_, x.idx_ = o.idx_)
    (hin : q.inputs_ = p.inputs_ ++ [res])
    (hout : q.outputs_ = p.outputs_ ∨ q.outputs_ = p.outputs_ ++ [⟨res.idx_, v⟩]) :
    ∀ o ∈ q.outputs_, ∃ x ∈ q.inputs_, x.idx_ = o.idx_ := by
  intro o ho
  rw [hin]
  rcases hout with hout | hout
  · rw [hout] at ho
    obtain ⟨x, hx, hxo⟩ := hp o ho
    exact ⟨x, List.mem_append_left _ hx, hxo⟩
  · rw [hout] at ho
    rcases List.mem_append.1 ho with ho | ho
    · obtain ⟨x, hx, hxo⟩ := hp o ho
      exact ⟨x, List.mem_append_left _ hx, hxo⟩
    · rw [List.mem_singleton.1 ho]
      exact ⟨res, by simp, rfl⟩

/-- Every graph declared through the builder, from any state with the property, has the
property that each output of a pass has the id of an input of that pass: every write usage
registers the input before the output. -/
theorem run_writes_are_read (cs : List BuilderCall) :
    ∀ (st st2 : BuildState), st.impl.WritesAreRead →
      (∀ o ∈ st.renderPass.outputs_, ∃ x ∈ st.renderPass.inputs_, x.idx_ = o.idx_) →
      st.run cs = some st2 →
      st2.impl.WritesAreRead ∧
        ∀ o ∈ st2.renderPass.outputs_, ∃ x ∈ st2.renderPass.inputs_, x.idx_ = o.idx_ := by
  induction cs with
  | nil =>
    intro st st2 h1 h2 h
    simp only [BuildState.run, Option.some.injEq] at h
    subst h
    exact ⟨h1, h2⟩
  | cons c cs ih =>
    intro st st2 h1 h2 h
    unfold BuildState.run at h
    cases hs : st.step c with
    | none => simp [hs] at h
    | some st1 =>
      simp only [hs] at h
      refine ih st1 st2 ?_ ?_ h
      · cases c with
        | CreateBuffer name desc =>
          simp only [BuildState.step, Option.some.injEq] at hs; subst hs; exact h1
        | CreateTexture name desc =>
          simp only [BuildState.step, Option.some.injEq] at hs; subst hs; exact h1
        | ImportResource handle =>
          simp only [BuildState.step, Option.some.injEq] at hs; subst hs; exact h1
        | UseSRV res =>
          simp only [BuildState.step] at hs
          cases hu : RenderGraphBuilder.UseSRV st.impl st.renderPass res with
          | none => simp [hu] at hs
          | some u =>
            simp only [hu, Option.some.injEq] at hs; subst hs
            unfold RenderGraphImpl.WritesAreRead
            rw [(UseSRV_some _ _ _ u hu).1]; exact h1
        | UseRTV res =>
          simp only [BuildState.step] at hs
          cases hu : RenderGraphBuilder.UseRTV st.impl st.renderPass res with
          | none => simp [hu] at hs
          | some u =>
            simp only [hu, Option.some.injEq] at hs; subst hs
            unfold RenderGraphImpl.WritesAreRead
            rw [(UseRTV_some _ _ _ u hu).1]; exact h1
        | UseDSV res flags =>
          simp only [BuildState.step] at hs
          cases hu : RenderGraphBuilder.UseDSV st.impl st.renderPass res flags with
          | none => simp [hu] at hs
          | some u =>
            simp only [hu, Option.some.injEq] at hs; subst hs
            unfold RenderGraphImpl.WritesAreRead
            rw [(UseDSV_some _ _ _ _ u hu).1]; exact h1
        | InternalAddRenderPass name =>
          simp only [BuildState.step, Option.some.injEq] at hs; subst hs
          intro e he
          simp only [InternalAddRenderPass, List.mem_append, List.mem_singleton] at he
          rcases he with he | rfl
          · exact h1 e he
          · exact h2
      · cases c with
        | CreateBuffer name desc =>
          simp only [BuildState.step, Option.some.injEq] at hs; subst hs; exact h2
        | CreateTexture name desc =>
          simp only [BuildState.step, Option.some.injEq] at hs; subst hs; exact h2
        | ImportResource handle =>
          simp only [BuildState.step, Option.some.injEq] at hs; subst hs; exact h2
        | UseSRV res =>
          simp only [BuildState.step] at hs
          cases hu : RenderGraphBuilder.UseSRV st.impl st.renderPass res with
          | none => simp [hu] at hs
          | some u =>
            simp only [hu, Option.some.injEq] at hs; subst hs
            obtain ⟨_, hi, ho⟩ := UseSRV_some _ _ _ u hu
            exact outputs_have_inputs_step _ _ res 0 h2 hi (Or.inl ho)
        | UseRTV res =>
          simp only [BuildState.step] at hs
          cases hu : RenderGraphBuilder.UseRTV st.impl st.renderPass res with
          | none => simp [hu] at hs
          | some u =>
            simp only [hu, Option.some.injEq] at hs; subst hs
            obtain ⟨_, hi, ho⟩ := UseRTV_some _ _ _ u hu
            exact outputs_have_inputs_step _ _ res _ h2 hi (Or.inr ho)
        | UseDSV res flags =>
          simp only [BuildState.step] at hs
          cases hu : RenderGraphBuilder.UseDSV st.impl st.renderPass res flags with
          | none => simp [hu] at hs
          | some u =>
            simp only [hu, Option.some.injEq] at hs; subst hs
            obtain ⟨_, hi, ho⟩ := UseDSV_some _ _ _ _ u hu
            exact outputs_have_inputs_step _ _ res _ h2 hi ho
        | InternalAddRenderPass name =>
          simp only [BuildState.step, Option.some.injEq] at hs; subst hs
          intro o ho
          cases ho

/-! ## Claims on the creation of resources -/

theorem Execute_between (fuel : Nat) (impl : RenderGraphImpl) (gpu : Manager)
    (ref : RenderGraphResource) (r : ExecuteResult)
    (hvalid : ∀ n, (gpu.handles_ n).isValid = true)
    (h : Execute fuel impl gpu ref = some r) : CreatedBetween (impl, gpu) (r.impl, r.gpu) := by
  obtain ⟨t, _, _, _, _, hc⟩ := Execute_some fuel impl gpu ref r h
  unfold CreateResources at hc
  have hb := CreateResources_fold_between _ _ _ (by exact hvalid) hc
  exact hb

theorem ExecuteAll_between (fuel : Nat) (refs : List RenderGraphResource) :
    ∀ (impl : RenderGraphImpl) (gpu : Manager) (impl2 : RenderGraphImpl) (gpu2 : Manager),
      (∀ n, (gpu.handles_ n).isValid = true) →
      ExecuteAll fuel impl gpu refs = some (impl2, gpu2) →
      CreatedBetween (impl, gpu) (impl2, gpu2) := by
  induction refs with
  | nil =>
    intro impl gpu impl2 gpu2 _ h
    simp only [ExecuteAll, Option.some.injEq, Prod.mk.injEq] at h
    obtain ⟨rfl, rfl⟩ := h
    exact CreatedBetween.refl _
  | cons ref refs ih =>
    intro impl gpu impl2 gpu2 hvalid h
    unfold ExecuteAll at h
    cases he : Execute fuel impl gpu ref with
    | none => simp [he] at h
    | some r =>
      simp only [he] at h
      have h1 := Execute_between fuel impl gpu ref r hvalid he
      have h2 := ih r.impl r.gpu impl2 gpu2 (by
        have := h1.1
        simp only at this
        rw [this]; exact hvalid) h
      exact CreatedBetween.trans _ _ _ h1 h2

/-- C21. When the backend returns valid handles and every output of a declared pass has the id
of an input of that pass, then after a returning `Execute` every resource id that occurs in an
input or an output of an executed pass is in the needed-resource set and indexes a resource
description which, if its kind is Buffer or Texture, holds a valid backend handle. The
hypothesis on the outputs holds in every graph declared through the builder
(`run_writes_are_read`). -/
theorem Execute_materialises_resources_of_executed_passes (fuel : Nat) (impl : RenderGraphImpl)
    (gpu : Manager) (ref : RenderGraphResource) (r : ExecuteResult)
    (hwr : impl.WritesAreRead) (hvalid : ∀ n, (gpu.handles_ n).isValid = true)
    (h : Execute fuel impl gpu ref = some r) :
    ∀ e ∈ r.renderPassEntries, ∀ x,
      x ∈ e.renderPass_.inputs_ ∨ x ∈ e.renderPass_.outputs_ →
      x.idx_ ∈ r.impl.resourcesNeeded_ ∧ 0 ≤ x.idx_ ∧
      ∃ rd, r.impl.resourceDescs_[x.idx_.toNat]? = some rd ∧
        (rd.resType_ = ResourceType.BUFFER ∨ rd.resType_ = ResourceType.TEXTURE →
          rd.handle_.isValid = true) := by
  obtain ⟨t, hw, _, _, hL, hc⟩ := Execute_some fuel impl gpu ref r h
  intro e he x hx
  rw [hL] at he
  have het : e ∈ t.1 := List.mem_reverse.1 (keepFirst_mem _ _ _ he).1
  have heE : e ∈ impl.renderPassEntries_ := walkTrace_mem_entries _ _ _ t hw e het
  have hin : x.idx_ ∈ t.2 := by
    rcases hx with hx | hx
    · exact (walkTrace_ids _ _ _ t hw).2.2 e het x hx
    · obtain ⟨y, hy, hyx⟩ := hwr e heE x hx
      rw [← hyx]
      exact (walkTrace_ids _ _ _ t hw).2.2 e het y hy
  unfold CreateResources at hc
  have hneeded : x.idx_ ∈ t.2.foldl CoreSet.insert impl.resourcesNeeded_ :=
    (mem_foldl_insert _ _ _).2 (Or.inr hin)
  obtain ⟨_, _, hn, _⟩ := CreateResources_fold_inv _ _ _ hc
  refine ⟨by rw [hn]; exact hneeded, ?_⟩
  exact CreateResources_fold_materialised _ _ _ (by exact hvalid) hc _ hneeded

/-- Witness for C21 on the three-pass graph. -/
theorem Execute_materialises_resources_of_executed_passes_witness :
    Scenario.graph.WritesAreRead ∧ (∀ n, (Scenario.gpu.handles_ n).isValid = true) ∧
    ∃ r, Execute 3 Scenario.graph Scenario.gpu ⟨1, 0⟩ = some r ∧
      ∀ e ∈ r.renderPassEntries, ∀ x,
        x ∈ e.renderPass_.inputs_ ∨ x ∈ e.renderPass_.outputs_ →
        x.idx_ ∈ r.impl.resourcesNeeded_ ∧ 0 ≤ x.idx_ ∧
        ∃ rd, r.impl.resourceDescs_[x.idx_.toNat]? = some rd ∧
          (rd.resType_ = ResourceType.BUFFER ∨ rd.resType_ = ResourceType.TEXTURE →
            rd.handle_.isValid = true) := by
  refine ⟨by decide, fun _ => rfl, ?_⟩
  obtain ⟨r, hr⟩ := Option.isSome_iff_exists.1
    (show (Execute 3 Scenario.graph Scenario.gpu ⟨1, 0⟩).isSome = true from by rfl)
  exact ⟨r, hr,
    Execute_materialises_resources_of_executed_passes 3 Scenario.graph Scenario.gpu ⟨1, 0⟩ r
      (by decide) (fun _ => rfl) hr⟩

/-- C22. Over every sequence of `Execute` calls with nothing in between, on a backend that
returns valid handles: the number of creation calls made equals the number of resources that
went from holding no handle to holding one, so no resource is created twice; a resource that
held a handle before the sequence holds the same handle after it and is otherwise unchanged; the
valid handles appended to the transient-handle list are exactly the handles the creation calls
returned; and an iteration of the creation loop on a resource that holds a handle changes
nothing, neither the backend nor the transient-handle list. -/
theorem ExecuteAll_creates_each_resource_at_most_once (fuel : Nat) (impl : RenderGraphImpl)
    (gpu : Manager) (refs : List RenderGraphResource) (impl2 : RenderGraphImpl) (gpu2 : Manager)
    (hvalid : ∀ n, (gpu.handles_ n).isValid = true)
    (h : ExecuteAll fuel impl gpu refs = some (impl2, gpu2)) :
    gpu2.numCreated + impl.numWithHandle = gpu.numCreated + impl2.numWithHandle ∧
    impl2.resourceDescs_.length = impl.resourceDescs_.length ∧
    (∀ (k : Nat) (rd : ResourceDesc), impl.resourceDescs_[k]? = some rd →
      ∃ hd, impl2.resourceDescs_[k]? = some { rd with handle_ := hd } ∧
        (rd.handle_.isValid = true → hd = rd.handle_)) ∧
    (∃ added, gpu2.createdHandles = gpu.createdHandles ++ added ∧
      impl2.transientResources_.filter Handle.isValid =
        impl.transientResources_.filter Handle.isValid ++ added) ∧
    ∀ (st : RenderGraphImpl × Manager) (idx : Int) (rd : ResourceDesc), 0 ≤ idx →
      st.1.resourceDescs_[idx.toNat]? = some rd → rd.handle_.isValid = true →
      CreateResources.step st idx = some st := by
  obtain ⟨_, h2, h3, h4, h5⟩ := ExecuteAll_between fuel refs impl gpu impl2 gpu2 hvalid h
  refine ⟨h4, h2, h3, h5, ?_⟩
  intro st idx rd h0 hrd hv
  unfold CreateResources.step
  rw [if_neg (not_lt.2 h0), hrd]
  simp [hv]

/-- Witness for C22: three `Execute` calls on the three-pass graph make two creation calls. -/
theorem ExecuteAll_creates_each_resource_at_most_once_witness :
    (∀ n, (Scenario.gpu.handles_ n).isValid = true) ∧
    ∃ impl2 gpu2,
      ExecuteAll 3 Scenario.graph Scenario.gpu [⟨1, 0⟩, ⟨1, 0⟩, ⟨0, 0⟩] = some (impl2, gpu2) ∧
      gpu2.numCreated = 2 ∧
      gpu2.numCreated + Scenario.graph.numWithHandle
        = Scenario.gpu.numCreated + impl2.numWithHandle ∧
      impl2.resourceDescs_.length = Scenario.graph.resourceDescs_.length ∧
      (∀ (k : Nat) (rd : ResourceDesc), Scenario.graph.resourceDescs_[k]? = some rd →
        ∃ hd, impl2.resourceDescs_[k]? = some { rd with handle_ := hd } ∧
          (rd.handle_.isValid = true → hd = rd.handle_)) ∧
      (∃ added, gpu2.createdHandles = Scenario.gpu.createdHandles ++ added ∧
        impl2.transientResources_.filter Handle.isValid =
          Scenario.graph.transientResources_.filter Handle.isValid ++ added) ∧
      ∀ (st : RenderGraphImpl × Manager) (idx : Int) (rd : ResourceDesc), 0 ≤ idx →
        st.1.resourceDescs_[idx.toNat]? = some rd → rd.handle_.isValid = true →
        CreateResources.step st idx = some st := by
  refine ⟨fun _ => rfl, ?_⟩
  obtain ⟨p, hp⟩ := Option.isSome_iff_exists.1
    (show (ExecuteAll 3 Scenario.graph Scenario.gpu [⟨1, 0⟩, ⟨1, 0⟩, ⟨0, 0⟩]).isSome = true
      from by rfl)
  have hnum : (ExecuteAll 3 Scenario.graph Scenario.gpu [⟨1, 0⟩, ⟨1, 0⟩, ⟨0, 0⟩]).map
      (fun p => p.2.numCreated) = some 2 := by rfl
  rw [hp] at hnum
  exact ⟨p.1, p.2, hp, Option.some.inj hnum,
    ExecuteAll_creates_each_resource_at_most_once 3 Scenario.graph Scenario.gpu
      [⟨1, 0⟩, ⟨1, 0⟩, ⟨0, 0⟩] p.1 p.2 (fun _ => rfl) hp⟩

/-! ## What Execute marks as needed -/

/-- C30, counterexample. On a freshly constructed graph with one texture T and no pass,
`Execute` on the reference to T logs the error and executes no pass, yet it puts the id of T
into the needed-resource set and calls `CreateTexture` on the backend for T. -/
theorem Execute_creates_unproduced_resource :
    ((Execute 1 (RenderGraphBuilder.CreateTexture RenderGraph.new "T" {}).1 Scenario.gpu
        ⟨0, 0⟩).map fun r =>
      (r.errorLogged, r.renderPassEntries, r.impl.resourcesNeeded_, r.gpu.calls_)) =
      some (true, [], [0], [ManagerCall.CreateTexture {} "T" ⟨ResourceType.TEXTURE, 1⟩]) := by
  decide

/-- C30, amended. On a declared graph whose needed-resource set is still empty, after a
returning `Execute(ref)`: when the search resolved `ref` to a produced version, every id in the
needed-resource set occurs in an input or an output of an executed pass; a resource description
whose index is not in the needed-resource set is left as it was, so it gets no handle; and when
no declared pass has an output with the id of `ref`, no pass is executed and the
needed-resource set consists of the id of `ref` alone. -/
theorem Execute_needs_only_ids_of_executed_passes (fuel : Nat) (impl : RenderGraphImpl)
    (gpu : Manager) (ref : RenderGraphResource) (r : ExecuteResult) (hdecl : impl.Declared)
    (hfresh : impl.resourcesNeeded_ = []) (h : Execute fuel impl gpu ref = some r) :
    ((Execute.findNewest impl.renderPassEntries_ ref).version_ ≠ -1 →
      ∀ i ∈ r.impl.resourcesNeeded_, ∃ e ∈ r.renderPassEntries, ∃ x,
        (x ∈ e.renderPass_.inputs_ ∨ x ∈ e.renderPass_.outputs_) ∧ x.idx_ = i) ∧
    (∀ k : Nat, (k : Int) ∉ r.impl.resourcesNeeded_ →
      r.impl.resourceDescs_[k]? = impl.resourceDescs_[k]?) ∧
    ((∀ e ∈ impl.renderPassEntries_, ∀ o ∈ e.renderPass_.outputs_, o.idx_ ≠ ref.idx_) →
      r.renderPassEntries = [] ∧ r.impl.resourcesNeeded_ = [ref.idx_]) := by
  obtain ⟨t, hw, _, _, hL, hc⟩ := Execute_some fuel impl gpu ref r h
  unfold CreateResources at hc
  obtain ⟨_, _, hn, _⟩ := CreateResources_fold_inv _ _ _ hc
  have hn2 : r.impl.resourcesNeeded_ = t.2.foldl CoreSet.insert [] := by
    rw [hn, hfresh]
  obtain ⟨hidx, _, _, hor⟩ := findNewest_spec impl.renderPassEntries_ ref
  refine ⟨?_, ?_, ?_⟩
  · intro hres i hi
    rw [hn2] at hi
    have hit : i ∈ t.2 := by
      rcases (mem_foldl_insert _ _ _).1 hi with hi | hi
      · cases hi
      · exact hi
    have hexec : ∀ x ∈ t.1, x ∈ r.renderPassEntries := by
      intro x hx
      rw [hL]
      exact mem_keepFirst_reverse impl hdecl t.1.reverse
        (fun y hy => walkTrace_mem_entries _ _ _ t hw y (List.mem_reverse.1 hy)) x
        (List.mem_reverse.2 hx)
    rcases (walkTrace_ids _ _ _ t hw).1 i hit with ⟨x, hx, hxi⟩ | ⟨x, hx, inp, hinp, hxi⟩
    · rw [List.mem_singleton.1 hx] at hxi
      rcases hor with hu | ⟨e0, he0, he0o⟩
      · exact absurd (by rw [hu]) hres
      · exact ⟨e0, hexec e0 (walkTrace_producers _ _ _ t hw e0 he0
          ⟨_, List.mem_singleton_self _, he0o⟩), _, Or.inr he0o, hxi⟩
    · exact ⟨x, hexec x hx, inp, Or.inl hinp, hxi⟩
  · intro k hk
    rw [hn] at hk
    exact CreateResources_fold_untouched _ _ _ hc k hk
  · intro hno
    have hfin : Execute.findNewest impl.renderPassEntries_ ref = ⟨ref.idx_, -1⟩ := by
      rcases hor with hu | ⟨e, he, ho⟩
      · exact hu
      · exact absurd hidx (hno e he _ ho)
    have hprod : producersOf impl.renderPassEntries_ [⟨ref.idx_, -1⟩] = [] := by
      apply List.eq_nil_iff_forall_not_mem.2
      intro e he
      obtain ⟨hE, x, hx, hxo⟩ := (mem_producersOf _ _ e).1 he
      rw [List.mem_singleton.1 hx] at hxo
      exact hno e hE _ hxo rfl
    rw [hfin] at hw
    cases fuel with
    | zero => simp [walkTrace] at hw
    | succ f =>
      obtain ⟨d, hd, rfl⟩ := walkTrace_succ_some f _ _ t hw
      rw [hprod] at hd
      simp only [concatTraces, Option.some.injEq] at hd
      subst hd
      rw [hL, hn2, hprod]
      exact ⟨rfl, rfl⟩

/-- Witness for C30 (amended) on the three-pass graph. -/
theorem Execute_needs_only_ids_of_executed_passes_witness :
    Scenario.graph.Declared ∧ Scenario.graph.resourcesNeeded_ = [] ∧
    ∃ r, Execute 3 Scenario.graph Scenario.gpu ⟨1, 0⟩ = some r ∧
      ((Execute.findNewest Scenario.graph.renderPassEntries_ ⟨1, 0⟩).version_ ≠ -1 →
        ∀ i ∈ r.impl.resourcesNeeded_, ∃ e ∈ r.renderPassEntries, ∃ x,
          (x ∈ e.renderPass_.inputs_ ∨ x ∈ e.renderPass_.outputs_) ∧ x.idx_ = i) ∧
      (∀ k : Nat, (k : Int) ∉ r.impl.resourcesNeeded_ →
        r.impl.resourceDescs_[k]? = Scenario.graph.resourceDescs_[k]?) ∧
      ((∀ e ∈ Scenario.graph.renderPassEntries_, ∀ o ∈ e.renderPass_.outputs_, o.idx_ ≠ 1) →
        r.renderPassEntries = [] ∧ r.impl.resourcesNeeded_ = [1]) := by
  refine ⟨by decide, rfl, ?_⟩
  obtain ⟨r, hr⟩ := Option.isSome_iff_exists.1
    (show (Execute 3 Scenario.graph Scenario.gpu ⟨1, 0⟩).isSome = true from by rfl)
  exact ⟨r, hr,
    Execute_needs_only_ids_of_executed_passes 3 Scenario.graph Scenario.gpu ⟨1, 0⟩ r
      (by decide) rfl hr⟩

/-! ## Clear -/

theorem foldl_DestroyResource_calls (hs : List Handle) :
    ∀ gpu : Manager, (hs.foldl (fun g handle => g.DestroyResource handle) gpu).calls_ =
      gpu.calls_ ++ hs.map ManagerCall.DestroyResource := by
  induction hs with
  | nil => intro gpu; simp
  | cons h hs ih =>
    intro gpu
    rw [List.foldl_cons, ih]
    simp [Manager.DestroyResource]

/-- C23, evaluation at the failing input. `Clear` calls `DestroyResource` once on every entry
of the transient-handle list, in order. On a freshly constructed graph, after
`ImportResource` of the null handle and `Execute` on the returned reference, that list holds the
imported null handle, although the backend served no creation call; `Clear` then calls
`DestroyResource` on the handle that was passed to `ImportResource`. -/
theorem Clear_destroys_imported_null_handle :
    (∀ (impl : RenderGraphImpl) (gpu : Manager),
      (Clear impl gpu).2.calls_ =
        gpu.calls_ ++ impl.transientResources_.map ManagerCall.DestroyResource) ∧
    ((Execute 1 (ImportResource RenderGraph.new {}).1 Scenario.gpu ⟨0, 0⟩).map fun r =>
      (r.gpu.calls_, r.impl.transientResources_, (Clear r.impl r.gpu).2.calls_)) =
      some ([], [{}], [ManagerCall.DestroyResource {}]) := by
  refine ⟨fun impl gpu => ?_, by decide⟩
  unfold Clear
  exact foldl_DestroyResource_calls _ _

/-- C26, evaluation at the failing input. `Clear` leaves the needed-resource set as it is.
After a first frame (the three-pass scenario, `Execute` for U, `Clear`) the set still holds the
ids 1 and 0, whereas it is empty in a newly constructed graph. A next frame declared on the
cleared graph (textures X, Y, Z, a pass writing Z, `Execute` for Z) creates Y, X and Z, whereas
on a newly constructed graph it creates Z alone; and a next frame that declares a single texture
indexes the resource descriptions with the stale id 1, outside the vector. -/
theorem Clear_keeps_needed_resource_set :
    (∀ (impl : RenderGraphImpl) (gpu : Manager),
      (Clear impl gpu).1.resourcesNeeded_ = impl.resourcesNeeded_) ∧
    (Reuse.firstFrame.map fun c => c.1.resourcesNeeded_) = some [1, 0] ∧
    RenderGraph.new.resourcesNeeded_ = [] ∧
    ((Reuse.nextFrame RenderGraph.new Scenario.gpu).map fun r => r.gpu.calls_) =
      some [ManagerCall.CreateTexture { bindFlags_ := 0x40 } "Z" ⟨ResourceType.TEXTURE, 1⟩] ∧
    ((Reuse.firstFrame.bind fun c => Reuse.nextFrame c.1 c.2).map fun r =>
      r.gpu.calls_.drop 4) =
      some [ManagerCall.CreateTexture {} "Y" ⟨ResourceType.TEXTURE, 3⟩,
            ManagerCall.CreateTexture {} "X" ⟨ResourceType.TEXTURE, 4⟩,
            ManagerCall.CreateTexture { bindFlags_ := 0x40 } "Z" ⟨ResourceType.TEXTURE, 5⟩] ∧
    (Execute 1 (RenderGraphBuilder.CreateTexture RenderGraph.new "X" {}).1 Scenario.gpu
      ⟨0, 0⟩).isSome = true ∧
    (Reuse.firstFrame.bind fun c =>
      Execute 1 (RenderGraphBuilder.CreateTexture c.1 "X" {}).1 c.2 ⟨0, 0⟩).isNone = true := by
  refine ⟨fun _ _ => rfl, by decide, rfl, by decide, by decide, by decide, by decide⟩

/-! ## Ids are creation indices -/

theorem getElem?_append_singleton {α : Type} (l : List α) (a x : α) (i : Nat)
    (h : (l ++ [a])[i]? = some x) : l[i]? = some x ∨ (i = l.length ∧ x = a) := by
  by_cases hlt : i < l.length
  · rw [List.getElem?_append_left hlt] at h
    exact Or.inl h
  · right
    rw [List.getElem?_append_right (by omega)] at h
    by_cases hi : i - l.length = 0
    · rw [hi] at h
      simp only [List.getElem?_cons_zero, Option.some.injEq] at h
      exact ⟨by omega, h.symm⟩
    · obtain ⟨m, hm⟩ := Nat.exists_eq_succ_of_ne_zero hi
      rw [hm] at h
      simp at h

/-- One call keeps the ids dense, returns `(n, 0)` when it declares a resource, `n` being the
number of resource descriptions before the call, and leaves as many resource descriptions as
`resourcesSinceClear` counts. -/
theorem GraphCall_step_dense (st : RenderGraphImpl × Manager) (c : GraphCall)
    (hd : st.1.DenseIds) :
    (GraphCall.step st c).1.1.DenseIds ∧
    (GraphCall.step st c).1.1.resourceDescs_.length =
      resourcesSinceClear st.1.resourceDescs_.length [c] ∧
    (c.declaresResource = true →
      (GraphCall.step st c).2 = some ⟨(st.1.resourceDescs_.length : Int), 0⟩) := by
  obtain ⟨hr, he⟩ := hd
  cases c with
  | CreateBuffer name desc =>
    refine ⟨⟨?_, he⟩, by simp [GraphCall.step, RenderGraphBuilder.CreateBuffer,
      resourcesSinceClear], fun _ => rfl⟩
    intro i rd hi
    rcases getElem?_append_singleton _ _ _ _ hi with h | ⟨h1, h2⟩
    · exact hr i rd h
    · rw [h2, h1]
  | CreateTexture name desc =>
    refine ⟨⟨?_, he⟩, by simp [GraphCall.step, RenderGraphBuilder.CreateTexture,
      resourcesSinceClear], fun _ => rfl⟩
    intro i rd hi
    rcases getElem?_append_singleton _ _ _ _ hi with h | ⟨h1, h2⟩
    · exact hr i rd h
    · rw [h2, h1]
  | ImportResource handle =>
    refine ⟨⟨?_, he⟩, by simp [GraphCall.step, ImportResource, resourcesSinceClear],
      fun _ => rfl⟩
    intro i rd hi
    rcases getElem?_append_singleton _ _ _ _ hi with h | ⟨h1, h2⟩
    · exact hr i rd h
    · rw [h2, h1]
  | InternalAddRenderPass name renderPass =>
    refine ⟨⟨hr, ?_⟩, by simp [GraphCall.step, InternalAddRenderPass, resourcesSinceClear],
      fun h => by cases h⟩
    intro i e hi
    rcases getElem?_append_singleton _ _ _ _ hi with h | ⟨h1, h2⟩
    · exact he i e h
    · rw [h2, h1]
  | Clear =>
    refine ⟨⟨?_, ?_⟩, by simp [GraphCall.step, Clear, resourcesSinceClear],
      fun h => by cases h⟩
    · intro i rd hi
      simp [GraphCall.step, Clear] at hi
    · intro i e hi
      simp [GraphCall.step, Clear] at hi

theorem resourcesSinceClear_cons (n : Nat) (c : GraphCall) (cs : List GraphCall) :
    resourcesSinceClear n (c :: cs) = resourcesSinceClear (resourcesSinceClear n [c]) cs := by
  cases c <;> rfl

theorem GraphCall_run_cons (st : RenderGraphImpl × Manager) (c : GraphCall)
    (cs : List GraphCall) :
    GraphCall.run st (c :: cs) =
      ((GraphCall.run (GraphCall.step st c).1 cs).1,
        (GraphCall.step st c).2 :: (GraphCall.run (GraphCall.step st c).1 cs).2) := rfl

theorem GraphCall_run_dense (cs : List GraphCall) :
    ∀ (st : RenderGraphImpl × Manager), st.1.DenseIds →
      (GraphCall.run st cs).1.1.DenseIds ∧
      (GraphCall.run st cs).1.1.resourceDescs_.length =
        resourcesSinceClear st.1.resourceDescs_.length cs ∧
      ∀ (k : Nat) (c : GraphCall), cs[k]? = some c → c.declaresResource = true →
        (GraphCall.run st cs).2[k]? =
          some (some ⟨(resourcesSinceClear st.1.resourceDescs_.length (cs.take k) : Nat), 0⟩) := by
  induction cs with
  | nil =>
    intro st hd
    exact ⟨hd, rfl, fun k c hk => by simp at hk⟩
  | cons c cs ih =>
    intro st hd
    obtain ⟨h1, h2, h3⟩ := GraphCall_step_dense st c hd
    obtain ⟨g1, g2, g3⟩ := ih (GraphCall.step st c).1 h1
    refine ⟨g1, ?_, ?_⟩
    · show (GraphCall.run (GraphCall.step st c).1 cs).1.1.resourceDescs_.length = _
      rw [g2, h2, ← resourcesSinceClear_cons]
    · intro k c2 hk hdecl
      cases k with
      | zero =>
        simp only [List.getElem?_cons_zero, Option.some.injEq] at hk
        subst hk
        rw [GraphCall_run_cons]
        simp only [List.getElem?_cons_zero]
        rw [h3 hdecl]
        rfl
      | succ k =>
        simp only [List.getElem?_cons_succ] at hk
        rw [GraphCall_run_cons]
        simp only [List.getElem?_cons_succ]
        rw [g3 k c2 hk hdecl, h2, List.take_succ_cons, ← resourcesSinceClear_cons]

/-- C28. After any sequence of `CreateBuffer`, `CreateTexture`, `ImportResource`,
`InternalAddRenderPass` and `Clear` calls on a newly constructed graph, the entry at position
`i` of `resourceDescs_` has `id_ = i`, the entry at position `i` of `renderPassEntries_` has
`idx_ = i`, and every `CreateBuffer`, `CreateTexture` or `ImportResource` call of the sequence
returned the reference `(n, 0)`, where `n` is the number of resources declared by the calls
before it since the last `Clear` before it. -/
theorem ids_are_dense_creation_indices (gpu : Manager) (cs : List GraphCall) :
    (∀ (i : Nat) (rd : ResourceDesc),
      (GraphCall.run (RenderGraph.new, gpu) cs).1.1.resourceDescs_[i]? = some rd → rd.id_ = i) ∧
    (∀ (i : Nat) (e : RenderPassEntry),
      (GraphCall.run (RenderGraph.new, gpu) cs).1.1.renderPassEntries_[i]? = some e →
        e.idx_ = i) ∧
    ∀ (k : Nat) (c : GraphCall), cs[k]? = some c → c.declaresResource = true →
      (GraphCall.run (RenderGraph.new, gpu) cs).2[k]? =
        some (some ⟨(resourcesSinceClear 0 (cs.take k) : Nat), 0⟩) := by
  have hd : (RenderGraph.new, gpu).1.DenseIds :=
    ⟨fun i rd h => by simp [RenderGraph.new] at h, fun i e h => by simp [RenderGraph.new] at h⟩
  obtain ⟨⟨h1, h2⟩, _, h3⟩ := GraphCall_run_dense cs (RenderGraph.new, gpu) hd
  exact ⟨h1, h2, h3⟩

/-! ## State tracker: the same state twice -/

section StateTracker

open GPU

theorem barriersAbout_stage_other (ctx : D3D12CompileContext) (sub : Subresource)
    (b : ResourceBarrier) (hb : b.subRsc ≠ sub) :
    barriersAbout sub (ctx.stage b).pendingBarriers_ = barriersAbout sub ctx.pendingBarriers_ ∧
    (ctx.stage b).stateTracker_ = ctx.stateTracker_ ∧ (ctx.stage b).emitted_ = ctx.emitted_ := by
  unfold D3D12CompileContext.stage
  by_cases hin : b ∈ ctx.pendingBarriers_
  · rw [if_pos hin]; exact ⟨rfl, rfl, rfl⟩
  · rw [if_neg hin]
    refine ⟨?_, rfl, rfl⟩
    simp [barriersAbout, List.filter_append, hb]

theorem barriersAbout_stage_new (ctx : D3D12CompileContext) (sub : Subresource)
    (b : ResourceBarrier) (hb : b.subRsc = sub)
    (hnone : barriersAbout sub ctx.pendingBarriers_ = []) :
    barriersAbout sub (ctx.stage b).pendingBarriers_ = [b] ∧
    (ctx.stage b).stateTracker_ = ctx.stateTracker_ ∧ (ctx.stage b).emitted_ = ctx.emitted_ := by
  have hin : b ∉ ctx.pendingBarriers_ := by
    intro hc
    have : b ∈ barriersAbout sub ctx.pendingBarriers_ :=
      List.mem_filter.2 ⟨hc, decide_eq_true hb⟩
    rw [hnone] at this
    cases this
  unfold D3D12CompileContext.stage
  rw [if_neg hin]
  refine ⟨?_, rfl, rfl⟩
  unfold barriersAbout at hnone ⊢
  simp only [List.filter_append, hnone, List.nil_append]
  simp [hb]

/-- A use of another subresource leaves the recorded state of `sub`, the staged barriers about
`sub` and the emitted barriers as they are. -/
theorem UseSubresource_other (ctx ctx2 : D3D12CompileContext) (sub s : Subresource)
    (state : ResourceStates) (hs : s ≠ sub) (h : ctx.UseSubresource s state = some ctx2) :
    ctx2.stateTracker_ sub = ctx.stateTracker_ sub ∧
    barriersAbout sub ctx2.pendingBarriers_ = barriersAbout sub ctx.pendingBarriers_ ∧
    ctx2.emitted_ = ctx.emitted_ := by
  unfold D3D12CompileContext.UseSubresource D3D12CompileContext.AddTransition at h
  cases hc : ctx.stateTracker_ s with
  | none => simp [hc] at h
  | some current =>
    simp only [hc] at h
    by_cases heq : current = state
    · simp only [if_pos heq, Bool.not_false, Bool.true_and] at h
      by_cases hu : state = ResourceStates.UNORDERED_ACCESS
      · simp only [hu, decide_True, if_true, Option.some.injEq] at h
        subst h
        obtain ⟨h1, h2, h3⟩ := barriersAbout_stage_other ctx sub (ResourceBarrier.UAV s) hs
        exact ⟨by unfold D3D12CompileContext.AddUAVBarrier; rw [h2], h1, h3⟩
      · simp only [hu, decide_False, Bool.false_eq_true, if_false, Option.some.injEq] at h
        subst h
        exact ⟨rfl, rfl, rfl⟩
    · simp only [if_neg heq, Bool.not_true, Bool.false_and, Bool.false_eq_true, if_false,
        Option.some.injEq] at h
      subst h
      obtain ⟨h1, h2, h3⟩ :=
        barriersAbout_stage_other ctx sub (ResourceBarrier.Transition s current state) hs
      refine ⟨?_, h1, h3⟩
      simp only
      rw [if_neg (fun hc2 => hs hc2.symm), h2]

/-- A use of `sub` itself, when no barrier about it is staged: the recorded state becomes the
required one; a transition is staged when the state differs, a UAV hazard barrier when the state
is the same and is the unordered-access state, and nothing otherwise. -/
theorem UseSubresource_same (ctx ctx2 : D3D12CompileContext) (sub : Subresource)
    (X cur : ResourceStates) (hcur : ctx.stateTracker_ sub = some cur)
    (hnone : barriersAbout sub ctx.pendingBarriers_ = [])
    (h : ctx.UseSubresource sub X = some ctx2) :
    ctx2.stateTracker_ sub = some X ∧
    barriersAbout sub ctx2.pendingBarriers_ =
      (if cur = X then
        (if X = ResourceStates.UNORDERED_ACCESS then [ResourceBarrier.UAV sub] else [])
       else [ResourceBarrier.Transition sub cur X]) ∧
    ctx2.emitted_ = ctx.emitted_ := by
  unfold D3D12CompileContext.UseSubresource D3D12CompileContext.AddTransition at h
  simp only [hcur] at h
  by_cases heq : cur = X
  · simp only [if_pos heq, Bool.not_false, Bool.true_and] at h
    rw [if_pos heq]
    by_cases hu : X = ResourceStates.UNORDERED_ACCESS
    · simp only [hu, decide_True, if_true, Option.some.injEq] at h
      subst h
      obtain ⟨h1, h2, h3⟩ := barriersAbout_stage_new ctx sub (ResourceBarrier.UAV sub) rfl hnone
      refine ⟨?_, ?_, h3⟩
      · unfold D3D12CompileContext.AddUAVBarrier; rw [h2, hcur, heq]
      · rw [if_pos hu]; exact h1
    · simp only [hu, decide_False, Bool.false_eq_true, if_false, Option.some.injEq] at h
      subst h
      exact ⟨by rw [hcur, heq], by rw [if_neg hu]; exact hnone, rfl⟩
  · simp only [if_neg heq, Bool.not_true, Bool.false_and, Bool.false_eq_true, if_false,
      Option.some.injEq] at h
    subst h
    rw [if_neg heq]
    obtain ⟨h1, _, h3⟩ :=
      barriersAbout_stage_new ctx sub (ResourceBarrier.Transition sub cur X) rfl hnone
    exact ⟨by simp, h1, h3⟩

theorem UseSubresource_fold_other (sub : Subresource)
    (uses : List (Subresource × ResourceStates)) :
    ∀ (ctx ctx2 : D3D12CompileContext), (∀ u ∈ uses, u.1 ≠ sub) →
      uses.foldlM
        (fun (c : D3D12CompileContext) (u : Subresource × ResourceStates) =>
          c.UseSubresource u.1 u.2) ctx = some ctx2 →
      ctx2.stateTracker_ sub = ctx.stateTracker_ sub ∧
      barriersAbout sub ctx2.pendingBarriers_ = barriersAbout sub ctx.pendingBarriers_ ∧
      ctx2.emitted_ = ctx.emitted_ := by
  induction uses with
  | nil =>
    intro ctx ctx2 _ h
    simp only [List.foldlM_nil, Option.pure_def, Option.some.injEq] at h
    subst h
    exact ⟨rfl, rfl, rfl⟩
  | cons u uses ih =>
    intro ctx ctx2 hall h
    rw [List.foldlM_cons] at h
    cases hs : ctx.UseSubresource u.1 u.2 with
    | none => simp [hs] at h
    | some ctx1 =>
      simp only [hs, Option.bind_eq_bind, Option.some_bind] at h
      obtain ⟨a1, a2, a3⟩ :=
        UseSubresource_other ctx ctx1 sub u.1 u.2 (hall u (List.mem_cons_self _ _)) hs
      obtain ⟨b1, b2, b3⟩ := ih ctx1 ctx2 (fun v hv => hall v (List.mem_cons_of_mem _ hv)) h
      exact ⟨by rw [b1, a1], by rw [b2, a2], by rw [b3, a3]⟩

/-- One command that uses `sub` once, requiring the state `X`, compiled when nothing is
staged. -/
theorem CompileCommand_same (ctx ctx2 : D3D12CompileContext) (sub : Subresource)
    (X cur : ResourceStates) (a b : List (Subresource × ResourceStates))
    (hcur : ctx.stateTracker_ sub = some cur) (hpend : ctx.pendingBarriers_ = [])
    (ha : ∀ u ∈ a, u.1 ≠ sub) (hb : ∀ u ∈ b, u.1 ≠ sub)
    (h : ctx.CompileCommand (a ++ (sub, X) :: b) = some ctx2) :
    ctx2.stateTracker_ sub = some X ∧ ctx2.pendingBarriers_ = [] ∧
    ∃ e, ctx2.emitted_ = ctx.emitted_ ++ e ∧
      barriersAbout sub e =
        (if cur = X then
          (if X = ResourceStates.UNORDERED_ACCESS then [ResourceBarrier.UAV sub] else [])
         else [ResourceBarrier.Transition sub cur X]) := by
  unfold D3D12CompileContext.CompileCommand at h
  rw [List.foldlM_append] at h
  cases h1 : a.foldlM
      (fun (c : D3D12CompileContext) (u : Subresource × ResourceStates) =>
        c.UseSubresource u.1 u.2) ctx with
  | none => simp [h1] at h
  | some c1 =>
    simp only [h1, Option.bind_eq_bind, Option.some_bind, List.foldlM_cons] at h
    cases h2 : c1.UseSubresource sub X with
    | none => simp [h2] at h
    | some c2 =>
      simp only [h2, Option.some_bind] at h
      cases h3 : b.foldlM
          (fun (c : D3D12CompileContext) (u : Subresource × ResourceStates) =>
            c.UseSubresource u.1 u.2) c2 with
      | none => simp [h3] at h
      | some c3 =>
        simp only [h3, Option.map_some', Option.some.injEq] at h
        subst h
        obtain ⟨a1, a2, a3⟩ := UseSubresource_fold_other sub a ctx c1 ha h1
        have hnone : barriersAbout sub c1.pendingBarriers_ = [] := by
          rw [a2, hpend]; rfl
        obtain ⟨b1, b2, b3⟩ := UseSubresource_same c1 c2 sub X cur (by rw [a1, hcur]) hnone h2
        obtain ⟨d1, d2, d3⟩ := UseSubresource_fold_other sub b c2 c3 hb h3
        refine ⟨by simp only [D3D12CompileContext.FlushTransitions]; rw [d1, b1], rfl,
          c3.pendingBarriers_, ?_, by rw [d2, b2]⟩
        simp only [D3D12CompileContext.FlushTransitions]
        rw [d3, b3, a3]

/-- C24, counterexample. In the tracker with subresource `(0, 0)` registered in the common
state, two successive commands that each use it in the unordered-access state emit two barriers
for it: the transition staged for the first use and a UAV hazard barrier staged for the second
use. Two successive commands that each use it in the common state emit no barrier at all. -/
theorem second_unordered_access_use_stages_a_barrier :
    ((Tracked.ctx.CompileCommandList
        [[(⟨0, 0⟩, ResourceStates.UNORDERED_ACCESS)],
         [(⟨0, 0⟩, ResourceStates.UNORDERED_ACCESS)]]).map fun c =>
      (c.emitted_, c.stateTracker_ ⟨0, 0⟩)) =
      some ([ResourceBarrier.Transition ⟨0, 0⟩ ResourceStates.COMMON
               ResourceStates.UNORDERED_ACCESS,
             ResourceBarrier.UAV ⟨0, 0⟩],
            some ResourceStates.UNORDERED_ACCESS) ∧
    ((Tracked.ctx.CompileCommandList
        [[(⟨0, 0⟩, ResourceStates.COMMON)], [(⟨0, 0⟩, ResourceStates.COMMON)]]).map fun c =>
      (c.emitted_, c.stateTracker_ ⟨0, 0⟩)) = some ([], some ResourceStates.COMMON) := by
  decide

/-- C24, amended. Two successive commands each use the registered subresource `sub` once,
requiring the same state `X`; `cur` is the state recorded before the first command and nothing
is staged then. When the compilation returns, the recorded state of `sub` is `X` after the
first and after the second command. The first command emits for `sub` the transition from `cur`
to `X` when `cur` differs from `X`, a UAV hazard barrier when `cur` is `X` and `X` is the
unordered-access state, and nothing otherwise. The second command emits for `sub` a UAV hazard
barrier when `X` is the unordered-access state and nothing otherwise. So when `X` differs from
`cur` and is not the unordered-access state, the two commands emit exactly one barrier for
`sub`, the transition of the first use. -/
theorem same_state_twice_stages_one_transition (ctx ctx2 : D3D12CompileContext)
    (sub : Subresource) (X cur : ResourceStates)
    (a1 b1 a2 b2 : List (Subresource × ResourceStates))
    (hcur : ctx.stateTracker_ sub = some cur) (hpend : ctx.pendingBarriers_ = [])
    (h1 : ∀ u ∈ a1 ++ b1, u.1 ≠ sub) (h2 : ∀ u ∈ a2 ++ b2, u.1 ≠ sub)
    (hrun : ctx.CompileCommandList [a1 ++ (sub, X) :: b1, a2 ++ (sub, X) :: b2] = some ctx2) :
    ∃ ctx1 e1 e2,
      ctx.CompileCommand (a1 ++ (sub, X) :: b1) = some ctx1 ∧
      ctx1.CompileCommand (a2 ++ (sub, X) :: b2) = some ctx2 ∧
      ctx1.emitted_ = ctx.emitted_ ++ e1 ∧ ctx2.emitted_ = ctx1.emitted_ ++ e2 ∧
      ctx1.stateTracker_ sub = some X ∧ ctx2.stateTracker_ sub = some X ∧
      barriersAbout sub e1 =
        (if cur = X then
          (if X = ResourceStates.UNORDERED_ACCESS then [ResourceBarrier.UAV sub] else [])
         else [ResourceBarrier.Transition sub cur X]) ∧
      barriersAbout sub e2 =
        (if X = ResourceStates.UNORDERED_ACCESS then [ResourceBarrier.UAV sub] else []) ∧
      (cur ≠ X → X ≠ ResourceStates.UNORDERED_ACCESS →
        barriersAbout sub (e1 ++ e2) = [ResourceBarrier.Transition sub cur X]) := by
  unfold D3D12CompileContext.CompileCommandList at hrun
  rw [List.foldlM_cons] at hrun
  cases hc1 : ctx.CompileCommand (a1 ++ (sub, X) :: b1) with
  | none => simp [hc1] at hrun
  | some ctx1 =>
    simp only [hc1, Option.bind_eq_bind, Option.some_bind, List.foldlM_cons, List.foldlM_nil]
      at hrun
    cases hc2 : ctx1.CompileCommand (a2 ++ (sub, X) :: b2) with
    | none => simp [hc2] at hrun
    | some ctx2b =>
      simp only [hc2, Option.some_bind, Option.pure_def, Option.some.injEq] at hrun
      subst hrun
      obtain ⟨s1, p1, e1, he1, hb1⟩ := CompileCommand_same ctx ctx1 sub X cur a1 b1 hcur hpend
        (fun u hu => h1 u (List.mem_append_left _ hu))
        (fun u hu => h1 u (List.mem_append_right _ hu)) hc1
      obtain ⟨s2, _, e2, he2, hb2⟩ := CompileCommand_same ctx1 ctx2b sub X X a2 b2 s1 p1
        (fun u hu => h2 u (List.mem_append_left _ hu))
        (fun u hu => h2 u (List.mem_append_right _ hu)) hc2
      rw [if_pos rfl] at hb2
      refine ⟨ctx1, e1, e2, rfl, hc2, he1, he2, s1, s2, hb1, hb2, ?_⟩
      intro hne hu
      unfold barriersAbout at hb1 hb2 ⊢
      rw [List.filter_append, hb1, hb2, if_neg hne, if_neg hu]
      rfl

/-- Witness for C24 (amended): a command that uses `(0, 0)` as render target and `(1, 0)` as
shader resource, followed by a command that uses the same two subresources in the same
states. -/
theorem same_state_twice_stages_one_transition_witness :
    ∃ ctx2, Tracked.ctx.CompileCommandList
        [[] ++ (⟨0, 0⟩, ResourceStates.RENDER_TARGET) ::
          [(⟨1, 0⟩, ResourceStates.SHADER_RESOURCE)],
         [(⟨1, 0⟩, ResourceStates.SHADER_RESOURCE)] ++
           (⟨0, 0⟩, ResourceStates.RENDER_TARGET) :: []] = some ctx2 ∧
      ∃ ctx1 e1 e2,
        Tracked.ctx.CompileCommand ([] ++ (⟨0, 0⟩, ResourceStates.RENDER_TARGET) ::
          [(⟨1, 0⟩, ResourceStates.SHADER_RESOURCE)]) = some ctx1 ∧
        ctx1.CompileCommand ([(⟨1, 0⟩, ResourceStates.SHADER_RESOURCE)] ++
          (⟨0, 0⟩, ResourceStates.RENDER_TARGET) :: []) = some ctx2 ∧
        ctx1.emitted_ = Tracked.ctx.emitted_ ++ e1 ∧ ctx2.emitted_ = ctx1.emitted_ ++ e2 ∧
        ctx1.stateTracker_ ⟨0, 0⟩ = some ResourceStates.RENDER_TARGET ∧
        ctx2.stateTracker_ ⟨0, 0⟩ = some ResourceStates.RENDER_TARGET ∧
        barriersAbout ⟨0, 0⟩ e1 =
          (if ResourceStates.COMMON = ResourceStates.RENDER_TARGET then
            (if ResourceStates.RENDER_TARGET = ResourceStates.UNORDERED_ACCESS then
              [ResourceBarrier.UAV ⟨0, 0⟩] else [])
           else [ResourceBarrier.Transition ⟨0, 0⟩ ResourceStates.COMMON
                  ResourceStates.RENDER_TARGET]) ∧
        barriersAbout ⟨0, 0⟩ e2 =
          (if ResourceStates.RENDER_TARGET = ResourceStates.UNORDERED_ACCESS then
            [ResourceBarrier.UAV ⟨0, 0⟩] else []) ∧
        (ResourceStates.COMMON ≠ ResourceStates.RENDER_TARGET →
          ResourceStates.RENDER_TARGET ≠ ResourceStates.UNORDERED_ACCESS →
          barriersAbout ⟨0, 0⟩ (e1 ++ e2) =
            [ResourceBarrier.Transition ⟨0, 0⟩ ResourceStates.COMMON
              ResourceStates.RENDER_TARGET]) := by
  obtain ⟨ctx2, h⟩ := Option.isSome_iff_exists.1
    (show (Tracked.ctx.CompileCommandList
        [[] ++ (⟨0, 0⟩, ResourceStates.RENDER_TARGET) ::
          [(⟨1, 0⟩, ResourceStates.SHADER_RESOURCE)],
         [(⟨1, 0⟩, ResourceStates.SHADER_RESOURCE)] ++
           (⟨0, 0⟩, ResourceStates.RENDER_TARGET) :: []]).isSome = true from by rfl)
  exact ⟨ctx2, h,
    same_state_twice_stages_one_transition Tracked.ctx ctx2 ⟨0, 0⟩
      ResourceStates.RENDER_TARGET ResourceStates.COMMON
      [] [(⟨1, 0⟩, ResourceStates.SHADER_RESOURCE)]
      [(⟨1, 0⟩, ResourceStates.SHADER_RESOURCE)] [] (by decide) rfl (by decide) (by decide) h⟩

end StateTracker

/-! ## Frame allocator: a failed call -/

/-- A call whose advanced cursor lies beyond the arena returns the null pointer and leaves the
cursor advanced. -/
theorem Alloc_over_capacity (A : Int) (impl : RenderGraphImpl) (size : Int) (hA : 0 < A)
    (hsize : 0 ≤ size) (hcur : 0 ≤ impl.frameDataOffset_)
    (hover : (impl.frameData_.length : Int) < impl.frameDataOffset_ + PotRoundUp size A)
    (hno : impl.frameDataOffset_ + PotRoundUp size A ≤ 2147483647) :
    (impl.Alloc A size).ptr = none ∧
    (impl.Alloc A size).impl.frameDataOffset_ = impl.frameDataOffset_ + PotRoundUp size A ∧
    (impl.Alloc A size).impl.frameData_ = impl.frameData_ := by
  obtain ⟨h1, _, _⟩ := PotRoundUp_spec size A hA
  have hw1 : wrapI32 (PotRoundUp size A) = PotRoundUp size A :=
    wrapI32_of_range _ (by omega) (by omega)
  have hw2 : wrapI32 (impl.frameDataOffset_ + PotRoundUp size A) =
      impl.frameDataOffset_ + PotRoundUp size A := wrapI32_of_range _ (by omega) hno
  refine ⟨?_, by rw [(Alloc_frameData A impl size).2, hw1, hw2], (Alloc_frameData A impl size).1⟩
  unfold RenderGraphImpl.Alloc AtomicAddAcq
  simp only [hw1, hw2]
  rw [if_pos (by omega)]

theorem AllocAll_over_capacity (A : Int) (hA : 0 < A) (sizes : List Int) :
    ∀ (impl : RenderGraphImpl), (impl.frameData_.length : Int) < impl.frameDataOffset_ →
      (∀ s ∈ sizes, 0 ≤ s) →
      impl.frameDataOffset_ + sumInts (sizes.map fun s => PotRoundUp s A) ≤ 2147483647 →
      ∀ res ∈ (impl.AllocAll A sizes).2, res.ptr = none := by
  induction sizes with
  | nil => intro impl _ _ _ res hres; simp [RenderGraphImpl.AllocAll] at hres
  | cons s sizes ih =>
    intro impl hover hpos hno res hres
    have hs : 0 ≤ s := hpos s (List.mem_cons_self _ _)
    obtain ⟨h1, _, _⟩ := PotRoundUp_spec s A hA
    have hrest : 0 ≤ sumInts (sizes.map fun s => PotRoundUp s A) := by
      apply sumInts_nonneg
      intro r hr
      obtain ⟨x, hx, rfl⟩ := List.mem_map.1 hr
      have := (PotRoundUp_spec x A hA).1
      have := hpos x (List.mem_cons_of_mem _ hx)
      omega
    simp only [List.map_cons, sumInts] at hno
    obtain ⟨a1, a2, a3⟩ := Alloc_over_capacity A impl s hA hs (by omega) (by omega) (by omega)
    simp only [RenderGraphImpl.AllocAll, List.mem_cons] at hres
    rcases hres with rfl | hres
    · exact a1
    · exact ih (impl.Alloc A s).impl (by rw [a3, a2]; omega)
        (fun x hx => hpos x (List.mem_cons_of_mem _ hx)) (by rw [a2]; omega) res hres

/-- C31. With an arena of `MAX_FRAME_DATA` = 65536 bytes, a non-negative size and cursor, and
`r` the rounded size: when the cursor plus `r` exceeds 65536, `Alloc` returns the null pointer
and the cursor is advanced to the cursor plus `r` all the same; every later `Alloc` with a
non-negative size then returns the null pointer as well (the cursor staying representable as
`i32`), whatever its size. -/
theorem failed_Alloc_is_not_rolled_back (A : Int) (impl : RenderGraphImpl) (size : Int)
    (later : List Int) (hA : 0 < A) (hcap : (impl.frameData_.length : Int) = MAX_FRAME_DATA)
    (hsize : 0 ≤ size) (hcur : 0 ≤ impl.frameDataOffset_)
    (hfail : 65536 < impl.frameDataOffset_ + PotRoundUp size A)
    (hlater : ∀ s ∈ later, 0 ≤ s)
    (hno : impl.frameDataOffset_ + PotRoundUp size A +
      sumInts (later.map fun s => PotRoundUp s A) ≤ 2147483647) :
    (impl.Alloc A size).ptr = none ∧
    (impl.Alloc A size).impl.frameDataOffset_ = impl.frameDataOffset_ + PotRoundUp size A ∧
    ∀ res ∈ ((impl.Alloc A size).impl.AllocAll A later).2, res.ptr = none := by
  have hmax : MAX_FRAME_DATA = 65536 := by decide
  have hrest : 0 ≤ sumInts (later.map fun s => PotRoundUp s A) := by
    apply sumInts_nonneg
    intro r hr
    obtain ⟨x, hx, rfl⟩ := List.mem_map.1 hr
    have := (PotRoundUp_spec x A hA).1
    have := hlater x hx
    omega
  obtain ⟨a1, a2, a3⟩ := Alloc_over_capacity A impl size hA hsize hcur (by omega) (by omega)
  refine ⟨a1, a2, ?_⟩
  exact AllocAll_over_capacity A hA later _ (by rw [a3, a2]; omega) hlater (by rw [a2]; exact hno)

/-- Witness for C31: with alignment 16 and the cursor at 65520, a request of 32 bytes fails and
moves the cursor to 65552; the later request of 16 bytes, which would have fitted into the 16
bytes left before the failed call, fails too. -/
theorem failed_Alloc_is_not_rolled_back_witness :
    AlmostFull.graph.frameDataOffset_ + PotRoundUp 16 16 ≤ 65536 ∧
    (AlmostFull.graph.Alloc 16 32).ptr = none ∧
    (AlmostFull.graph.Alloc 16 32).impl.frameDataOffset_ =
      AlmostFull.graph.frameDataOffset_ + PotRoundUp 32 16 ∧
    ∀ res ∈ ((AlmostFull.graph.Alloc 16 32).impl.AllocAll 16 [16]).2, res.ptr = none :=
  ⟨by decide,
    failed_Alloc_is_not_rolled_back 16 AlmostFull.graph 32 [16]
      (by decide) new_frameData_length (by decide) (by decide) (by decide) (by decide)
      (by decide)⟩

/-! ## Colour transform -/

/-- C37. Over the rationals, `DecodeYCoCg` undoes `EncodeYCoCg` for every colour, on three
components and on four; the four-component overloads pass the fourth component through
unchanged. -/
theorem DecodeYCoCg_undoes_EncodeYCoCg :
    (∀ rgb : Math.Vec3, MeshTools.DecodeYCoCg (MeshTools.EncodeYCoCg rgb) = rgb) ∧
    (∀ rgba : Math.Vec4, MeshTools.DecodeYCoCgVec4 (MeshTools.EncodeYCoCgVec4 rgba) = rgba) ∧
    (∀ rgba : Math.Vec4, (MeshTools.EncodeYCoCgVec4 rgba).w = rgba.w) ∧
    (∀ ycocg : Math.Vec4, (MeshTools.DecodeYCoCgVec4 ycocg).w = ycocg.w) := by
  refine ⟨?_, ?_, fun _ => rfl, fun _ => rfl⟩
  · rintro ⟨r, g, b⟩
    simp only [MeshTools.DecodeYCoCg, MeshTools.EncodeYCoCg, Math.Vec3.Dot, Math.Vec3.mk.injEq]
    refine ⟨by ring, by ring, by ring⟩
  · rintro ⟨r, g, b, a⟩
    simp only [MeshTools.DecodeYCoCgVec4, MeshTools.EncodeYCoCgVec4, Math.Vec3.Dot,
      Math.Vec4.mk.injEq]
    refine ⟨by ring, by ring, by ring, trivial⟩

/-! ## Morton codes, bit by bit -/

/-- One line of `splitBy3`, bit by bit: the bit survives the mask and comes from the same
position or from `k` positions below. -/
theorem spread_testBit (k m x j : Nat) :
    ((x ||| (x <<< k) % 18446744073709551616) &&& m).testBit j =
      (m.testBit j &&
        (x.testBit j || (decide (j < 64) && (decide (k ≤ j) && x.testBit (j - k))))) := by
  have h : (18446744073709551616 : Nat) = 2 ^ 64 := by norm_num
  rw [h, Nat.testBit_and, Nat.testBit_or, Nat.testBit_mod_two_pow, Nat.testBit_shiftLeft]
  rw [Bool.and_comm]

theorem low21_testBit (a j : Nat) :
    (a &&& 0x1fffff).testBit j = (Nat.testBit 0x1fffff j && a.testBit j) := by
  rw [Nat.testBit_and, Bool.and_comm]

set_option maxHeartbeats 8000000 in
/-- Every bit of `splitBy3 a`: bit `j` is bit `j / 3` of `a` when `j` is a multiple of 3 below
63, and 0 otherwise. -/
theorem splitBy3_testBit (a j : Nat) :
    (MeshTools.splitBy3 a).testBit j =
      (decide (j % 3 = 0 ∧ j / 3 < 21) && a.testBit (j / 3)) := by
  by_cases hj : j < 64
  · interval_cases j <;>
      simp only [MeshTools.splitBy3, spread_testBit, low21_testBit] <;> simp [Nat.testBit]
  · have h1 : MeshTools.splitBy3 a < 2 ^ j := by
      have : MeshTools.splitBy3 a ≤ 0x1249249249249249 := Nat.and_le_right
      have h2 : (2 : Nat) ^ 64 ≤ 2 ^ j := Nat.pow_le_pow_right (by norm_num) (by omega)
      have h3 : (0x1249249249249249 : Nat) < 2 ^ 64 := by norm_num
      omega
    rw [Nat.testBit_eq_false_of_lt h1]
    have : ¬ (j % 3 = 0 ∧ j / 3 < 21) := by omega
    simp [this]

/-- Every bit of `MortonEncode x y z`: below position 63, bit `j` is bit `j / 3` of `x`, `y` or
`z` according to `j % 3`; the bits from position 63 on are 0. -/
theorem MortonEncode_testBit (x y z j : Nat) :
    (MeshTools.MortonEncode x y z).testBit j =
      (decide (j / 3 < 21) &&
        (if j % 3 = 0 then x.testBit (j / 3)
         else if j % 3 = 1 then y.testBit (j / 3) else z.testBit (j / 3))) := by
  have h : (18446744073709551616 : Nat) = 2 ^ 64 := by norm_num
  unfold MeshTools.MortonEncode
  simp only [Nat.zero_or]
  rw [h, Nat.testBit_or, Nat.testBit_or, Nat.testBit_mod_two_pow, Nat.testBit_mod_two_pow,
    Nat.testBit_shiftLeft, Nat.testBit_shiftLeft, splitBy3_testBit, splitBy3_testBit,
    splitBy3_testBit]
  have hcases : j % 3 = 0 ∨ j % 3 = 1 ∨ j % 3 = 2 := by omega
  rcases hcases with h0 | h1 | h2
  · have e1 : ¬ ((j - 1) % 3 = 0 ∧ (j - 1) / 3 < 21) ∨ ¬ (1 ≤ j) := by omega
    have e2 : ¬ ((j - 2) % 3 = 0 ∧ (j - 2) / 3 < 21) ∨ ¬ (2 ≤ j) := by omega
    by_cases hlt : j / 3 < 21
    · rcases e1 with e1 | e1 <;> rcases e2 with e2 | e2 <;> simp [h0, hlt, e1, e2]
    · have : ¬ ((j - 1) % 3 = 0 ∧ (j - 1) / 3 < 21) := by omega
      have : ¬ ((j - 2) % 3 = 0 ∧ (j - 2) / 3 < 21) := by omega
      simp [h0, hlt, *]
  · have e0 : ¬ (j % 3 = 0 ∧ j / 3 < 21) := by omega
    have e2 : ¬ ((j - 2) % 3 = 0 ∧ (j - 2) / 3 < 21) ∨ ¬ (2 ≤ j) := by omega
    have d1 : (j - 1) / 3 = j / 3 := by omega
    have m1 : (j - 1) % 3 = 0 := by omega
    have g1 : 1 ≤ j := by omega
    by_cases hlt : j / 3 < 21
    · have g64 : j < 64 := by omega
      rcases e2 with e2 | e2 <;> simp [h1, hlt, e0, e2, d1, m1, g1, g64]
    · have : ¬ ((j - 2) % 3 = 0 ∧ (j - 2) / 3 < 21) := by omega
      simp [h1, hlt, e0, d1, m1, *]
  · have e0 : ¬ (j % 3 = 0 ∧ j / 3 < 21) := by omega
    have e1 : ¬ ((j - 1) % 3 = 0 ∧ (j - 1) / 3 < 21) := by omega
    have d2 : (j - 2) / 3 = j / 3 := by omega
    have m2 : (j - 2) % 3 = 0 := by omega
    have g2 : 2 ≤ j := by omega
    by_cases hlt : j / 3 < 21
    · have g64 : j < 64 := by omega
      simp [h2, hlt, e0, e1, d2, m2, g2, g64]
    · simp [h2, hlt, e0, e1, d2, m2]

/-! ## Claims on Morton codes -/

theorem MortonEncode_component_bits (x y z i : Nat) (hi : i < 21) :
    (MeshTools.MortonEncode x y z).testBit (3 * i) = x.testBit i ∧
    (MeshTools.MortonEncode x y z).testBit (3 * i + 1) = y.testBit i ∧
    (MeshTools.MortonEncode x y z).testBit (3 * i + 2) = z.testBit i := by
  refine ⟨?_, ?_, ?_⟩
  · rw [MortonEncode_testBit]
    have h1 : 3 * i / 3 = i := by omega
    have h2 : 3 * i % 3 = 0 := by omega
    simp [h1, h2, hi]
  · rw [MortonEncode_testBit]
    have h1 : (3 * i + 1) / 3 = i := by omega
    have h2 : (3 * i + 1) % 3 = 1 := by omega
    simp [h1, h2, hi]
  · rw [MortonEncode_testBit]
    have h1 : (3 * i + 2) / 3 = i := by omega
    have h2 : (3 * i + 2) % 3 = 2 := by omega
    simp [h1, h2, hi]

theorem eq_of_low21_testBit (x x2 : Nat) (hx : x < 2 ^ 21) (hx2 : x2 < 2 ^ 21)
    (h : ∀ i, i < 21 → x.testBit i = x2.testBit i) : x = x2 := by
  apply Nat.eq_of_testBit_eq
  intro i
  by_cases hi : i < 21
  · exact h i hi
  · have hp : (2 : Nat) ^ 21 ≤ 2 ^ i := Nat.pow_le_pow_right (by norm_num) (by omega)
    rw [Nat.testBit_eq_false_of_lt (by omega), Nat.testBit_eq_false_of_lt (by omega)]

/-- C36. For every argument `a` and every `i < 21`, bit `3 i` of `splitBy3 a` is bit `i` of
`a`, and every bit of the result at a position that is not `3 i` for some `i < 21` is 0.
`MortonEncode x y z` has bit `i` of `x` at position `3 i`, bit `i` of `y` at position `3 i + 1`
and bit `i` of `z` at position `3 i + 2` for every `i < 21`, and zeros from position 63 on; it
is injective on triples of coordinates below `2 ^ 21`. -/
theorem splitBy3_spreads_the_low_21_bits :
    (∀ a i : Nat, i < 21 → (MeshTools.splitBy3 a).testBit (3 * i) = a.testBit i) ∧
    (∀ a j : Nat, (∀ i, i < 21 → j ≠ 3 * i) → (MeshTools.splitBy3 a).testBit j = false) ∧
    (∀ x y z i : Nat, i < 21 →
      (MeshTools.MortonEncode x y z).testBit (3 * i) = x.testBit i ∧
      (MeshTools.MortonEncode x y z).testBit (3 * i + 1) = y.testBit i ∧
      (MeshTools.MortonEncode x y z).testBit (3 * i + 2) = z.testBit i) ∧
    (∀ x y z j : Nat, 63 ≤ j → (MeshTools.MortonEncode x y z).testBit j = false) ∧
    (∀ x y z x2 y2 z2 : Nat, x < 2 ^ 21 → y < 2 ^ 21 → z < 2 ^ 21 →
      x2 < 2 ^ 21 → y2 < 2 ^ 21 → z2 < 2 ^ 21 →
      MeshTools.MortonEncode x y z = MeshTools.MortonEncode x2 y2 z2 →
      x = x2 ∧ y = y2 ∧ z = z2) := by
  refine ⟨?_, ?_, MortonEncode_component_bits, ?_, ?_⟩
  · intro a i hi
    rw [splitBy3_testBit]
    have h1 : 3 * i / 3 = i := by omega
    have h2 : 3 * i % 3 = 0 := by omega
    simp [h1, h2, hi]
  · intro a j hj
    rw [splitBy3_testBit]
    have : ¬ (j % 3 = 0 ∧ j / 3 < 21) := by
      rintro ⟨h1, h2⟩
      exact hj (j / 3) h2 (by omega)
    simp [this]
  · intro x y z j hj
    rw [MortonEncode_testBit]
    have : ¬ (j / 3 < 21) := by omega
    simp [this]
  · intro x y z x2 y2 z2 hx hy hz hx2 hy2 hz2 h
    refine ⟨eq_of_low21_testBit x x2 hx hx2 ?_, eq_of_low21_testBit y y2 hy hy2 ?_,
      eq_of_low21_testBit z z2 hz hz2 ?_⟩
    · intro i hi
      rw [← (MortonEncode_component_bits x y z i hi).1, h,
        (MortonEncode_component_bits x2 y2 z2 i hi).1]
    · intro i hi
      rw [← (MortonEncode_component_bits x y z i hi).2.1, h,
        (MortonEncode_component_bits x2 y2 z2 i hi).2.1]
    · intro i hi
      rw [← (MortonEncode_component_bits x y z i hi).2.2, h,
        (MortonEncode_component_bits x2 y2 z2 i hi).2.2]

/-! ## Format information -/

/-- C32, evaluation at the failing input. For `B5G5R5A1_UNORM`, a format that `GetFormatInfo`
defines, `blockBits_` is 17 (the case sets `gBits_` to 6), which is not a multiple of 8. For
every other format that `GetFormatInfo` defines, `blockBits_` is a positive multiple of 8 and
`blockW_` and `blockH_` are positive. -/
theorem GetFormatInfo_B5G5R5A1_has_17_bits :
    GPU.Format.B5G5R5A1_UNORM.isDefined = true ∧
    (GPU.GetFormatInfo GPU.Format.B5G5R5A1_UNORM).gBits_ = 6 ∧
    (GPU.GetFormatInfo GPU.Format.B5G5R5A1_UNORM).blockBits_ = 17 ∧
    ¬ (8 : Int) ∣ (GPU.GetFormatInfo GPU.Format.B5G5R5A1_UNORM).blockBits_ ∧
    ∀ format : GPU.Format, format.isDefined = true → format ≠ GPU.Format.B5G5R5A1_UNORM →
      0 < (GPU.GetFormatInfo format).blockBits_ ∧
      (8 : Int) ∣ (GPU.GetFormatInfo format).blockBits_ ∧
      0 < (GPU.GetFormatInfo format).blockW_ ∧ 0 < (GPU.GetFormatInfo format).blockH_ := by
  refine ⟨by decide, by decide, by decide, by decide, ?_⟩
  intro format
  cases format <;> decide

/-- C33, evaluation at the failing input. `GetFormatInfo` gives `R24G8_TYPELESS` 56 bits (its
case sets `gBits_` to 32) and `X32_TYPELESS_G8X24_UINT` 88 bits (`gBits_` 32, `xBits_` 56),
whereas the formats they are converted to and from have 32 and 64 bits. So `GetDSVFormat`
preserves `blockBits_` exactly for the convertible formats other than these two,
`GetSRVFormatDepth` exactly for those other than `R24G8_TYPELESS`, and `GetSRVFormatStencil` for
`D24_UNORM_S8_UINT` alone. -/
theorem GetDSVFormat_R24G8_changes_block_bits :
    GPU.GetDSVFormat GPU.Format.R24G8_TYPELESS = GPU.Format.D24_UNORM_S8_UINT ∧
    (GPU.GetFormatInfo GPU.Format.R24G8_TYPELESS).blockBits_ = 56 ∧
    (GPU.GetFormatInfo GPU.Format.D24_UNORM_S8_UINT).blockBits_ = 32 ∧
    (GPU.GetFormatInfo GPU.Format.X32_TYPELESS_G8X24_UINT).blockBits_ = 88 ∧
    (GPU.GetFormatInfo GPU.Format.D32_FLOAT_S8X24_UINT).blockBits_ = 64 ∧
    ∀ format : GPU.Format,
      (GPU.GetDSVFormat format ≠ GPU.Format.INVALID →
        ((GPU.GetFormatInfo (GPU.GetDSVFormat format)).blockBits_ =
            (GPU.GetFormatInfo format).blockBits_ ↔
          format ≠ GPU.Format.R24G8_TYPELESS ∧
            format ≠ GPU.Format.X32_TYPELESS_G8X24_UINT)) ∧
      (GPU.GetSRVFormatDepth format ≠ GPU.Format.INVALID →
        ((GPU.GetFormatInfo (GPU.GetSRVFormatDepth format)).blockBits_ =
            (GPU.GetFormatInfo format).blockBits_ ↔
          format ≠ GPU.Format.R24G8_TYPELESS)) ∧
      (GPU.GetSRVFormatStencil format ≠ GPU.Format.INVALID →
        ((GPU.GetFormatInfo (GPU.GetSRVFormatStencil format)).blockBits_ =
            (GPU.GetFormatInfo format).blockBits_ ↔
          format = GPU.Format.D24_UNORM_S8_UINT)) := by
  refine ⟨by decide, by decide, by decide, by decide, by decide, ?_⟩
  intro format
  cases format <;> decide

/-- The block dimensions and bit counts that `GetFormatInfo` returns are small and
non-negative. -/
theorem GetFormatInfo_bounds (format : GPU.Format) :
    0 ≤ (GPU.GetFormatInfo format).blockBits_ ∧ (GPU.GetFormatInfo format).blockBits_ ≤ 128 ∧
    0 ≤ (GPU.GetFormatInfo format).blockW_ ∧ (GPU.GetFormatInfo format).blockW_ ≤ 8 ∧
    0 ≤ (GPU.GetFormatInfo format).blockH_ ∧ (GPU.GetFormatInfo format).blockH_ ≤ 4 := by
  cases format <;> decide

/-! ## Texture size and footprint -/

theorem wrapI64_of_range (x : Int) (h1 : -9223372036854775808 ≤ x)
    (h2 : x ≤ 9223372036854775807) : wrapI64 x = x := by
  unfold wrapI64; omega

theorem PotRoundUp_of_dvd (value roundUpTo : Int) (h0 : 0 < roundUpTo)
    (h : roundUpTo ∣ value) : PotRoundUp value roundUpTo = value := by
  obtain ⟨k, rfl⟩ := h
  unfold PotRoundUp
  have h1 : (roundUpTo * k + (roundUpTo - 1)) / roundUpTo = k := by
    rw [add_comm, Int.add_mul_ediv_left _ _ (ne_of_gt h0),
      Int.ediv_eq_zero_of_lt (by omega) (by omega)]
    simp
  rw [h1, mul_comm]

theorem tdiv_of_nonneg (a b : Int) (ha : 0 ≤ a) (hb : 0 ≤ b) : Int.tdiv a b = a / b :=
  Int.tdiv_eq_ediv ha hb

/-- C34, counterexample. The format `R32G32B32A32_FLOAT` has blocks of one texel and 128 bits, a
multiple of 8, and 16384 is a positive multiple of the block width and height. For a texture of
16384 by 16384 texels `GetTextureSize` returns 4294967296 (computed in `i64`), whereas
`GetTextureFootprint` returns the row pitch 262144 and the slice pitch 0: the product
262144 * 16384 is 2^32 and wraps in `i32`. No assertion is violated. -/
theorem GetTextureSize_differs_from_footprint_slicePitch :
    (8 : Int) ∣ (GPU.GetFormatInfo GPU.Format.R32G32B32A32_FLOAT).blockBits_ ∧
    (GPU.GetFormatInfo GPU.Format.R32G32B32A32_FLOAT).blockW_ ∣ (16384 : Int) ∧
    (GPU.GetFormatInfo GPU.Format.R32G32B32A32_FLOAT).blockH_ ∣ (16384 : Int) ∧
    GPU.GetTextureSize GPU.Format.R32G32B32A32_FLOAT 16384 16384 1 1 1 = some 4294967296 ∧
    ((GPU.GetTextureFootprint GPU.Format.R32G32B32A32_FLOAT 16384 16384 1 0 0).map fun fp =>
      (fp.footprint.rowPitch_, fp.footprint.slicePitch_, fp.assertFailed)) =
        some (262144, 0, false) := by
  refine ⟨by decide, by decide, by decide, by decide, by decide⟩

/-- C34, amended. For every format whose `blockBits_` is a multiple of 8 and all `i32` widths
and heights that are positive multiples of `blockW_` and `blockH_`, when the row pitch in bits
`(width / blockW_) * blockBits_` and the slice pitch in bytes are representable as `i32`:
`GetTextureFootprint(format, width, height, 1, 0, 0)` returns without a violated assertion, its
`rowPitch_` is `(width / blockW_) * blockBits_ / 8`, and
`GetTextureSize(format, width, height, 1, 1, 1)` returns its `slicePitch_`. -/
theorem GetTextureSize_eq_footprint_slicePitch (format : GPU.Format) (width height : Int)
    (hbits : (8 : Int) ∣ (GPU.GetFormatInfo format).blockBits_)
    (hw : 0 < width) (hwd : (GPU.GetFormatInfo format).blockW_ ∣ width)
    (hh : 0 < height) (hhd : (GPU.GetFormatInfo format).blockH_ ∣ height)
    (hwmax : width ≤ 2147483647) (hhmax : height ≤ 2147483647)
    (hrow : width / (GPU.GetFormatInfo format).blockW_ * (GPU.GetFormatInfo format).blockBits_
      ≤ 2147483647)
    (hslice : width / (GPU.GetFormatInfo format).blockW_ *
      (GPU.GetFormatInfo format).blockBits_ / 8 *
        (height / (GPU.GetFormatInfo format).blockH_) ≤ 2147483647) :
    ∃ fp, GPU.GetTextureFootprint format width height 1 0 0 = some fp ∧
      fp.assertFailed = false ∧
      fp.footprint.rowPitch_ =
        width / (GPU.GetFormatInfo format).blockW_ * (GPU.GetFormatInfo format).blockBits_ / 8 ∧
      GPU.GetTextureSize format width height 1 1 1 = some fp.footprint.slicePitch_ := by
  obtain ⟨b0, b1, w0, w1, h0, h1⟩ := GetFormatInfo_bounds format
  generalize hbw : (GPU.GetFormatInfo format).blockW_ = bw at *
  generalize hbh : (GPU.GetFormatInfo format).blockH_ = bh at *
  generalize hbb : (GPU.GetFormatInfo format).blockBits_ = bits at *
  have hbwpos : 0 < bw := by
    rcases lt_or_eq_of_le w0 with h | h
    · exact h
    · rw [← h] at hwd
      have := zero_dvd_iff.1 hwd
      omega
  have hbhpos : 0 < bh := by
    rcases lt_or_eq_of_le h0 with h | h
    · exact h
    · rw [← h] at hhd
      have := zero_dvd_iff.1 hhd
      omega
  obtain ⟨kw, rfl⟩ := hwd
  obtain ⟨kh, rfl⟩ := hhd
  obtain ⟨kb, rfl⟩ := hbits
  have hkw : bw * kw / bw = kw := Int.mul_ediv_cancel_left _ (ne_of_gt hbwpos)
  have hkh : bh * kh / bh = kh := Int.mul_ediv_cancel_left _ (ne_of_gt hbhpos)
  rw [hkw] at hrow hslice ⊢
  rw [hkh] at hslice
  have hkwpos : 0 < kw := by
    by_contra hc
    have : bw * kw ≤ 0 := Int.mul_nonpos_of_nonneg_of_nonpos (le_of_lt hbwpos) (by omega)
    omega
  have hkhpos : 0 < kh := by
    by_contra hc
    have : bh * kh ≤ 0 := Int.mul_nonpos_of_nonneg_of_nonpos (le_of_lt hbhpos) (by omega)
    omega
  have hkb : 0 ≤ kb := by omega
  have hkwle : kw ≤ bw * kw := by nlinarith
  have hkhle : kh ≤ bh * kh := by nlinarith
  have hrowdiv : kw * (8 * kb) / 8 = kw * kb := by
    rw [show kw * (8 * kb) = 8 * (kw * kb) by ring]
    exact Int.mul_ediv_cancel_left _ (by norm_num)
  rw [hrowdiv] at hslice
  have hprod0 : 0 ≤ kw * kb := Int.mul_nonneg (le_of_lt hkwpos) hkb
  have hprod1 : 0 ≤ kw * (8 * kb) := Int.mul_nonneg (le_of_lt hkwpos) (by omega)
  have hprod2 : 0 ≤ kw * kb * kh := Int.mul_nonneg hprod0 (le_of_lt hkhpos)
  -- the footprint
  have e1 : wrapI32 (Int.tdiv (bw * kw) bw) = kw := by
    rw [tdiv_of_nonneg _ _ (by omega) (by omega), hkw]
    exact wrapI32_of_range _ (by omega) (by omega)
  have e2 : wrapI32 (Int.tdiv (bh * kh) bh) = kh := by
    rw [tdiv_of_nonneg _ _ (by omega) (by omega), hkh]
    exact wrapI32_of_range _ (by omega) (by omega)
  have e3 : wrapI32 (kw * (8 * kb)) = kw * (8 * kb) :=
    wrapI32_of_range _ (by omega) hrow
  have e4 : Int.tdiv (kw * (8 * kb)) 8 = kw * kb := by
    rw [tdiv_of_nonneg _ _ hprod1 (by norm_num), hrowdiv]
  have e5 : wrapI32 (kw * kb * kh) = kw * kb * kh :=
    wrapI32_of_range _ (by omega) hslice
  have hfp : GPU.GetTextureFootprint format (bw * kw) (bh * kh) 1 0 0 =
      some { footprint :=
               { format_ := format, width_ := bw * kw, height_ := bh * kh, depth_ := 1,
                 rowPitch_ := kw * kb, slicePitch_ := kw * kb * kh },
             assertFailed := false } := by
    unfold GPU.GetTextureFootprint
    simp only [hbw, hbh, hbb]
    rw [if_neg (by omega)]
    simp only [e1, e2, max_eq_right (show (1 : Int) ≤ kw by omega),
      max_eq_right (show (1 : Int) ≤ kh by omega), e3, e4, e5]
    simp [show (0 : Int) ≤ bw * kw by omega, show (0 : Int) ≤ bh * kh by omega, e5]
  refine ⟨_, hfp, rfl, ?_, ?_⟩
  · show kw * kb = kw * (8 * kb) / 8
    rw [hrowdiv]
  · show GPU.GetTextureSize format (bw * kw) (bh * kh) 1 1 1 = some (kw * kb * kh)
    have p1 : wrapI32 (PotRoundUp (bw * kw) bw) = bw * kw := by
      rw [PotRoundUp_of_dvd _ _ hbwpos (Dvd.intro _ rfl)]
      exact wrapI32_of_range _ (by omega) hwmax
    have p2 : wrapI32 (PotRoundUp (bh * kh) bh) = bh * kh := by
      rw [PotRoundUp_of_dvd _ _ hbhpos (Dvd.intro _ rfl)]
      exact wrapI32_of_range _ (by omega) hhmax
    have q1 : Int.tdiv (bw * kw) bw = kw := by
      rw [tdiv_of_nonneg _ _ (by omega) (by omega), hkw]
    have q2 : Int.tdiv (bh * kh) bh = kh := by
      rw [tdiv_of_nonneg _ _ (by omega) (by omega), hkh]
    have hbig : 8 * kb * kw * kh ≤ 2147483647 * 2147483647 := by
      have a1 : 8 * kb * kw ≤ 2147483647 := by
        have : 8 * kb * kw = kw * (8 * kb) := by ring
        omega
      have a2 : 0 ≤ 8 * kb * kw := by
        have : 8 * kb * kw = kw * (8 * kb) := by ring
        omega
      have a3 : kh ≤ 2147483647 := by omega
      calc 8 * kb * kw * kh ≤ 2147483647 * kh := Int.mul_le_mul_of_nonneg_right a1 (by omega)
        _ ≤ 2147483647 * 2147483647 := Int.mul_le_mul_of_nonneg_left a3 (by norm_num)
    have hnn1 : 0 ≤ 8 * kb * kw := Int.mul_nonneg (by omega) (by omega)
    have hnn2 : 0 ≤ 8 * kb * kw * kh := Int.mul_nonneg hnn1 (by omega)
    have hle1 : 8 * kb * kw ≤ 2147483647 := by
      have : 8 * kb * kw = kw * (8 * kb) := by ring
      omega
    have r1 : wrapI64 (8 * kb * kw) = 8 * kb * kw :=
      wrapI64_of_range _ (by omega) (by omega)
    have r2 : wrapI64 (8 * kb * kw * kh) = 8 * kb * kw * kh :=
      wrapI64_of_range _ (by omega) (by norm_num at hbig; omega)
    have r3 : Int.tdiv (8 * kb * kw * kh) 8 = kw * kb * kh := by
      rw [tdiv_of_nonneg _ _ hnn2 (by norm_num),
        show 8 * kb * kw * kh = 8 * (kw * kb * kh) by ring]
      exact Int.mul_ediv_cancel_left _ (by norm_num)
    have r4 : wrapI64 (kw * kb * kh) = kw * kb * kh :=
      wrapI64_of_range _ (by omega) (by omega)
    unfold GPU.GetTextureSize
    have hrange : List.range (1 : Int).toNat = [0] := by decide
    rw [hrange]
    simp only [List.foldlM_cons, List.foldlM_nil, GPU.GetTextureSize.level, hbw, hbh, hbb]
    rw [if_neg (by omega)]
    simp only [p1, p2, q1, q2, r1, r2, mul_one, r3, zero_add, r4, Option.bind_eq_bind,
      Option.some_bind, Option.pure_def, Option.map_some']

/-- Witness for C34: the block-compressed format `BC1_UNORM` (blocks of 4 by 4 texels, 64 bits)
with a 16 by 8 texture: the row pitch is 32 bytes, the slice pitch and the size are 64 bytes. -/
theorem GetTextureSize_eq_footprint_slicePitch_witness :
    ∃ fp, GPU.GetTextureFootprint GPU.Format.BC1_UNORM 16 8 1 0 0 = some fp ∧
      fp.assertFailed = false ∧
      fp.footprint.rowPitch_ =
        16 / (GPU.GetFormatInfo GPU.Format.BC1_UNORM).blockW_ *
          (GPU.GetFormatInfo GPU.Format.BC1_UNORM).blockBits_ / 8 ∧
      GPU.GetTextureSize GPU.Format.BC1_UNORM 16 8 1 1 1 = some fp.footprint.slicePitch_ :=
  GetTextureSize_eq_footprint_slicePitch GPU.Format.BC1_UNORM 16 8 (by decide) (by decide)
    (by decide) (by decide) (by decide) (by decide) (by decide) (by decide) (by decide)

/-! ## Vertex strides -/

theorem VertexElement_size_bounds (e : GPU.VertexElement) : 0 ≤ e.size ∧ e.size ≤ 16 := by
  obtain ⟨b0, b1, _⟩ := GetFormatInfo_bounds e.format_
  unfold GPU.VertexElement.size
  rw [Int.tdiv_eq_ediv b0 (by norm_num)]
  omega

/-- Within the range of `i32`, the `u32` arithmetic of one iteration of `GetStride` is exact. -/
theorem GetStride_step_exact (s stride : Int) (e : GPU.VertexElement)
    (h : e.streamIdx_ = s → 0 ≤ e.offset_ ∧ e.offset_ + e.size ≤ 2147483647) :
    GPU.GetStride.step s stride e =
      if e.streamIdx_ = s then max stride (e.offset_ + e.size) else stride := by
  unfold GPU.GetStride.step
  by_cases hs : e.streamIdx_ = s
  · obtain ⟨h0, h1⟩ := h hs
    obtain ⟨z0, z1⟩ := VertexElement_size_bounds e
    rw [if_pos hs, if_pos hs]
    show max stride (wrapU32 (wrapU32 e.offset_ + wrapU32 e.size)) = _
    have a1 : wrapU32 e.offset_ = e.offset_ := by unfold wrapU32; omega
    have a2 : wrapU32 e.size = e.size := by unfold wrapU32; omega
    have a3 : wrapU32 (e.offset_ + e.size) = e.offset_ + e.size := by unfold wrapU32; omega
    rw [a1, a2, a3]
  · rw [if_neg hs, if_neg hs]

/-- The loop of `GetStride` over the whole array is a left fold of its iteration. -/
theorem GetStride_loop_eq (s : Int) (rest : List GPU.VertexElement) :
    ∀ (pre : List GPU.VertexElement) (stride : Int),
      (List.range' pre.length rest.length).foldlM
        (fun (stride : Int) (elementIdx : Nat) =>
          match (pre ++ rest)[elementIdx]? with
          | none => none
          | some element => some (GPU.GetStride.step s stride element)) stride
        = some (rest.foldl (GPU.GetStride.step s) stride) := by
  induction rest with
  | nil => intro pre stride; rfl
  | cons e rest ih =>
    intro pre stride
    have hget : (pre ++ e :: rest)[pre.length]? = some e := by
      rw [List.getElem?_append_right (le_refl _)]; simp
    rw [List.length_cons, List.range'_succ, List.foldlM_cons, hget]
    have ih2 := ih (pre ++ [e]) (GPU.GetStride.step s stride e)
    rw [List.append_assoc, List.singleton_append, List.length_append, List.length_singleton]
      at ih2
    simpa using ih2

theorem GetStride_eq_foldl (elements : List GPU.VertexElement) (s : Int) :
    GPU.GetStride elements elements.length s =
      some (wrapI32 (elements.foldl (GPU.GetStride.step s) 0)) := by
  unfold GPU.GetStride
  have h := GetStride_loop_eq s elements [] 0
  simp only [List.length_nil, List.nil_append] at h
  rw [Int.toNat_ofNat, List.range_eq_range']
  exact congrArg (Option.map wrapI32) h

/-- The fold of the iterations of `GetStride` computes a maximum. -/
theorem GetStride_foldl_max (s : Int) (es : List GPU.VertexElement) :
    ∀ (stride : Int), 0 ≤ stride → stride ≤ 2147483647 →
      (∀ e ∈ es, e.streamIdx_ = s → 0 ≤ e.offset_ ∧ e.offset_ + e.size ≤ 2147483647) →
      stride ≤ es.foldl (GPU.GetStride.step s) stride ∧
      es.foldl (GPU.GetStride.step s) stride ≤ 2147483647 ∧
      (∀ e ∈ es, e.streamIdx_ = s → e.offset_ + e.size ≤ es.foldl (GPU.GetStride.step s) stride) ∧
      (es.foldl (GPU.GetStride.step s) stride = stride ∨
        ∃ e ∈ es, e.streamIdx_ = s ∧
          es.foldl (GPU.GetStride.step s) stride = e.offset_ + e.size) := by
  induction es with
  | nil =>
    intro stride h0 h1 _
    refine ⟨le_refl _, h1, ?_, Or.inl rfl⟩
    intro e he
    cases he
  | cons e es ih =>
    intro stride h0 h1 hdom
    have hstep := GetStride_step_exact s stride e (hdom e (List.mem_cons_self _ _))
    have hrest : ∀ x ∈ es, x.streamIdx_ = s →
        0 ≤ x.offset_ ∧ x.offset_ + x.size ≤ 2147483647 :=
      fun x hx => hdom x (List.mem_cons_of_mem _ hx)
    rw [List.foldl_cons]
    by_cases hs : e.streamIdx_ = s
    · obtain ⟨d0, d1⟩ := hdom e (List.mem_cons_self _ _) hs
      rw [if_pos hs] at hstep
      obtain ⟨i1, i2, i3, i4⟩ := ih (GPU.GetStride.step s stride e)
        (by rw [hstep]; exact le_trans h0 (le_max_left _ _))
        (by rw [hstep]; exact max_le h1 d1) hrest
      refine ⟨le_trans (by rw [hstep]; exact le_max_left _ _) i1, i2, ?_, ?_⟩
      · intro x hx hxs
        rcases List.mem_cons.1 hx with rfl | hx
        · exact le_trans (by rw [hstep]; exact le_max_right _ _) i1
        · exact i3 x hx hxs
      · rcases i4 with i4 | ⟨x, hx, hxs, hxe⟩
        · rw [i4, hstep]
          rcases le_total stride (e.offset_ + e.size) with hle | hle
          · right
            exact ⟨e, List.mem_cons_self _ _, hs, max_eq_right hle⟩
          · left
            exact max_eq_left hle
        · right
          exact ⟨x, List.mem_cons_of_mem _ hx, hxs, hxe⟩
    · rw [if_neg hs] at hstep
      rw [hstep]
      obtain ⟨i1, i2, i3, i4⟩ := ih stride h0 h1 hrest
      refine ⟨i1, i2, ?_, ?_⟩
      · intro x hx hxs
        rcases List.mem_cons.1 hx with rfl | hx
        · exact absurd hxs hs
        · exact i3 x hx hxs
      · rcases i4 with i4 | ⟨x, hx, hxs, hxe⟩
        · exact Or.inl i4
        · exact Or.inr ⟨x, List.mem_cons_of_mem _ hx, hxs, hxe⟩

/-- Running the loop "Calculate offsets per-stream" appends the elements with their offsets
assigned; for a stream whose running offset is `o`, the stride loop over the appended elements,
started from `o`, ends at `o` plus the byte sizes of the stream's appended elements. -/
theorem calculateOffsets_fold (declared : List GPU.VertexElement) :
    ∀ (acc : List GPU.VertexElement) (offs : List Int)
      (st : List GPU.VertexElement × List Int),
      declared.foldlM CompressedModel.calculateOffsets.step (acc, offs) = some st →
      ∃ new, st.1 = acc ++ new ∧
        ∀ (s o : Int), 0 ≤ s → offs[s.toNat]? = some o → 0 ≤ o →
          (∀ e ∈ new, e.streamIdx_ = s → 0 ≤ e.offset_ ∧ e.offset_ + e.size ≤ 2147483647) →
          new.foldl (GPU.GetStride.step s) o =
            o + sumInts ((new.filter fun e => decide (e.streamIdx_ = s)).map
              GPU.VertexElement.size) := by
  induction declared with
  | nil =>
    intro acc offs st h
    simp only [List.foldlM_nil, Option.pure_def, Option.some.injEq] at h
    subst h
    refine ⟨[], by simp, ?_⟩
    intro s o _ _ _ _
    simp [sumInts]
  | cons e rest ih =>
    intro acc offs st h
    rw [List.foldlM_cons] at h
    unfold CompressedModel.calculateOffsets.step at h
    by_cases hneg : e.streamIdx_ < 0
    · rw [if_pos hneg] at h
      cases h
    · rw [if_neg hneg] at h
      cases hot : offs[e.streamIdx_.toNat]? with
      | none =>
        simp only [hot] at h
        cases h
      | some ot =>
        simp only [hot, Option.bind_eq_bind, Option.some_bind] at h
        obtain ⟨new1, hnew1, hrest⟩ := ih _ _ st h
        refine ⟨{ e with offset_ := ot } :: new1, ?_, ?_⟩
        · rw [hnew1, List.append_assoc, List.singleton_append]
        · intro s o hs0 hso ho0 hdom
          have hsize : GPU.VertexElement.size { e with offset_ := ot } = e.size := rfl
          have hdom1 : ∀ x ∈ new1, x.streamIdx_ = s →
              0 ≤ x.offset_ ∧ x.offset_ + x.size ≤ 2147483647 :=
            fun x hx => hdom x (List.mem_cons_of_mem _ hx)
          have hstep := GetStride_step_exact s o { e with offset_ := ot }
            (hdom _ (List.mem_cons_self _ _))
          rw [List.foldl_cons, hstep]
          by_cases hes : e.streamIdx_ = s
          · subst hes
            rw [hot] at hso
            cases hso
            obtain ⟨_, d1⟩ := hdom _ (List.mem_cons_self _ _) rfl
            obtain ⟨z0, _⟩ := VertexElement_size_bounds e
            rw [hsize] at d1
            have d1 : ot + e.size ≤ 2147483647 := d1
            have hmax : max ot (ot + e.size) = ot + e.size := max_eq_right (by omega)
            have hwrap : wrapI32 (ot + Int.tdiv (GPU.GetFormatInfo e.format_).blockBits_ 8) =
                ot + e.size := wrapI32_of_range _ (by unfold GPU.VertexElement.size at z0; omega) d1
            have hget : (offs.set e.streamIdx_.toNat
                (wrapI32 (ot + Int.tdiv (GPU.GetFormatInfo e.format_).blockBits_ 8)))[
                  e.streamIdx_.toNat]? = some (ot + e.size) := by
              rw [hwrap]
              have hlt : e.streamIdx_.toNat < offs.length := by
                rcases Nat.lt_or_ge e.streamIdx_.toNat offs.length with h | h
                · exact h
                · rw [List.getElem?_eq_none h] at hot
                  cases hot
              simp [List.getElem?_set, hlt]
            have := hrest e.streamIdx_ (ot + e.size) hs0 hget (by omega) hdom1
            simp only [if_true, hsize, hmax]
            rw [this]
            simp [List.filter_cons, sumInts, hsize]
            omega
          · have hne : e.streamIdx_.toNat ≠ s.toNat := by omega
            have hget : (offs.set e.streamIdx_.toNat
                (wrapI32 (ot + Int.tdiv (GPU.GetFormatInfo e.format_).blockBits_ 8)))[
                  s.toNat]? = some o := by
              rw [List.getElem?_set_ne hne]
              exact hso
            have := hrest s o hs0 hget ho0 hdom1
            simp only [hes, if_false]
            rw [this]
            simp [List.filter_cons, hes]

/-- C35. `GetStride(elements, n, s)` on an array of `n` elements whose offsets and ends on stream
`s` are non-negative `i32` values returns the maximum of `offset_ + blockBits_ / 8` over the
elements of stream `s`: every such value is at most the result, and the result is one of them
or `0`, and it is `0` when the stream has no element. When the offsets were assigned by the loop
"Calculate offsets per-stream" of the `CompressedModel` constructor (the running sum of the
element sizes in declaration order), the result is the sum of the byte sizes of the elements of
stream `s`. -/
theorem GetStride_is_maximum_and_running_sum (elements : List GPU.VertexElement) (s : Int)
    (hdom : ∀ e ∈ elements, e.streamIdx_ = s →
      0 ≤ e.offset_ ∧ e.offset_ + e.size ≤ 2147483647) :
    ∃ r, GPU.GetStride elements elements.length s = some r ∧
      (∀ e ∈ elements, e.streamIdx_ = s → e.offset_ + e.size ≤ r) ∧
      (r = 0 ∨ ∃ e ∈ elements, e.streamIdx_ = s ∧ r = e.offset_ + e.size) ∧
      ((∀ e ∈ elements, e.streamIdx_ ≠ s) → r = 0) ∧
      (∀ (MAX_VERTEX_STREAMS : Nat) (declared : List GPU.VertexElement),
        0 ≤ s → s < MAX_VERTEX_STREAMS →
        CompressedModel.calculateOffsets MAX_VERTEX_STREAMS declared = some elements →
        r = sumInts ((elements.filter fun e => decide (e.streamIdx_ = s)).map
          GPU.VertexElement.size)) := by
  obtain ⟨m1, m2, m3, m4⟩ := GetStride_foldl_max s elements 0 (le_refl _) (by norm_num) hdom
  have hwrap : wrapI32 (elements.foldl (GPU.GetStride.step s) 0) =
      elements.foldl (GPU.GetStride.step s) 0 := wrapI32_of_range _ (by omega) m2
  refine ⟨_, by rw [GetStride_eq_foldl, hwrap], m3, m4, ?_, ?_⟩
  · intro hno
    rcases m4 with m4 | ⟨e, he, hes, _⟩
    · exact m4
    · exact absurd hes (hno e he)
  · intro N declared hs0 hsN hcalc
    unfold CompressedModel.calculateOffsets at hcalc
    cases hf : declared.foldlM CompressedModel.calculateOffsets.step
        ([], List.replicate N 0) with
    | none => rw [hf] at hcalc; cases hcalc
    | some st =>
      rw [hf] at hcalc
      simp only [Option.map_some', Option.some.injEq] at hcalc
      obtain ⟨new, hnew, hsum⟩ := calculateOffsets_fold declared _ _ st hf
      rw [List.nil_append] at hnew
      rw [hcalc] at hnew
      subst hnew
      have hget : (List.replicate N (0 : Int))[s.toNat]? = some 0 := by
        have : s.toNat < N := by omega
        simp [List.getElem?_replicate, this]
      have := hsum s 0 hs0 hget (le_refl _) hdom
      rw [this, zero_add]

/-- Witness for C35: the vertex declaration of the `CompressedModel` constructor with its offsets
assigned (position on stream 0; normal at offset 0 and texture coordinate at offset 4 on stream
1; colour on stream 2), and stream 1. -/
theorem GetStride_is_maximum_and_running_sum_witness :
    CompressedModel.calculateOffsets 4 CompressedModel.elements =
        some [ ⟨0, 0, GPU.Format.R32G32B32_FLOAT, GPU.VertexUsage.POSITION, 0⟩,
               ⟨1, 0, GPU.Format.R8G8B8A8_SNORM, GPU.VertexUsage.NORMAL, 0⟩,
               ⟨1, 4, GPU.Format.R16G16_FLOAT, GPU.VertexUsage.TEXCOORD, 0⟩,
               ⟨2, 0, GPU.Format.R8G8B8A8_UNORM, GPU.VertexUsage.COLOR, 0⟩ ] ∧
      ∃ r, GPU.GetStride
          [ ⟨0, 0, GPU.Format.R32G32B32_FLOAT, GPU.VertexUsage.POSITION, 0⟩,
            ⟨1, 0, GPU.Format.R8G8B8A8_SNORM, GPU.VertexUsage.NORMAL, 0⟩,
            ⟨1, 4, GPU.Format.R16G16_FLOAT, GPU.VertexUsage.TEXCOORD, 0⟩,
            ⟨2, 0, GPU.Format.R8G8B8A8_UNORM, GPU.VertexUsage.COLOR, 0⟩ ] 4 1 = some r ∧
        r = 8 :=
  ⟨by decide,
   by
    obtain ⟨r, h1, _, _, _, h5⟩ := GetStride_is_maximum_and_running_sum
      [ ⟨0, 0, GPU.Format.R32G32B32_FLOAT, GPU.VertexUsage.POSITION, 0⟩,
        ⟨1, 0, GPU.Format.R8G8B8A8_SNORM, GPU.VertexUsage.NORMAL, 0⟩,
        ⟨1, 4, GPU.Format.R16G16_FLOAT, GPU.VertexUsage.TEXCOORD, 0⟩,
        ⟨2, 0, GPU.Format.R8G8B8A8_UNORM, GPU.VertexUsage.COLOR, 0⟩ ] 1 (by decide)
    exact ⟨r, h1, (h5 4 CompressedModel.elements (by decide) (by decide) (by decide)).trans
      (by decide)⟩⟩

/-! ## The binary stream only appends -/

/-- C4, evaluation at the failing input. A first frame (the three-pass scenario, `Execute` for
U, `Clear`) leaves the ids 1 and 0 in the needed-resource set of a graph without passes and
without resource descriptions. In the next frame the texture X is declared, with the reference
`(0, 0)`, and no pass has an output with that id; `Execute` for X then indexes the resource
descriptions with the stale id 1, outside the vector, and does not return. On a newly constructed
graph the same declaration and call return with the resolved version -1, the error line logged
and an empty list of executed passes. In general, when no declared pass has an output with the
id of `ref`, `Execute` returns exactly when the id of `ref` and every id of the needed-resource
set index a resource description, and a returning call has the resolved version -1, the error
line logged and an empty list of executed passes. -/
theorem Execute_unproduced_after_Clear_indexes_out_of_range :
    (Reuse.firstFrame.map fun c =>
      (c.1.resourcesNeeded_, c.1.resourceDescs_.length, c.1.renderPassEntries_)) =
        some ([1, 0], 0, []) ∧
    (Reuse.firstFrame.map fun c => (RenderGraphBuilder.CreateTexture c.1 "X" {}).2) =
      some ⟨0, 0⟩ ∧
    (Reuse.firstFrame.map fun c =>
      ((RenderGraphBuilder.CreateTexture c.1 "X" {}).1.resourceDescs_.length,
       (RenderGraphBuilder.CreateTexture c.1 "X" {}).1.renderPassEntries_)) = some (1, []) ∧
    (Reuse.firstFrame.map fun c =>
      (Execute 1 (RenderGraphBuilder.CreateTexture c.1 "X" {}).1 c.2 ⟨0, 0⟩).isSome) =
        some false ∧
    ((Execute 1 (RenderGraphBuilder.CreateTexture RenderGraph.new "X" {}).1 Scenario.gpu
      ⟨0, 0⟩).map fun r => (r.finalRes, r.errorLogged, r.renderPassEntries)) =
        some (⟨0, -1⟩, true, []) ∧
    ∀ (fuel : Nat) (impl : RenderGraphImpl) (gpu : Manager) (ref : RenderGraphResource),
      (∀ e ∈ impl.renderPassEntries_, ∀ o ∈ e.renderPass_.outputs_, o.idx_ ≠ ref.idx_) →
      ((∃ r, Execute (fuel + 1) impl gpu ref = some r) ↔
        (∀ i ∈ impl.resourcesNeeded_, impl.ValidId i) ∧ impl.ValidId ref.idx_) ∧
      ∀ r, Execute (fuel + 1) impl gpu ref = some r →
        r.finalRes = ⟨ref.idx_, -1⟩ ∧ r.errorLogged = true ∧ r.renderPassEntries = [] := by
  refine ⟨by decide, by decide, by decide, by decide, by decide, ?_⟩
  intro fuel impl gpu ref hno
  have hvalid : ∀ r, Execute (fuel + 1) impl gpu ref = some r →
      (∀ i ∈ impl.resourcesNeeded_, impl.ValidId i) ∧ impl.ValidId ref.idx_ := by
    intro r hr
    obtain ⟨t, ht, hfin, _, _, hc⟩ := Execute_some (fuel + 1) impl gpu ref r hr
    have hall := (CreateResources_some_iff _ gpu).1 ⟨_, hc⟩
    have hidx : (Execute.findNewest impl.renderPassEntries_ ref).idx_ = ref.idx_ :=
      (findNewest_spec impl.renderPassEntries_ ref).1
    have hin : ref.idx_ ∈ t.2 := by
      have := (walkTrace_ids impl.renderPassEntries_ (fuel + 1) _ t ht).2.1
        (Execute.findNewest impl.renderPassEntries_ ref) (List.mem_singleton.2 rfl)
      rw [hidx] at this
      exact this
    refine ⟨fun i hi => ?_, ?_⟩
    · exact hall i ((mem_foldl_insert _ _ _).2 (Or.inl hi))
    · exact hall _ ((mem_foldl_insert _ _ _).2 (Or.inr hin))
  refine ⟨⟨fun ⟨r, hr⟩ => hvalid r hr, fun ⟨hneeded, href⟩ => ?_⟩, ?_⟩
  · obtain ⟨r, hr, _⟩ := Execute_unproduced_resource_of_valid fuel impl gpu ref hno hneeded href
    exact ⟨r, hr⟩
  · intro r hr
    obtain ⟨hneeded, href⟩ := hvalid r hr
    obtain ⟨r2, hr2, h1, h2, h3⟩ :=
      Execute_unproduced_resource_of_valid fuel impl gpu ref hno hneeded href
    rw [hr] at hr2
    cases hr2
    exact ⟨h1, h2, h3⟩

end Graphics
